import Mathlib

/-!
Verification of the jira-hierarchy-server core: a shallow embedding of the
hierarchy-reconstruction and incremental-streaming engine
(`jira_hierarchy/sse.py`, `jira_hierarchy/data_fetcher.py`,
`jira_hierarchy/jira_client.py`, `jira_hierarchy/server.py`) together with
proofs about its behaviour.

Modelling conventions:
* A raw JIRA record (`RawIssue`) models a decoded JSON issue.  A Python
  `dict.get(k, default)` on an absent key is modelled by `Option`; for the
  nested-object fields where the source distinguishes an absent key from a
  present JSON `null` (a `null` makes the chained `.get` raise an
  `AttributeError`), the model uses `Option (Option _)`: `none` = key absent,
  `some none` = key present but `null`, `some (some x)` = object `x`.
  Fields read with the one-argument `dict.get` (assignee, reporter, the two
  custom fields) collapse absent and `null` exactly as Python does.
* Python exceptions are the `PyError` type; fallible code returns `Except`.
* The remote issue store is out of scope of the repository; each flow is a
  function of a `Store` record whose fields give the store's response to the
  exact query shapes built by the source (one field per JQL template, keyed by
  the parent-key list interpolated into the template).
-/

namespace JiraHierarchy

/-- A JSON object carrying only a `name` attribute (status, priority,
issuetype objects); `name` itself may be absent. -/
structure NamedF where
  name : Option String
deriving DecidableEq

/-- A JIRA user object (assignee / reporter / comment author). -/
structure UserF where
  displayName : Option String
  name : Option String
deriving DecidableEq

/-- One entry of a raw comment list: `body`, `author`, `created`, each
possibly absent.  (A JSON-`null` author object is outside the model; the
source's `c.get('author', ZZ)` collapses the absent case only.) -/
structure RawComment where
  body : Option String
  author : Option UserF
  created : Option String
deriving DecidableEq

/-- The `comment` container object: `fields['comment']['comments']`. -/
structure CommentF where
  comments : Option (List RawComment)
deriving DecidableEq

/-- One entry of `fields['issuelinks']`: the keys of the issues at either end
of the link, when present.  The source only ever reads
`link.get('inwardIssue', ZZ).get('key')` and the outward twin, so the model
keeps just those two keys. -/
structure Link where
  inwardIssue : Option String
  outwardIssue : Option String
deriving DecidableEq

/-- The `fields` object of a raw JIRA issue, restricted to the keys the
source reads.  `customfield_12313140` is the Parent Link (Epic → STRAT),
`customfield_12311140` the Epic Link (Task → Epic). -/
structure RawFields where
  summary : Option String
  status : Option (Option NamedF)
  priority : Option (Option NamedF)
  assignee : Option UserF
  reporter : Option UserF
  description : Option String
  labels : Option (List String)
  components : Option (List (Option String))
  comment : Option (Option CommentF)
  created : Option String
  updated : Option String
  issuetype : Option (Option NamedF)
  issuelinks : Option (List Link)
  customfield_12313140 : Option String
  customfield_12311140 : Option String
deriving DecidableEq

/-- A raw issue as returned by the store: `key` plus `fields`. -/
structure RawIssue where
  key : String
  fields : RawFields
deriving DecidableEq

/-- A Python exception, as far as the embedded code can raise or observe
one. -/
inductive PyError where
  /-- The `ValueError` raised by `run_jira_query` on a non-200 status
  (carries the HTTP status and the truncated response body). -/
  | jiraApiError (status : Nat) (body : String)
  /-- The `AttributeError` raised by `None.get(...)` when a nested object
  field is present but JSON `null`. -/
  | noneGet (field : String)
deriving DecidableEq

/-- A normalized comment in the canonical issue shape. -/
structure IssueComment where
  body : String
  author : String
  created : String
deriving DecidableEq

/-- The canonical issue dict produced by `build_issue_data`
(`data_fetcher.py` lines 7-43). -/
structure IssueData where
  key : String
  summary : String
  status : String
  priority : String
  assignee : String
  assignee_username : Option String
  reporter : String
  description : String
  labels : List String
  components : List String
  comments : List IssueComment
  created : String
  updated : String
deriving DecidableEq

/-- `fields.get(k, ZZ).get('name', dflt)` for a nested named object:
absent key yields the default, a `null` value raises, an object yields its
`name` or the default. -/
def getNamedField (f : Option (Option NamedF)) (fieldName dflt : String) :
    Except PyError String :=
  match f with
  | none => .ok dflt
  | some none => .error (.noneGet fieldName)
  | some (some nf) => .ok (nf.name.getD dflt)

/-- `fields.get('comment', ZZ).get('comments', [])`: absent comment container
yields `[]`, a `null` container raises. -/
def getCommentList (f : Option (Option CommentF)) :
    Except PyError (List RawComment) :=
  match f with
  | none => .ok []
  | some none => .error (.noneGet "comment")
  | some (some cf) => .ok (cf.comments.getD [])

/-- Normalize one raw comment entry (`data_fetcher.py` lines 33-40). -/
def buildComment (c : RawComment) : IssueComment :=
  { body := c.body.getD ""
  , author := match c.author with
              | some a => a.displayName.getD "Unknown"
              | none => "Unknown"
  , created := c.created.getD "" }

/-- `build_issue_data` (`data_fetcher.py` lines 7-43): raw record → canonical
issue dict.  The `Except` codomain records the places the Python code can
raise (a present-but-`null` status, priority or comment container); the
evaluation order of the dict literal (status, then priority, then the
comment list) is preserved. -/
def build_issue_data (issue : RawIssue) : Except PyError IssueData :=
  let fields := issue.fields
  let assignee := fields.assignee
  let reporter := fields.reporter
  match getNamedField fields.status "status" "Unknown" with
  | .error e => .error e
  | .ok statusName =>
    match getNamedField fields.priority "priority" "Undefined" with
    | .error e => .error e
    | .ok priorityName =>
      match getCommentList fields.comment with
      | .error e => .error e
      | .ok rawComments =>
        .ok
          { key := issue.key
          , summary := fields.summary.getD "No summary"
          , status := statusName
          , priority := priorityName
          , assignee := match assignee with
                        | some a => a.displayName.getD "Unassigned"
                        | none => "Unassigned"
          , assignee_username := match assignee with
                                 | some a => a.name
                                 | none => none
          , reporter := match reporter with
                        | some r => r.displayName.getD "Unknown"
                        | none => "Unknown"
          , description := fields.description.getD ""
          , labels := fields.labels.getD []
          , components := (fields.components.getD []).map (fun c => c.getD "")
          , comments := rawComments.map buildComment
          , created := fields.created.getD ""
          , updated := fields.updated.getD "" }

/-- The per-link test of the Strategy→Request scan (`sse.py` lines 101-114):
first the `inwardIssue` key is tested for membership in the known RFE key
set, then the `outwardIssue` key; the first member found is returned. -/
def linkMatch (rfeKeys : List String) (l : Link) : Option String :=
  match l.inwardIssue with
  | some k =>
    if k ∈ rfeKeys then some k
    else
      match l.outwardIssue with
      | some k2 => if k2 ∈ rfeKeys then some k2 else none
      | none => none
  | none =>
    match l.outwardIssue with
    | some k2 => if k2 ∈ rfeKeys then some k2 else none
    | none => none

/-- The Strategy→Request resolver scan (`sse.py` lines 100-114): iterate the
`issuelinks` list and stop at the first link whose inward or outward key is a
known RFE key (`break`). -/
def findRfeLink (rfeKeys : List String) (links : List Link) : Option String :=
  links.findSome? (linkMatch rfeKeys)

/-- `findSome?` returns the head of the `filterMap`: the first hit in
iteration order. -/
theorem findSome?_eq_head?_filterMap {α β : Type} (f : α → Option β) :
    ∀ l : List α, l.findSome? f = (l.filterMap f).head? := by
  intro l
  induction l with
  | nil => rfl
  | cons a t ih =>
    rw [List.findSome?_cons, List.filterMap_cons]
    cases h : f a with
    | none => exact ih
    | some b => rfl

/-- Python truthiness of an optional string (`if parent_link:` and kin):
present and non-empty. -/
def strTruthy : Option String → Bool
  | some s => !s.isEmpty
  | none => false

/-! ## The Remote Issue Store Adapter (`jira_client.py`) -/

/-- The remote store as seen by `run_jira_query`: for each JQL string, the
full ordered match list, the HTTP status it answers with, and the response
body text. -/
structure RemoteStore where
  matching : String → List RawIssue
  status : String → Nat
  bodyText : String → String

/-- One HTTP search request as issued by `run_jira_query`: the JQL and the
`maxResults` parameter it carries. -/
structure JiraRequest where
  jql : String
  maxResults : Nat
deriving DecidableEq

/-- Modelled from the spec: the remote issue store's `search` endpoint (an
external collaborator, not part of src/) answers a request with its
configured HTTP status and at most `maxResults` of the records matching the
JQL, in the store's order (spec §4.1: "ordered sequence of raw records,
length ≤ 100 ... single-page cap"). -/
def searchRespond (rs : RemoteStore) (req : JiraRequest) :
    Nat × List RawIssue :=
  (rs.status req.jql, (rs.matching req.jql).take req.maxResults)

/-- `run_jira_query` (`jira_client.py` lines 7-42): issue a single request
with `maxResults = 100`; raise `ValueError` with the status and the first
500 characters of the body on a non-200 response, else return the decoded
issue list.  The first component is the list of HTTP requests issued. -/
def run_jira_query (rs : RemoteStore) (jql : String) :
    List JiraRequest × Except PyError (List RawIssue) :=
  let req : JiraRequest := ⟨jql, 100⟩
  let resp := searchRespond rs req
  ([req],
    if resp.1 ≠ 200 then
      .error (.jiraApiError resp.1 ((rs.bodyText jql).take 500))
    else .ok resp.2)

/-- `update_jira_labels` (`jira_client.py` lines 143-183), label-list core:
the labels of the fetched issue (`issue_data['fields'].get('labels', [])`),
then `append` on `add` when the label is not present, `list.remove` (first
occurrence) on `remove` when it is.  The returned value is the list the
function returns after a successful PUT. -/
def update_jira_labels (labelsField : Option (List String))
    (action label : String) : List String :=
  let current := labelsField.getD []
  if action = "add" then
    if label ∈ current then current else current ++ [label]
  else if action = "remove" then
    if label ∈ current then current.erase label else current
  else current

/-! ## Claims C7, C8, C9, C10 -/

/-- C7: the normalizer is a deterministic total function on raw records: when
the optional nested objects assignee, reporter and priority are absent it
does not raise and produces the documented defaults "Unassigned", "Unknown"
and "Undefined", and the labels and comments of the result are always
present lists, defaulting to empty when the raw record carries none.  (The
record is assumed well-formed in the fields the claim does not mention: its
status and comment containers are not JSON `null`, which is what the remote
store guarantees; determinism is definitional for a pure function.) -/
theorem c7_normalizer_defaults (issue : RawIssue)
    (ha : issue.fields.assignee = none)
    (hr : issue.fields.reporter = none)
    (hp : issue.fields.priority = none)
    (hs : issue.fields.status ≠ some none)
    (hc : issue.fields.comment ≠ some none) :
    ∃ d, build_issue_data issue = .ok d ∧
      d.assignee = "Unassigned" ∧
      d.reporter = "Unknown" ∧
      d.priority = "Undefined" ∧
      d.labels = issue.fields.labels.getD [] ∧
      (issue.fields.labels = none → d.labels = []) ∧
      (issue.fields.comment = none → d.comments = []) := by
  obtain ⟨key, f⟩ := issue
  obtain ⟨su, st, pr, asn, rep, de, la, co, cm, cr, up, it, il, cf1, cf2⟩ := f
  simp only at ha hr hp hs hc ⊢
  subst ha hr hp
  match st, hs with
  | none, _ | some (some s0), _ =>
    match cm, hc with
    | none, _ =>
      exact ⟨_, rfl, rfl, rfl, rfl, rfl, fun h => h ▸ rfl, fun _ => rfl⟩
    | some (some cf), _ =>
      exact ⟨_, rfl, rfl, rfl, rfl, rfl, fun h => h ▸ rfl, fun h => nomatch h⟩

/-- Closed witness for C7. -/
theorem c7_normalizer_defaults_witness :
    ∃ d,
      build_issue_data
        ⟨"RFE-1",
          ⟨none, none, none, none, none, none, none, none, none, none, none,
            none, none, none, none⟩⟩ = .ok d ∧
      d.assignee = "Unassigned" ∧
      d.reporter = "Unknown" ∧
      d.priority = "Undefined" ∧
      d.labels = (none : Option (List String)).getD [] ∧
      ((none : Option (List String)) = none → d.labels = []) ∧
      ((none : Option (Option CommentF)) = none → d.comments = []) :=
  c7_normalizer_defaults
    ⟨"RFE-1",
      ⟨none, none, none, none, none, none, none, none, none, none, none,
        none, none, none, none⟩⟩
    rfl rfl rfl (by decide) (by decide)

/-- C8: when a Strategy's reference list contains more than one entry whose
inward or outward key is a known Request key, the resolver scan links it to
the first match in iteration order over the list (each link's inward entry
checked before its outward entry), and the scan does resolve (no ambiguity
signal exists in `PyError`, and none is raised: the function is total).
Determinism across runs is definitional: the scan is a pure function of the
store's returned link list. -/
theorem c8_first_match_tiebreak (rfeKeys : List String) (links : List Link)
    (h2 : 2 ≤ (links.filterMap (linkMatch rfeKeys)).length) :
    findRfeLink rfeKeys links = (links.filterMap (linkMatch rfeKeys)).head? ∧
    (findRfeLink rfeKeys links).isSome = true := by
  refine ⟨findSome?_eq_head?_filterMap _ links, ?_⟩
  unfold findRfeLink
  rw [findSome?_eq_head?_filterMap]
  match hl : links.filterMap (linkMatch rfeKeys) with
  | [] => rw [hl] at h2; simp at h2
  | b :: t => simp

/-- Closed witness for C8: a Strategy referencing two distinct known
Requests resolves to the first. -/
theorem c8_first_match_tiebreak_witness :
    2 ≤ (([⟨none, some "RFE-2"⟩, ⟨some "RFE-1", none⟩] :
          List Link).filterMap (linkMatch ["RFE-1", "RFE-2"])).length ∧
    findRfeLink ["RFE-1", "RFE-2"]
        [⟨none, some "RFE-2"⟩, ⟨some "RFE-1", none⟩] =
      (([⟨none, some "RFE-2"⟩, ⟨some "RFE-1", none⟩] :
          List Link).filterMap (linkMatch ["RFE-1", "RFE-2"])).head? ∧
    (findRfeLink ["RFE-1", "RFE-2"]
        [⟨none, some "RFE-2"⟩, ⟨some "RFE-1", none⟩]).isSome = true :=
  ⟨by decide,
    (c8_first_match_tiebreak ["RFE-1", "RFE-2"]
      [⟨none, some "RFE-2"⟩, ⟨some "RFE-1", none⟩] (by decide)).1,
    (c8_first_match_tiebreak ["RFE-1", "RFE-2"]
      [⟨none, some "RFE-2"⟩, ⟨some "RFE-1", none⟩] (by decide)).2⟩

/-- C9: a single call to the adapter's search operation issues exactly one
bounded request (`maxResults = 100`, never a second page) and every
successful result carries at most 100 records.  The page bound itself is the
modelled contract of the out-of-scope remote endpoint (spec §4.1). -/
theorem c9_single_page (rs : RemoteStore) (jql : String) :
    (run_jira_query rs jql).1 = [⟨jql, 100⟩] ∧
    ∀ issues, (run_jira_query rs jql).2 = .ok issues →
      issues.length ≤ 100 := by
  constructor
  · rfl
  · intro issues h
    unfold run_jira_query searchRespond at h
    by_cases hst : rs.status jql ≠ 200
    · simp [hst] at h
    · simp [hst] at h
      subst h
      exact List.length_take_le 100 (rs.matching jql)

/-- Closed witness for C9. -/
theorem c9_single_page_witness :
    (run_jira_query ⟨fun _ => [], fun _ => 200, fun _ => ""⟩ "jql").1 =
      [⟨"jql", 100⟩] ∧
    (run_jira_query ⟨fun _ => [], fun _ => 200, fun _ => ""⟩ "jql").2 =
      .ok [] ∧
    ([] : List RawIssue).length ≤ 100 :=
  ⟨(c9_single_page ⟨fun _ => [], fun _ => 200, fun _ => ""⟩ "jql").1,
    rfl,
    (c9_single_page ⟨fun _ => [], fun _ => 200, fun _ => ""⟩ "jql").2 [] rfl⟩

/-- C10 counterexample: the claim says the returned list never contains the
added label more than once; but when the current remote label list already
holds the label twice, `add` leaves it unchanged and the result carries the
label twice. -/
theorem c10_idempotence_counterexample :
    update_jira_labels (some ["dup", "dup"]) "add" "dup" = ["dup", "dup"] ∧
    (update_jira_labels (some ["dup", "dup"]) "add" "dup").count "dup" = 2 := by
  constructor <;> decide

/-- C10 (amended): the label update is idempotent — `add` of a label already
present returns the current list unchanged, `remove` of a label not present
returns it unchanged — and the result of `add` contains the label at most
`max 1 (its multiplicity in the current list)` times; in particular at most
once whenever the current remote list is duplicate-free. -/
theorem c10_label_update_idempotent (labelsField : Option (List String))
    (label : String) :
    (label ∈ labelsField.getD [] →
      update_jira_labels labelsField "add" label = labelsField.getD []) ∧
    (label ∉ labelsField.getD [] →
      update_jira_labels labelsField "remove" label = labelsField.getD []) ∧
    (update_jira_labels labelsField "add" label).count label ≤
      max 1 ((labelsField.getD []).count label) ∧
    ((labelsField.getD []).Nodup →
      (update_jira_labels labelsField "add" label).count label ≤ 1) := by
  unfold update_jira_labels
  refine ⟨fun hmem => by simp [hmem], fun hmem => by simp [hmem], ?_, ?_⟩
  · by_cases hmem : label ∈ labelsField.getD []
    · simp [hmem]
    · simp [hmem, List.count_append, List.count_eq_zero_of_not_mem hmem]
  · intro hnd
    by_cases hmem : label ∈ labelsField.getD []
    · simp only [if_pos rfl, if_pos hmem]
      exact List.nodup_iff_count_le_one.mp hnd label
    · simp [hmem, List.count_append, List.count_eq_zero_of_not_mem hmem]

/-- Closed witness for C10 (amended). -/
theorem c10_label_update_idempotent_witness :
    update_jira_labels (some ["x"]) "add" "x" =
      (some ["x"] : Option (List String)).getD [] ∧
    update_jira_labels (some ["x"]) "remove" "y" =
      (some ["x"] : Option (List String)).getD [] ∧
    (update_jira_labels (some ["x"]) "add" "z").count "z" ≤ 1 :=
  ⟨(c10_label_update_idempotent (some ["x"]) "x").1 (by decide),
    (c10_label_update_idempotent (some ["x"]) "y").2.1 (by decide),
    (c10_label_update_idempotent (some ["x"]) "z").2.2.2 (by decide)⟩

/-! ## Events, queries and the flow-level store (`sse.py`, `server.py`)

The streaming flows are functions of a `Store` whose fields give the store's
response to each JQL template the source builds, keyed by the parent-key
list interpolated into the template.  A `Query` value records one `search`
call: which template was used and the exact parent-key set it covered. -/

/-- One server-sent event, as written by `send_sse_event`.  The
`strats`/`epics`/`tasks` empty-placeholder keys attached to a payload before
emission are implicit in the constructor; the ancestor keys attached to the
payload (`rfe_key`, `strat_key`, `epic_key`) are explicit arguments, with
`none` meaning the flow never set that key on the dict. -/
inductive Event where
  | progress (message : String)
  | rfe (d : IssueData)
  | strat (d : IssueData) (rfeKey : Option String)
  | epic (d : IssueData) (rfeKey : Option String) (stratKey : String)
  | task (d : IssueData) (issuetype : String) (rfeKey : Option String)
      (stratKey : String) (epicKey : String)
  | complete (total_rfes total_strats total_epics total_tasks : Nat)
  | errorEvent (e : PyError)
deriving DecidableEq

/-- One `search` call, identified by the JQL template built at the call site
and the parent-key list interpolated into it.  `rfeSearch`/`stratTopSearch`
carry the component filter of the top-level queries; `keySearch` is the
`key = X` lookup of the reload flow. -/
inductive Query where
  | rfeSearch (component : String)
  | stratTopSearch (component : String)
  | stratSearch (rfeKeys : List String)
  | epicSearch (stratKeys : List String)
  | taskSearch (epicKeys : List String)
  | keySearch (key : String)
deriving DecidableEq

/-- The remote store at flow granularity: the response (or error) for each
query shape. -/
structure Store where
  rfeSearch : String → Except PyError (List RawIssue)
  stratTopSearch : String → Except PyError (List RawIssue)
  stratSearch : List String → Except PyError (List RawIssue)
  epicSearch : List String → Except PyError (List RawIssue)
  taskSearch : List String → Except PyError (List RawIssue)
  keySearch : String → Except PyError (List RawIssue)

/-- Normalize a whole fetched list (the source's list comprehensions and
per-record loops over `build_issue_data`); the first raising record aborts
the batch. -/
def buildAll : List RawIssue → Except PyError (List IssueData)
  | [] => .ok []
  | r :: rs =>
    match build_issue_data r with
    | .error e => .error e
    | .ok d =>
      match buildAll rs with
      | .error e => .error e
      | .ok ds => .ok (d :: ds)

/-- Build one task record: `build_issue_data` plus the
`task['fields'].get('issuetype', ZZ).get('name', 'Task')` read. -/
def buildTask (r : RawIssue) : Except PyError (IssueData × String) :=
  match build_issue_data r with
  | .error e => .error e
  | .ok d =>
    match getNamedField r.fields.issuetype "issuetype" "Task" with
    | .error e => .error e
    | .ok it => .ok (d, it)

/-- Normalize a whole fetched task list. -/
def buildAllTasks : List RawIssue → Except PyError (List (IssueData × String))
  | [] => .ok []
  | r :: rs =>
    match buildTask r with
    | .error e => .error e
    | .ok t =>
      match buildAllTasks rs with
      | .error e => .error e
      | .ok ts => .ok (t :: ts)

/-- `fetch_rfes` (`data_fetcher.py` lines 46-68): the batched RFE query for a
component, normalized.  First component: the queries issued. -/
def fetch_rfes (s : Store) (component : String) :
    List Query × Except PyError (List IssueData) :=
  ([.rfeSearch component],
    match s.rfeSearch component with
    | .error e => .error e
    | .ok raws => buildAll raws)

/-- `fetch_strats_for_rfe` (`data_fetcher.py` lines 71-92): the Strategy
query scoped to a single RFE key. -/
def fetch_strats_for_rfe (s : Store) (rfeKey : String) :
    List Query × Except PyError (List IssueData) :=
  ([.stratSearch [rfeKey]],
    match s.stratSearch [rfeKey] with
    | .error e => .error e
    | .ok raws => buildAll raws)

/-- `fetch_epics_for_strat` (`data_fetcher.py` lines 95-118): the Epic query
scoped to a single STRAT key (`"Parent Link" = strat_key`). -/
def fetch_epics_for_strat (s : Store) (stratKey : String) :
    List Query × Except PyError (List IssueData) :=
  ([.epicSearch [stratKey]],
    match s.epicSearch [stratKey] with
    | .error e => .error e
    | .ok raws => buildAll raws)

/-- `fetch_tasks_for_epic` (`data_fetcher.py` lines 121-151): the Task query
scoped to a single Epic key — wrapped in `try/except`, so any error (query
or normalization) is caught and an empty list returned instead. -/
def fetch_tasks_for_epic (s : Store) (epicKey : String) :
    List Query × List (IssueData × String) :=
  ([.taskSearch [epicKey]],
    match s.taskSearch [epicKey] with
    | .error _ => []
    | .ok raws =>
      match buildAllTasks raws with
      | .error _ => []
      | .ok ts => ts)

/-- The `children-by-parent` dict append idiom
(`if k not in m: m[k] = []` then `m[k].append(v)`), on an insertion-ordered
association list, as a Python dict is. -/
def dictAppend (m : List (String × List IssueData)) (k : String)
    (v : IssueData) : List (String × List IssueData) :=
  if m.any (fun p => p.1 == k) then
    m.map (fun p => if p.1 == k then (p.1, p.2 ++ [v]) else p)
  else m ++ [(k, [v])]

/-- The reverse-lookup loop over a children-by-parent dict (`sse.py` lines
167-171, 218-227, 375-379): iterate the entries in insertion order and
return the first parent key whose child list contains `childKey`. -/
def mapLookupByKey (m : List (String × List IssueData)) (childKey : String) :
    Option String :=
  (m.find? (fun p => p.2.any (fun d => d.key == childKey))).map (·.1)

/-! ### Per-level loops of `stream_hierarchy_rfe_first` -/

/-- Loop state of the STRAT loop (`sse.py` lines 90-130): events emitted so
far, the `strats_by_rfe` dict, `strat_keys_list`, `total_strats`. -/
structure StratAcc where
  events : List Event
  stratsByRfe : List (String × List IssueData)
  stratKeys : List String
  total : Nat

/-- The STRAT loop of the RFE-first flow (`sse.py` lines 92-130): build each
record (a raising build aborts the loop keeping prior events), append its key
to `strat_keys_list` unconditionally, scan its links for a known RFE key, and
on a truthy match record it in `strats_by_rfe` and emit one `strat` event. -/
def processStrats (rfeKeys : List String) (acc : StratAcc) :
    List RawIssue → StratAcc × Option PyError
  | [] => (acc, none)
  | strat :: rest =>
    match build_issue_data strat with
    | .error e => (acc, some e)
    | .ok sd =>
      let acc1 := { acc with stratKeys := acc.stratKeys ++ [sd.key] }
      match findRfeLink rfeKeys (strat.fields.issuelinks.getD []) with
      | some fr =>
        if fr.isEmpty then processStrats rfeKeys acc1 rest
        else
          processStrats rfeKeys
            { acc1 with
              stratsByRfe := dictAppend acc1.stratsByRfe fr sd
              events := acc1.events ++ [Event.strat sd (some fr)]
              total := acc1.total + 1 } rest
      | none => processStrats rfeKeys acc1 rest

/-- Loop state of the Epic loops: events, `epics_by_strat`,
`epic_keys_list`, `total_epics`. -/
structure EpicAcc where
  events : List Event
  epicsByStrat : List (String × List IssueData)
  epicKeys : List String
  total : Nat

/-- The Epic loop of the RFE-first flow (`sse.py` lines 151-183): append the
key unconditionally; on a truthy Parent Link that is a member of
`strat_keys_list`, record the epic in `epics_by_strat`, then look the
parent STRAT up in `strats_by_rfe` and emit one `epic` event only when that
lookup yields a truthy RFE key. -/
def processEpicsRfe (stratKeys : List String)
    (stratsByRfe : List (String × List IssueData)) (acc : EpicAcc) :
    List RawIssue → EpicAcc × Option PyError
  | [] => (acc, none)
  | epic :: rest =>
    match build_issue_data epic with
    | .error e => (acc, some e)
    | .ok ed =>
      let acc1 := { acc with epicKeys := acc.epicKeys ++ [ed.key] }
      match epic.fields.customfield_12313140 with
      | some pl =>
        if pl.isEmpty then processEpicsRfe stratKeys stratsByRfe acc1 rest
        else if pl ∈ stratKeys then
          let acc2 :=
            { acc1 with epicsByStrat := dictAppend acc1.epicsByStrat pl ed }
          match mapLookupByKey stratsByRfe pl with
          | some rk =>
            if rk.isEmpty then processEpicsRfe stratKeys stratsByRfe acc2 rest
            else
              processEpicsRfe stratKeys stratsByRfe
                { acc2 with
                  events := acc2.events ++ [Event.epic ed (some rk) pl]
                  total := acc2.total + 1 } rest
          | none => processEpicsRfe stratKeys stratsByRfe acc2 rest
        else processEpicsRfe stratKeys stratsByRfe acc1 rest
      | none => processEpicsRfe stratKeys stratsByRfe acc1 rest

/-- Loop state of the Task loops: events, `tasks_by_epic`, `total_tasks`. -/
structure TaskAcc where
  events : List Event
  tasksByEpic : List (String × List IssueData)
  total : Nat

/-- The Task loop of the RFE-first flow (`sse.py` lines 201-239): on a truthy
Epic Link that is in `epic_keys_list`, record the task in `tasks_by_epic`,
look the STRAT up through `epics_by_strat` and the RFE through
`strats_by_rfe`, and emit one `task` event only when both are truthy. -/
def processTasksRfe (epicKeys : List String)
    (epicsByStrat stratsByRfe : List (String × List IssueData))
    (acc : TaskAcc) : List RawIssue → TaskAcc × Option PyError
  | [] => (acc, none)
  | task :: rest =>
    match buildTask task with
    | .error e => (acc, some e)
    | .ok (td, it) =>
      match task.fields.customfield_12311140 with
      | some el =>
        if el.isEmpty then
          processTasksRfe epicKeys epicsByStrat stratsByRfe acc rest
        else if el ∈ epicKeys then
          let acc2 := { acc with tasksByEpic := dictAppend acc.tasksByEpic el td }
          let stratKey := mapLookupByKey epicsByStrat el
          let rfeKey :=
            match stratKey with
            | some sk => mapLookupByKey stratsByRfe sk
            | none => none
          if strTruthy rfeKey && strTruthy stratKey then
            processTasksRfe epicKeys epicsByStrat stratsByRfe
              { acc2 with
                events := acc2.events ++
                  [Event.task td it rfeKey (stratKey.getD "") el]
                total := acc2.total + 1 } rest
          else processTasksRfe epicKeys epicsByStrat stratsByRfe acc2 rest
        else processTasksRfe epicKeys epicsByStrat stratsByRfe acc rest
      | none => processTasksRfe epicKeys epicsByStrat stratsByRfe acc rest

/-! ### Per-level loops of `stream_hierarchy_strat_first` -/

/-- Loop state of the top-level STRAT loop of the STRAT-first flow. -/
structure StratTopAcc where
  events : List Event
  stratKeys : List String
  total : Nat

/-- The STRAT loop of the STRAT-first flow (`sse.py` lines 292-300): every
built record is emitted (no linkage at the top level). -/
def processStratsTop (acc : StratTopAcc) :
    List RawIssue → StratTopAcc × Option PyError
  | [] => (acc, none)
  | strat :: rest =>
    match build_issue_data strat with
    | .error e => (acc, some e)
    | .ok sd =>
      processStratsTop
        { events := acc.events ++ [Event.strat sd none]
        , stratKeys := acc.stratKeys ++ [sd.key]
        , total := acc.total + 1 } rest

/-- The Epic loop of the STRAT-first flow (`sse.py` lines 319-342): like the
RFE-first Epic loop but the event is emitted for every member Parent Link
(no RFE lookup, no `rfe_key` on the payload). -/
def processEpicsStrat (stratKeys : List String) (acc : EpicAcc) :
    List RawIssue → EpicAcc × Option PyError
  | [] => (acc, none)
  | epic :: rest =>
    match build_issue_data epic with
    | .error e => (acc, some e)
    | .ok ed =>
      let acc1 := { acc with epicKeys := acc.epicKeys ++ [ed.key] }
      match epic.fields.customfield_12313140 with
      | some pl =>
        if pl.isEmpty then processEpicsStrat stratKeys acc1 rest
        else if pl ∈ stratKeys then
          processEpicsStrat stratKeys
            { acc1 with
              epicsByStrat := dictAppend acc1.epicsByStrat pl ed
              events := acc1.events ++ [Event.epic ed none pl]
              total := acc1.total + 1 } rest
        else processEpicsStrat stratKeys acc1 rest
      | none => processEpicsStrat stratKeys acc1 rest

/-- The Task loop of the STRAT-first flow (`sse.py` lines 359-390): emit one
`task` event when the Epic Link is a member of `epic_keys_list` and the
STRAT lookup through `epics_by_strat` is truthy (no `rfe_key` on the
payload). -/
def processTasksStrat (epicKeys : List String)
    (epicsByStrat : List (String × List IssueData)) (acc : TaskAcc) :
    List RawIssue → TaskAcc × Option PyError
  | [] => (acc, none)
  | task :: rest =>
    match buildTask task with
    | .error e => (acc, some e)
    | .ok (td, it) =>
      match task.fields.customfield_12311140 with
      | some el =>
        if el.isEmpty then processTasksStrat epicKeys epicsByStrat acc rest
        else if el ∈ epicKeys then
          let acc2 := { acc with tasksByEpic := dictAppend acc.tasksByEpic el td }
          let stratKey := mapLookupByKey epicsByStrat el
          if strTruthy stratKey then
            processTasksStrat epicKeys epicsByStrat
              { acc2 with
                events := acc2.events ++
                  [Event.task td it none (stratKey.getD "") el]
                total := acc2.total + 1 } rest
          else processTasksStrat epicKeys epicsByStrat acc2 rest
        else processTasksStrat epicKeys epicsByStrat acc rest
      | none => processTasksStrat epicKeys epicsByStrat acc rest

/-! ### The two streaming flows -/

/-- The per-level orphan counts printed at the end of a completed flow
(`sse.py` lines 249-251 and 400-401), as Python integer subtractions.  The
STRAT-first flow computes no STRAT orphan count (`strats := none`). -/
structure OrphanCounts where
  strats : Option Int
  epics : Int
  tasks : Int
deriving DecidableEq

/-- The observable outcome of one streaming flow: the events written in
order, the search queries issued in order, the exception that escaped the
generator (if any), and the orphan counts (computed only on the paths that
reach the end of the function). -/
structure FlowOut where
  events : List Event
  queries : List Query
  err : Option PyError
  orphans : Option OrphanCounts
deriving DecidableEq

/-- `stream_hierarchy_rfe_first` (`sse.py` lines 45-257). -/
def stream_hierarchy_rfe_first (s : Store) (component : String) : FlowOut :=
  let f := fetch_rfes s component
  let ev0 : List Event := [.progress "Loading RFEs..."]
  match f.2 with
  | .error e => ⟨ev0, f.1, some e, none⟩
  | .ok rfes =>
    if rfes.isEmpty then ⟨ev0 ++ [.complete 0 0 0 0], f.1, none, none⟩
    else
      let rfeKeys := rfes.map (·.key)
      let ev1 := ev0 ++ rfes.map Event.rfe ++ [.progress "Loading STRATs..."]
      let q1 := f.1 ++ [.stratSearch rfeKeys]
      match s.stratSearch rfeKeys with
      | .error e => ⟨ev1, q1, some e, none⟩
      | .ok stratIssues =>
        match processStrats rfeKeys ⟨[], [], [], 0⟩ stratIssues with
        | (sacc, some e) => ⟨ev1 ++ sacc.events, q1, some e, none⟩
        | (sacc, none) =>
          let ev2 := ev1 ++ sacc.events
          if sacc.stratKeys.isEmpty then
            ⟨ev2 ++ [.complete rfes.length sacc.total 0 0], q1, none,
              some ⟨some ((stratIssues.length : Int) - sacc.total),
                (0 : Int) - 0, (0 : Int) - 0⟩⟩
          else
            let ev3 := ev2 ++ [.progress "Loading Epics..."]
            let q2 := q1 ++ [.epicSearch sacc.stratKeys]
            match s.epicSearch sacc.stratKeys with
            | .error e => ⟨ev3, q2, some e, none⟩
            | .ok epicIssues =>
              match processEpicsRfe sacc.stratKeys sacc.stratsByRfe
                  ⟨[], [], [], 0⟩ epicIssues with
              | (eacc, some e) => ⟨ev3 ++ eacc.events, q2, some e, none⟩
              | (eacc, none) =>
                let ev4 := ev3 ++ eacc.events
                if eacc.epicKeys.isEmpty then
                  ⟨ev4 ++ [.complete rfes.length sacc.total eacc.total 0],
                    q2, none,
                    some ⟨some ((stratIssues.length : Int) - sacc.total),
                      (0 : Int) - eacc.total, (0 : Int) - 0⟩⟩
                else
                  let ev5 := ev4 ++ [.progress "Loading Tasks..."]
                  let q3 := q2 ++ [.taskSearch eacc.epicKeys]
                  match s.taskSearch eacc.epicKeys with
                  | .error e => ⟨ev5, q3, some e, none⟩
                  | .ok taskIssues =>
                    match processTasksRfe eacc.epicKeys eacc.epicsByStrat
                        sacc.stratsByRfe ⟨[], [], 0⟩ taskIssues with
                    | (tacc, some e) => ⟨ev5 ++ tacc.events, q3, some e, none⟩
                    | (tacc, none) =>
                      ⟨ev5 ++ tacc.events ++
                          [.complete rfes.length sacc.total eacc.total
                            tacc.total],
                        q3, none,
                        some ⟨some ((stratIssues.length : Int) - sacc.total),
                          (epicIssues.length : Int) - eacc.total,
                          (taskIssues.length : Int) - tacc.total⟩⟩

/-- `stream_hierarchy_strat_first` (`sse.py` lines 260-406). -/
def stream_hierarchy_strat_first (s : Store) (component : String) : FlowOut :=
  let ev0 : List Event := [.progress "Loading STRATs..."]
  let q0 : List Query := [.stratTopSearch component]
  match s.stratTopSearch component with
  | .error e => ⟨ev0, q0, some e, none⟩
  | .ok stratIssues =>
    if stratIssues.isEmpty then ⟨ev0 ++ [.complete 0 0 0 0], q0, none, none⟩
    else
      match processStratsTop ⟨[], [], 0⟩ stratIssues with
      | (sacc, some e) => ⟨ev0 ++ sacc.events, q0, some e, none⟩
      | (sacc, none) =>
        let ev1 := ev0 ++ sacc.events
        if sacc.stratKeys.isEmpty then
          ⟨ev1 ++ [.complete 0 sacc.total 0 0], q0, none,
            some ⟨none, (0 : Int) - 0, (0 : Int) - 0⟩⟩
        else
          let ev2 := ev1 ++ [.progress "Loading Epics..."]
          let q1 := q0 ++ [.epicSearch sacc.stratKeys]
          match s.epicSearch sacc.stratKeys with
          | .error e => ⟨ev2, q1, some e, none⟩
          | .ok epicIssues =>
            match processEpicsStrat sacc.stratKeys ⟨[], [], [], 0⟩
                epicIssues with
            | (eacc, some e) => ⟨ev2 ++ eacc.events, q1, some e, none⟩
            | (eacc, none) =>
              let ev3 := ev2 ++ eacc.events
              if eacc.epicKeys.isEmpty then
                ⟨ev3 ++ [.complete 0 sacc.total eacc.total 0], q1, none,
                  some ⟨none, (0 : Int) - eacc.total, (0 : Int) - 0⟩⟩
              else
                let ev4 := ev3 ++ [.progress "Loading Tasks..."]
                let q2 := q1 ++ [.taskSearch eacc.epicKeys]
                match s.taskSearch eacc.epicKeys with
                | .error e => ⟨ev4, q2, some e, none⟩
                | .ok taskIssues =>
                  match processTasksStrat eacc.epicKeys eacc.epicsByStrat
                      ⟨[], [], 0⟩ taskIssues with
                  | (tacc, some e) => ⟨ev4 ++ tacc.events, q2, some e, none⟩
                  | (tacc, none) =>
                    ⟨ev4 ++ tacc.events ++
                        [.complete 0 sacc.total eacc.total tacc.total],
                      q2, none,
                      some ⟨none,
                        (epicIssues.length : Int) - eacc.total,
                        (taskIssues.length : Int) - tacc.total⟩⟩

/-- `stream_hierarchy` (`sse.py` lines 27-42): mode dispatch. -/
def stream_hierarchy (s : Store) (component topLevel : String) : FlowOut :=
  if topLevel = "strat" then stream_hierarchy_strat_first s component
  else stream_hierarchy_rfe_first s component

/-- `serve_hierarchy_stream` (`server.py` lines 408-415): run the flow; if
an exception escapes, append a single `error` event after whatever events
were already written. -/
def serve_hierarchy_stream (s : Store) (component topLevel : String) :
    List Event :=
  let out := stream_hierarchy s component topLevel
  match out.err with
  | some e => out.events ++ [.errorEvent e]
  | none => out.events

/-! ## The single-item reload flow (`server.py` `reload_item`) -/

/-- A task entry of a reload payload: canonical data, the `issuetype` name,
and the ancestor keys set on the dict (`none` = key never set). -/
structure TaskItem where
  data : IssueData
  issuetype : String
  rfe_key : Option String
  strat_key : Option String
  epic_key : Option String
deriving DecidableEq

/-- An epic entry of a reload payload with its attached task list. -/
structure EpicItem where
  data : IssueData
  rfe_key : Option String
  strat_key : Option String
  tasks : List TaskItem
deriving DecidableEq

/-- A strat entry of a reload payload with its attached epic list. -/
structure StratItem where
  data : IssueData
  rfe_key : Option String
  epics : List EpicItem
deriving DecidableEq

/-- An RFE entry of a reload payload with its attached strat list. -/
structure RfeItem where
  data : IssueData
  strats : List StratItem
deriving DecidableEq

/-- The `data` payload of a successful reload response, by item type. -/
inductive ReloadData where
  | rfe (r : RfeItem)
  | strat (s : StratItem)
  | epic (e : EpicItem)
  | task (t : TaskItem)
deriving DecidableEq

/-- A failure payload of the reload endpoint: 404 (`notFound`), 400
(`invalidType`), or the catch-all 500 for an escaped exception. -/
inductive ReloadErr where
  | notFound (message : String)
  | invalidType
  | serverError (e : PyError)
deriving DecidableEq

/-- A reload response: success payload or failure payload. -/
inductive ReloadResult where
  | ok (d : ReloadData)
  | fail (e : ReloadErr)
deriving DecidableEq

/-- The observable outcome of one reload request: queries issued in order
plus the response. -/
structure ReloadOut where
  queries : List Query
  result : ReloadResult
deriving DecidableEq

/-- The per-epic inner loop of the reload flow (`server.py` lines 290-298,
317-323): for each already-normalized epic, fetch its tasks (one query per
epic) and attach ancestor keys. -/
def reloadEpicsFor (s : Store) (rfeKey : Option String) (stratKey : String) :
    List IssueData → List Query × List EpicItem
  | [] => ([], [])
  | ed :: rest =>
    let tf := fetch_tasks_for_epic s ed.key
    let item : EpicItem :=
      ⟨ed, rfeKey, some stratKey,
        tf.2.map (fun t => ⟨t.1, t.2, rfeKey, some stratKey, some ed.key⟩)⟩
    let (qs, items) := reloadEpicsFor s rfeKey stratKey rest
    (tf.1 ++ qs, item :: items)

/-- The per-strat loop of the RFE reload path (`server.py` lines 285-300):
for each strat, fetch its epics (one query per strat), then its epics'
tasks. -/
def reloadStratsFor (s : Store) (rfeKey : String) :
    List IssueData → List Query × Except PyError (List StratItem)
  | [] => ([], .ok [])
  | sd :: rest =>
    let ef := fetch_epics_for_strat s sd.key
    match ef.2 with
    | .error e => (ef.1, .error e)
    | .ok epics =>
      let (tqs, epicItems) := reloadEpicsFor s (some rfeKey) sd.key epics
      match reloadStratsFor s rfeKey rest with
      | (qs, .error e) => (ef.1 ++ tqs ++ qs, .error e)
      | (qs, .ok items) =>
        (ef.1 ++ tqs ++ qs, .ok (⟨sd, some rfeKey, epicItems⟩ :: items))

/-- `reload_item` (`server.py` lines 248-363): fetch one record by key (or,
for the RFE type, by re-running the component query and filtering), then
walk the remaining levels downward with the per-parent `fetch_*` helpers,
attaching descendants inline.  Any escaped exception becomes the single 500
error payload. -/
def reload_item (s : Store) (item_type issue_key component : String) :
    ReloadOut :=
  if item_type = "rfe" then
    let f := fetch_rfes s component
    match f.2 with
    | .error e => ⟨f.1, .fail (.serverError e)⟩
    | .ok rfes =>
      match rfes.find? (fun r => r.key == issue_key) with
      | none => ⟨f.1, .fail (.notFound "RFE not found")⟩
      | some rfe =>
        let sf := fetch_strats_for_rfe s issue_key
        match sf.2 with
        | .error e => ⟨f.1 ++ sf.1, .fail (.serverError e)⟩
        | .ok strats =>
          match reloadStratsFor s issue_key strats with
          | (qs, .error e) => ⟨f.1 ++ sf.1 ++ qs, .fail (.serverError e)⟩
          | (qs, .ok items) => ⟨f.1 ++ sf.1 ++ qs, .ok (.rfe ⟨rfe, items⟩)⟩
  else if item_type = "strat" then
    let q0 : List Query := [.keySearch issue_key]
    match s.keySearch issue_key with
    | .error e => ⟨q0, .fail (.serverError e)⟩
    | .ok stratIssues =>
      match stratIssues with
      | [] => ⟨q0, .fail (.notFound "STRAT not found")⟩
      | raw :: _ =>
        match build_issue_data raw with
        | .error e => ⟨q0, .fail (.serverError e)⟩
        | .ok sd =>
          let ef := fetch_epics_for_strat s issue_key
          match ef.2 with
          | .error e => ⟨q0 ++ ef.1, .fail (.serverError e)⟩
          | .ok epics =>
            let (tqs, epicItems) := reloadEpicsFor s none issue_key epics
            ⟨q0 ++ ef.1 ++ tqs, .ok (.strat ⟨sd, none, epicItems⟩)⟩
  else if item_type = "epic" then
    let q0 : List Query := [.keySearch issue_key]
    match s.keySearch issue_key with
    | .error e => ⟨q0, .fail (.serverError e)⟩
    | .ok epicIssues =>
      match epicIssues with
      | [] => ⟨q0, .fail (.notFound "Epic not found")⟩
      | raw :: _ =>
        match build_issue_data raw with
        | .error e => ⟨q0, .fail (.serverError e)⟩
        | .ok ed =>
          let tf := fetch_tasks_for_epic s issue_key
          ⟨q0 ++ tf.1,
            .ok (.epic ⟨ed, none, none,
              tf.2.map (fun t => ⟨t.1, t.2, none, none, some issue_key⟩)⟩)⟩
  else if item_type = "task" then
    let q0 : List Query := [.keySearch issue_key]
    match s.keySearch issue_key with
    | .error e => ⟨q0, .fail (.serverError e)⟩
    | .ok taskIssues =>
      match taskIssues with
      | [] => ⟨q0, .fail (.notFound "Task not found")⟩
      | raw :: _ =>
        match buildTask raw with
        | .error e => ⟨q0, .fail (.serverError e)⟩
        | .ok (td, it) => ⟨q0, .ok (.task ⟨td, it, none, none, none⟩)⟩
  else ⟨[], .fail .invalidType⟩

/-! ## Declarative characterization of the streaming loops

Each per-level loop is equivalent (in the absence of normalizer errors) to a
`filterMap` for its emitted events, a `foldl` for its children-by-parent
dict, and a `filterMap`-derived key list.  The equivalences are proved by
induction and let the flow-level theorems speak about explicit list
expressions. -/

/-- `true` exactly on an `ok` value. -/
def okB {α : Type} (x : Except PyError α) : Bool :=
  match x with
  | .ok _ => true
  | .error _ => false

/-- `okB` characterization. -/
theorem okB_iff {α : Type} (x : Except PyError α) :
    okB x = true ↔ ∃ a, x = .ok a := by
  cases x <;> simp [okB]

/-- The value list of an `ok` result, `[]` on an error. -/
def okD (x : Except PyError (List RawIssue)) : List RawIssue :=
  match x with
  | .ok l => l
  | .error _ => []

/-- Successful normalization as an `Option`. -/
def buildOk (r : RawIssue) : Option IssueData := (build_issue_data r).toOption

/-- Successful task normalization as an `Option`. -/
def buildTaskOk (r : RawIssue) : Option (IssueData × String) :=
  (buildTask r).toOption

/-- The keys appended to a `*_keys_list` by a loop over `l`: one per
successfully built record. -/
def builtKeys (l : List RawIssue) : List String :=
  (l.filterMap buildOk).map (·.key)

/-- The `strat` event (if any) the RFE-first STRAT loop emits for one
record. -/
def stratEmit (rfeKeys : List String) (r : RawIssue) : Option Event :=
  match build_issue_data r with
  | .ok sd =>
    (match findRfeLink rfeKeys (r.fields.issuelinks.getD []) with
     | some fr => if fr.isEmpty then none else some (.strat sd (some fr))
     | none => none)
  | .error _ => none

/-- One step of the `strats_by_rfe` accumulation. -/
def stratStep (rfeKeys : List String) (m : List (String × List IssueData))
    (r : RawIssue) : List (String × List IssueData) :=
  match build_issue_data r with
  | .ok sd =>
    (match findRfeLink rfeKeys (r.fields.issuelinks.getD []) with
     | some fr => if fr.isEmpty then m else dictAppend m fr sd
     | none => m)
  | .error _ => m

/-- The `epic` event (if any) the RFE-first Epic loop emits for one
record. -/
def epicEmit (stratKeys : List String)
    (stratsByRfe : List (String × List IssueData)) (r : RawIssue) :
    Option Event :=
  match build_issue_data r with
  | .ok ed =>
    (match r.fields.customfield_12313140 with
     | some pl =>
       if pl.isEmpty then none
       else if pl ∈ stratKeys then
         match mapLookupByKey stratsByRfe pl with
         | some rk => if rk.isEmpty then none else some (.epic ed (some rk) pl)
         | none => none
       else none
     | none => none)
  | .error _ => none

/-- One step of the `epics_by_strat` accumulation (shared by both modes:
membership of the Parent Link in `strat_keys_list` is the only
condition). -/
def epicStep (stratKeys : List String) (m : List (String × List IssueData))
    (r : RawIssue) : List (String × List IssueData) :=
  match build_issue_data r with
  | .ok ed =>
    (match r.fields.customfield_12313140 with
     | some pl =>
       if pl.isEmpty then m
       else if pl ∈ stratKeys then dictAppend m pl ed else m
     | none => m)
  | .error _ => m

/-- The `task` event (if any) the RFE-first Task loop emits for one
record. -/
def taskEmit (epicKeys : List String)
    (epicsByStrat stratsByRfe : List (String × List IssueData))
    (r : RawIssue) : Option Event :=
  match buildTask r with
  | .ok t =>
    (match r.fields.customfield_12311140 with
     | some el =>
       if el.isEmpty then none
       else if el ∈ epicKeys then
         let sk := mapLookupByKey epicsByStrat el
         let rk :=
           match sk with
           | some sk0 => mapLookupByKey stratsByRfe sk0
           | none => none
         if strTruthy rk && strTruthy sk then
           some (.task t.1 t.2 rk (sk.getD "") el)
         else none
       else none
     | none => none)
  | .error _ => none

/-- One step of the `tasks_by_epic` accumulation (shared by both modes). -/
def taskStep (epicKeys : List String) (m : List (String × List IssueData))
    (r : RawIssue) : List (String × List IssueData) :=
  match buildTask r with
  | .ok t =>
    (match r.fields.customfield_12311140 with
     | some el =>
       if el.isEmpty then m
       else if el ∈ epicKeys then dictAppend m el t.1 else m
     | none => m)
  | .error _ => m

/-- The `strat` event the STRAT-first top-level loop emits for one record
(every built record is emitted). -/
def stratTopEmit (r : RawIssue) : Option Event :=
  (buildOk r).map (fun sd => .strat sd none)

/-- The `epic` event (if any) the STRAT-first Epic loop emits for one
record. -/
def epicEmitS (stratKeys : List String) (r : RawIssue) : Option Event :=
  match build_issue_data r with
  | .ok ed =>
    (match r.fields.customfield_12313140 with
     | some pl =>
       if pl.isEmpty then none
       else if pl ∈ stratKeys then some (.epic ed none pl)
       else none
     | none => none)
  | .error _ => none

/-- The `task` event (if any) the STRAT-first Task loop emits for one
record. -/
def taskEmitS (epicKeys : List String)
    (epicsByStrat : List (String × List IssueData)) (r : RawIssue) :
    Option Event :=
  match buildTask r with
  | .ok t =>
    (match r.fields.customfield_12311140 with
     | some el =>
       if el.isEmpty then none
       else if el ∈ epicKeys then
         let sk := mapLookupByKey epicsByStrat el
         if strTruthy sk then some (.task t.1 t.2 none (sk.getD "") el)
         else none
       else none
     | none => none)
  | .error _ => none

/-- `buildAll` succeeds on a list of well-formed records and returns
exactly the `filterMap` of the successful builds. -/
theorem buildAll_ok (l : List RawIssue)
    (h : ∀ r ∈ l, okB (build_issue_data r) = true) :
    buildAll l = .ok (l.filterMap buildOk) := by
  induction l with
  | nil => rfl
  | cons r rest ih =>
    obtain ⟨d, hd⟩ := (okB_iff _).mp (h r (List.mem_cons_self r rest))
    rw [List.filterMap_cons, buildAll, hd,
      ih (fun t ht => h t (List.mem_cons_of_mem r ht))]
    simp [buildOk, hd, Except.toOption]

/-- The RFE-first STRAT loop, characterized on well-formed input. -/
theorem processStrats_eq (rfeKeys : List String) (l : List RawIssue) :
    ∀ acc : StratAcc, (∀ r ∈ l, okB (build_issue_data r) = true) →
    processStrats rfeKeys acc l =
      (⟨acc.events ++ l.filterMap (stratEmit rfeKeys),
        l.foldl (stratStep rfeKeys) acc.stratsByRfe,
        acc.stratKeys ++ builtKeys l,
        acc.total + (l.filterMap (stratEmit rfeKeys)).length⟩, none) := by
  induction l with
  | nil => intro acc _; simp [processStrats, builtKeys]
  | cons r rest ih =>
    intro acc h
    obtain ⟨sd, hsd⟩ := (okB_iff _).mp (h r (List.mem_cons_self r rest))
    have hrest := fun t ht => h t (List.mem_cons_of_mem r ht)
    simp only [processStrats, hsd]
    cases hf : findRfeLink rfeKeys (r.fields.issuelinks.getD []) with
    | none =>
      simp only
      rw [ih _ hrest]
      simp [stratEmit, stratStep, builtKeys, hsd, hf, buildOk,
        Except.toOption, List.filterMap_cons, List.append_assoc]
    | some fr =>
      by_cases hfr : fr.isEmpty
      · simp only [hfr, if_true]
        rw [ih _ hrest]
        simp [stratEmit, stratStep, builtKeys, hsd, hf, hfr, buildOk,
          Except.toOption, List.filterMap_cons, List.append_assoc]
      · simp only [hfr, if_false, Bool.false_eq_true]
        rw [ih _ hrest]
        simp [stratEmit, stratStep, builtKeys, hsd, hf, hfr, buildOk,
          Except.toOption, List.filterMap_cons, List.append_assoc]
        omega

/-- The RFE-first Epic loop, characterized on well-formed input. -/
theorem processEpicsRfe_eq (stratKeys : List String)
    (stratsByRfe : List (String × List IssueData)) (l : List RawIssue) :
    ∀ acc : EpicAcc, (∀ r ∈ l, okB (build_issue_data r) = true) →
    processEpicsRfe stratKeys stratsByRfe acc l =
      (⟨acc.events ++ l.filterMap (epicEmit stratKeys stratsByRfe),
        l.foldl (epicStep stratKeys) acc.epicsByStrat,
        acc.epicKeys ++ builtKeys l,
        acc.total + (l.filterMap (epicEmit stratKeys stratsByRfe)).length⟩,
        none) := by
  induction l with
  | nil => intro acc _; simp [processEpicsRfe, builtKeys]
  | cons r rest ih =>
    intro acc h
    obtain ⟨ed, hed⟩ := (okB_iff _).mp (h r (List.mem_cons_self r rest))
    have hrest := fun t ht => h t (List.mem_cons_of_mem r ht)
    simp only [processEpicsRfe, hed]
    cases hpl : r.fields.customfield_12313140 with
    | none =>
      simp only
      rw [ih _ hrest]
      simp [epicEmit, epicStep, builtKeys, hed, hpl, buildOk,
        Except.toOption, List.filterMap_cons, List.append_assoc]
    | some pl =>
      by_cases hple : pl.isEmpty
      · simp only [hple, if_true]
        rw [ih _ hrest]
        simp [epicEmit, epicStep, builtKeys, hed, hpl, hple, buildOk,
          Except.toOption, List.filterMap_cons, List.append_assoc]
      · simp only [hple, Bool.false_eq_true, if_false]
        by_cases hmem : pl ∈ stratKeys
        · simp only [if_pos hmem]
          cases hrk : mapLookupByKey stratsByRfe pl with
          | none =>
            simp only
            rw [ih _ hrest]
            simp [epicEmit, epicStep, builtKeys, hed, hpl, hple, hmem, hrk,
              buildOk, Except.toOption, List.filterMap_cons,
              List.append_assoc]
          | some rk =>
            by_cases hrke : rk.isEmpty
            · simp only [hrke, if_true]
              rw [ih _ hrest]
              simp [epicEmit, epicStep, builtKeys, hed, hpl, hple, hmem, hrk,
                hrke, buildOk, Except.toOption, List.filterMap_cons,
                List.append_assoc]
            · simp only [hrke, Bool.false_eq_true, if_false]
              rw [ih _ hrest]
              simp [epicEmit, epicStep, builtKeys, hed, hpl, hple, hmem, hrk,
                hrke, buildOk, Except.toOption, List.filterMap_cons,
                List.append_assoc]
              omega
        · simp only [if_neg hmem]
          rw [ih _ hrest]
          simp [epicEmit, epicStep, builtKeys, hed, hpl, hple, hmem, buildOk,
            Except.toOption, List.filterMap_cons, List.append_assoc]

/-- The RFE-first Task loop, characterized on well-formed input. -/
theorem processTasksRfe_eq (epicKeys : List String)
    (epicsByStrat stratsByRfe : List (String × List IssueData))
    (l : List RawIssue) :
    ∀ acc : TaskAcc, (∀ r ∈ l, okB (buildTask r) = true) →
    processTasksRfe epicKeys epicsByStrat stratsByRfe acc l =
      (⟨acc.events ++ l.filterMap (taskEmit epicKeys epicsByStrat stratsByRfe),
        l.foldl (taskStep epicKeys) acc.tasksByEpic,
        acc.total +
          (l.filterMap (taskEmit epicKeys epicsByStrat stratsByRfe)).length⟩,
        none) := by
  induction l with
  | nil => intro acc _; simp [processTasksRfe]
  | cons r rest ih =>
    intro acc h
    obtain ⟨t, ht⟩ := (okB_iff _).mp (h r (List.mem_cons_self r rest))
    have hrest := fun u hu => h u (List.mem_cons_of_mem r hu)
    simp only [processTasksRfe, ht]
    cases hel : r.fields.customfield_12311140 with
    | none =>
      simp only
      rw [ih _ hrest]
      simp [taskEmit, taskStep, ht, hel, List.filterMap_cons,
        List.append_assoc]
    | some el =>
      by_cases hele : el.isEmpty
      · simp only [hele, if_true]
        rw [ih _ hrest]
        simp [taskEmit, taskStep, ht, hel, hele, List.filterMap_cons,
          List.append_assoc]
      · simp only [hele, Bool.false_eq_true, if_false]
        by_cases hmem : el ∈ epicKeys
        · simp only [if_pos hmem]
          by_cases hemit :
            (strTruthy (match mapLookupByKey epicsByStrat el with
              | some sk0 => mapLookupByKey stratsByRfe sk0
              | none => none) &&
              strTruthy (mapLookupByKey epicsByStrat el)) = true
          · simp only [hemit, if_true]
            rw [ih _ hrest]
            simp [taskEmit, taskStep, ht, hel, hele, hmem, hemit,
              List.filterMap_cons, List.append_assoc]
            omega
          · simp only [hemit, if_false, Bool.false_eq_true]
            rw [ih _ hrest]
            simp [taskEmit, taskStep, ht, hel, hele, hmem, hemit,
              List.filterMap_cons, List.append_assoc]
        · simp only [if_neg hmem]
          rw [ih _ hrest]
          simp [taskEmit, taskStep, ht, hel, hele, hmem,
            List.filterMap_cons, List.append_assoc]

/-- The STRAT-first top-level loop, characterized on well-formed input. -/
theorem processStratsTop_eq (l : List RawIssue) :
    ∀ acc : StratTopAcc, (∀ r ∈ l, okB (build_issue_data r) = true) →
    processStratsTop acc l =
      (⟨acc.events ++ l.filterMap stratTopEmit,
        acc.stratKeys ++ builtKeys l,
        acc.total + (l.filterMap stratTopEmit).length⟩, none) := by
  induction l with
  | nil => intro acc _; simp [processStratsTop, builtKeys]
  | cons r rest ih =>
    intro acc h
    obtain ⟨sd, hsd⟩ := (okB_iff _).mp (h r (List.mem_cons_self r rest))
    have hrest := fun t ht => h t (List.mem_cons_of_mem r ht)
    simp only [processStratsTop, hsd]
    rw [ih _ hrest]
    simp [stratTopEmit, builtKeys, hsd, buildOk, Except.toOption,
      List.filterMap_cons, List.append_assoc]
    omega

/-- The STRAT-first Epic loop, characterized on well-formed input. -/
theorem processEpicsStrat_eq (stratKeys : List String) (l : List RawIssue) :
    ∀ acc : EpicAcc, (∀ r ∈ l, okB (build_issue_data r) = true) →
    processEpicsStrat stratKeys acc l =
      (⟨acc.events ++ l.filterMap (epicEmitS stratKeys),
        l.foldl (epicStep stratKeys) acc.epicsByStrat,
        acc.epicKeys ++ builtKeys l,
        acc.total + (l.filterMap (epicEmitS stratKeys)).length⟩, none) := by
  induction l with
  | nil => intro acc _; simp [processEpicsStrat, builtKeys]
  | cons r rest ih =>
    intro acc h
    obtain ⟨ed, hed⟩ := (okB_iff _).mp (h r (List.mem_cons_self r rest))
    have hrest := fun t ht => h t (List.mem_cons_of_mem r ht)
    simp only [processEpicsStrat, hed]
    cases hpl : r.fields.customfield_12313140 with
    | none =>
      simp only
      rw [ih _ hrest]
      simp [epicEmitS, epicStep, builtKeys, hed, hpl, buildOk,
        Except.toOption, List.filterMap_cons, List.append_assoc]
    | some pl =>
      by_cases hple : pl.isEmpty
      · simp only [hple, if_true]
        rw [ih _ hrest]
        simp [epicEmitS, epicStep, builtKeys, hed, hpl, hple, buildOk,
          Except.toOption, List.filterMap_cons, List.append_assoc]
      · simp only [hple, Bool.false_eq_true, if_false]
        by_cases hmem : pl ∈ stratKeys
        · simp only [if_pos hmem]
          rw [ih _ hrest]
          simp [epicEmitS, epicStep, builtKeys, hed, hpl, hple, hmem,
            buildOk, Except.toOption, List.filterMap_cons, List.append_assoc]
          omega
        · simp only [if_neg hmem]
          rw [ih _ hrest]
          simp [epicEmitS, epicStep, builtKeys, hed, hpl, hple, hmem,
            buildOk, Except.toOption, List.filterMap_cons, List.append_assoc]

/-- The STRAT-first Task loop, characterized on well-formed input. -/
theorem processTasksStrat_eq (epicKeys : List String)
    (epicsByStrat : List (String × List IssueData)) (l : List RawIssue) :
    ∀ acc : TaskAcc, (∀ r ∈ l, okB (buildTask r) = true) →
    processTasksStrat epicKeys epicsByStrat acc l =
      (⟨acc.events ++ l.filterMap (taskEmitS epicKeys epicsByStrat),
        l.foldl (taskStep epicKeys) acc.tasksByEpic,
        acc.total + (l.filterMap (taskEmitS epicKeys epicsByStrat)).length⟩,
        none) := by
  induction l with
  | nil => intro acc _; simp [processTasksStrat]
  | cons r rest ih =>
    intro acc h
    obtain ⟨t, ht⟩ := (okB_iff _).mp (h r (List.mem_cons_self r rest))
    have hrest := fun u hu => h u (List.mem_cons_of_mem r hu)
    simp only [processTasksStrat, ht]
    cases hel : r.fields.customfield_12311140 with
    | none =>
      simp only
      rw [ih _ hrest]
      simp [taskEmitS, taskStep, ht, hel, List.filterMap_cons,
        List.append_assoc]
    | some el =>
      by_cases hele : el.isEmpty
      · simp only [hele, if_true]
        rw [ih _ hrest]
        simp [taskEmitS, taskStep, ht, hel, hele, List.filterMap_cons,
          List.append_assoc]
      · simp only [hele, Bool.false_eq_true, if_false]
        by_cases hmem : el ∈ epicKeys
        · simp only [if_pos hmem]
          by_cases hemit : strTruthy (mapLookupByKey epicsByStrat el) = true
          · simp only [hemit, if_true]
            rw [ih _ hrest]
            simp [taskEmitS, taskStep, ht, hel, hele, hmem, hemit,
              List.filterMap_cons, List.append_assoc]
            omega
          · simp only [hemit, Bool.false_eq_true, if_false]
            rw [ih _ hrest]
            simp [taskEmitS, taskStep, ht, hel, hele, hmem, hemit,
              List.filterMap_cons, List.append_assoc]
        · simp only [if_neg hmem]
          rw [ih _ hrest]
          simp [taskEmitS, taskStep, ht, hel, hele, hmem,
            List.filterMap_cons, List.append_assoc]

/-! ### Store-level declarative values of the RFE-first flow -/

/-- The raw RFE list the RFE-first flow fetches. -/
def rfeRawsR (s : Store) (c : String) : List RawIssue := okD (s.rfeSearch c)

/-- The normalized RFE list. -/
def rfeDatasR (s : Store) (c : String) : List IssueData :=
  (rfeRawsR s c).filterMap buildOk

/-- `rfe_keys` of the RFE-first flow. -/
def rfeKeysR (s : Store) (c : String) : List String :=
  (rfeDatasR s c).map (·.key)

/-- The raw STRAT list the RFE-first flow fetches (empty when the flow
returns before the STRAT level). -/
def stratRawsR (s : Store) (c : String) : List RawIssue :=
  if (rfeDatasR s c).isEmpty then [] else okD (s.stratSearch (rfeKeysR s c))

/-- The `strat` events the RFE-first flow emits, in store order. -/
def stratEventsR (s : Store) (c : String) : List Event :=
  (stratRawsR s c).filterMap (stratEmit (rfeKeysR s c))

/-- The final `strats_by_rfe` dict of the RFE-first flow. -/
def stratsByRfeR (s : Store) (c : String) : List (String × List IssueData) :=
  (stratRawsR s c).foldl (stratStep (rfeKeysR s c)) []

/-- The final `strat_keys_list` of the RFE-first flow. -/
def stratKeysR (s : Store) (c : String) : List String :=
  builtKeys (stratRawsR s c)

/-- The raw Epic list the RFE-first flow fetches (empty when the Epic level
is skipped). -/
def epicRawsR (s : Store) (c : String) : List RawIssue :=
  if (stratKeysR s c).isEmpty then []
  else okD (s.epicSearch (stratKeysR s c))

/-- The `epic` events the RFE-first flow emits, in store order. -/
def epicEventsR (s : Store) (c : String) : List Event :=
  (epicRawsR s c).filterMap (epicEmit (stratKeysR s c) (stratsByRfeR s c))

/-- The final `epics_by_strat` dict of the RFE-first flow. -/
def epicsByStratR (s : Store) (c : String) : List (String × List IssueData) :=
  (epicRawsR s c).foldl (epicStep (stratKeysR s c)) []

/-- The final `epic_keys_list` of the RFE-first flow. -/
def epicKeysR (s : Store) (c : String) : List String :=
  builtKeys (epicRawsR s c)

/-- The raw Task list the RFE-first flow fetches (empty when the Task level
is skipped). -/
def taskRawsR (s : Store) (c : String) : List RawIssue :=
  if (epicKeysR s c).isEmpty then []
  else okD (s.taskSearch (epicKeysR s c))

/-- The `task` events the RFE-first flow emits, in store order. -/
def taskEventsR (s : Store) (c : String) : List Event :=
  (taskRawsR s c).filterMap
    (taskEmit (epicKeysR s c) (epicsByStratR s c) (stratsByRfeR s c))

/-- The full event sequence of a completing RFE-first flow. -/
def eventsR (s : Store) (c : String) : List Event :=
  if (rfeDatasR s c).isEmpty then
    [.progress "Loading RFEs...", .complete 0 0 0 0]
  else
    [.progress "Loading RFEs..."] ++ (rfeDatasR s c).map Event.rfe ++
    [.progress "Loading STRATs..."] ++ stratEventsR s c ++
    (if (stratKeysR s c).isEmpty then
      [.complete (rfeDatasR s c).length (stratEventsR s c).length 0 0]
     else
      [.progress "Loading Epics..."] ++ epicEventsR s c ++
      (if (epicKeysR s c).isEmpty then
        [.complete (rfeDatasR s c).length (stratEventsR s c).length
          (epicEventsR s c).length 0]
       else
        [.progress "Loading Tasks..."] ++ taskEventsR s c ++
        [.complete (rfeDatasR s c).length (stratEventsR s c).length
          (epicEventsR s c).length (taskEventsR s c).length]))

/-- The query sequence of a completing RFE-first flow. -/
def queriesR (s : Store) (c : String) : List Query :=
  if (rfeDatasR s c).isEmpty then [.rfeSearch c]
  else
    [.rfeSearch c, .stratSearch (rfeKeysR s c)] ++
    (if (stratKeysR s c).isEmpty then []
     else [.epicSearch (stratKeysR s c)]) ++
    (if (epicKeysR s c).isEmpty then []
     else [.taskSearch (epicKeysR s c)])

/-- The orphan counts of a completing RFE-first flow. -/
def orphansR (s : Store) (c : String) : Option OrphanCounts :=
  if (rfeDatasR s c).isEmpty then none
  else
    some ⟨some ((stratRawsR s c).length - (stratEventsR s c).length : Int),
      (if (epicKeysR s c).isEmpty then (0 : Int)
       else (epicRawsR s c).length) - (epicEventsR s c).length,
      (if (epicKeysR s c).isEmpty then (0 : Int)
       else (taskRawsR s c).length) - (taskEventsR s c).length⟩

/-- Master characterization of the RFE-first flow: on a store whose fetches
along the executed path succeed and whose records normalize without raising,
the flow completes (no escaped exception) and its events, queries and orphan
counts are exactly the declarative values above. -/
theorem stream_hierarchy_rfe_first_spec (s : Store) (c : String)
    (h1 : okB (s.rfeSearch c) = true)
    (h2 : ∀ r ∈ rfeRawsR s c, okB (build_issue_data r) = true)
    (h3 : (rfeDatasR s c).isEmpty = false →
      okB (s.stratSearch (rfeKeysR s c)) = true)
    (h4 : ∀ r ∈ stratRawsR s c, okB (build_issue_data r) = true)
    (h5 : (stratKeysR s c).isEmpty = false →
      okB (s.epicSearch (stratKeysR s c)) = true)
    (h6 : ∀ r ∈ epicRawsR s c, okB (build_issue_data r) = true)
    (h7 : (epicKeysR s c).isEmpty = false →
      okB (s.taskSearch (epicKeysR s c)) = true)
    (h8 : ∀ r ∈ taskRawsR s c, okB (buildTask r) = true) :
    stream_hierarchy_rfe_first s c =
      ⟨eventsR s c, queriesR s c, none, orphansR s c⟩ := by
  obtain ⟨rfeRaws, hrw⟩ := (okB_iff _).mp h1
  have hraws : rfeRawsR s c = rfeRaws := by simp [rfeRawsR, okD, hrw]
  have hdatas : rfeDatasR s c = rfeRaws.filterMap buildOk := by
    rw [rfeDatasR, hraws]
  have hba : buildAll rfeRaws = .ok (rfeRaws.filterMap buildOk) :=
    buildAll_ok _ (hraws ▸ h2)
  cases hemp : (rfeDatasR s c).isEmpty with
  | true =>
    have hempF : (rfeRaws.filterMap buildOk).isEmpty = true := hdatas ▸ hemp
    simp only [stream_hierarchy_rfe_first, fetch_rfes, hrw, hba, hempF,
      if_true, eventsR, queriesR, orphansR, hemp]
    rfl
  | false =>
    have hempF : (rfeRaws.filterMap buildOk).isEmpty = false := hdatas ▸ hemp
    have hkeys : rfeKeysR s c = (rfeRaws.filterMap buildOk).map (·.key) := by
      rw [rfeKeysR, hdatas]
    obtain ⟨stratRaws, hsw⟩ := (okB_iff _).mp (h3 hemp)
    have hsw2 : s.stratSearch ((rfeRaws.filterMap buildOk).map (·.key)) =
        .ok stratRaws := hkeys ▸ hsw
    have hsraws : stratRawsR s c = stratRaws := by
      simp [stratRawsR, hemp, okD, hsw]
    have hskeys : stratKeysR s c = builtKeys stratRaws := by
      rw [stratKeysR, hsraws]
    have h4' : ∀ r ∈ stratRaws, okB (build_issue_data r) = true :=
      hsraws ▸ h4
    have hps := processStrats_eq ((rfeRaws.filterMap buildOk).map (·.key))
      stratRaws ⟨[], [], [], 0⟩ h4'
    simp only [stream_hierarchy_rfe_first, fetch_rfes, hrw, hba, hempF,
      Bool.false_eq_true, if_false, hsw2, hps]
    have hsev : stratEventsR s c =
        stratRaws.filterMap
          (stratEmit ((rfeRaws.filterMap buildOk).map (·.key))) := by
      rw [stratEventsR, hsraws, hkeys]
    have hsmap : stratsByRfeR s c =
        stratRaws.foldl
          (stratStep ((rfeRaws.filterMap buildOk).map (·.key))) [] := by
      rw [stratsByRfeR, hsraws, hkeys]
    cases hske : (stratKeysR s c).isEmpty with
    | true =>
      have hskeF : (builtKeys stratRaws).isEmpty = true := hskeys ▸ hske
      have heraws : epicRawsR s c = [] := by
        simp [epicRawsR, hske]
      have hekeys : epicKeysR s c = [] := by
        simp [epicKeysR, heraws, builtKeys]
      have htraws : taskRawsR s c = [] := by
        simp [taskRawsR, hekeys]
      simp only [List.nil_append, hskeF, if_true, eventsR, queriesR,
        orphansR, hemp, hempF, Bool.false_eq_true, if_false, hske, hsev,
        hdatas, hsraws, hkeys, hekeys, heraws, htraws, epicEventsR,
        taskEventsR]
      simp [Nat.zero_add]
    | false =>
      have hskeF : (builtKeys stratRaws).isEmpty = false := hskeys ▸ hske
      obtain ⟨epicRaws, hew⟩ := (okB_iff _).mp (h5 hske)
      have hew2 : s.epicSearch (builtKeys stratRaws) = .ok epicRaws :=
        hskeys ▸ hew
      have heraws : epicRawsR s c = epicRaws := by
        simp [epicRawsR, hske, okD, hew]
      have hekeys : epicKeysR s c = builtKeys epicRaws := by
        rw [epicKeysR, heraws]
      have h6' : ∀ r ∈ epicRaws, okB (build_issue_data r) = true :=
        heraws ▸ h6
      have hpe := processEpicsRfe_eq (builtKeys stratRaws)
        (stratRaws.foldl
          (stratStep ((rfeRaws.filterMap buildOk).map (·.key))) [])
        epicRaws ⟨[], [], [], 0⟩ h6'
      simp only [List.nil_append, hskeF, Bool.false_eq_true, if_false,
        hew2, hpe]
      have heev : epicEventsR s c =
          epicRaws.filterMap (epicEmit (builtKeys stratRaws)
            (stratRaws.foldl
              (stratStep ((rfeRaws.filterMap buildOk).map (·.key))) [])) := by
        rw [epicEventsR, heraws, hskeys, hsmap]
      have hemap : epicsByStratR s c =
          epicRaws.foldl (epicStep (builtKeys stratRaws)) [] := by
        rw [epicsByStratR, heraws, hskeys]
      cases heke : (epicKeysR s c).isEmpty with
      | true =>
        have hekeF : (builtKeys epicRaws).isEmpty = true := hekeys ▸ heke
        have htraws : taskRawsR s c = [] := by
          simp [taskRawsR, heke]
        simp only [List.nil_append, hekeF, if_true, eventsR, queriesR,
          orphansR, hemp, hempF, Bool.false_eq_true, if_false, hske, hskeF,
          heke, hsev, hdatas, hsraws, hkeys, heev, hskeys, heraws, htraws,
          taskEventsR]
        simp [Nat.zero_add]
      | false =>
        have hekeF : (builtKeys epicRaws).isEmpty = false := hekeys ▸ heke
        obtain ⟨taskRaws, htw⟩ := (okB_iff _).mp (h7 heke)
        have htw2 : s.taskSearch (builtKeys epicRaws) = .ok taskRaws :=
          hekeys ▸ htw
        have htraws : taskRawsR s c = taskRaws := by
          simp [taskRawsR, heke, okD, htw]
        have h8' : ∀ r ∈ taskRaws, okB (buildTask r) = true := htraws ▸ h8
        have hpt := processTasksRfe_eq (builtKeys epicRaws)
          (epicRaws.foldl (epicStep (builtKeys stratRaws)) [])
          (stratRaws.foldl
            (stratStep ((rfeRaws.filterMap buildOk).map (·.key))) [])
          taskRaws ⟨[], [], 0⟩ h8'
        simp only [List.nil_append, hekeF, Bool.false_eq_true, if_false,
          htw2, hpt]
        have htev : taskEventsR s c =
            taskRaws.filterMap (taskEmit (builtKeys epicRaws)
              (epicRaws.foldl (epicStep (builtKeys stratRaws)) [])
              (stratRaws.foldl
                (stratStep
                  ((rfeRaws.filterMap buildOk).map (·.key))) [])) := by
          rw [taskEventsR, htraws, hekeys, hemap, hsmap]
        simp only [eventsR, queriesR, orphansR, hemp, hempF,
          Bool.false_eq_true, if_false, hske, hskeF, heke, hekeF, hsev,
          hdatas, hsraws, hkeys, heev, hskeys, heraws, htev, hekeys, htraws]
        simp [Nat.zero_add]

/-! ### Store-level declarative values of the STRAT-first flow -/

/-- The raw STRAT list the STRAT-first flow fetches. -/
def stratRawsS (s : Store) (c : String) : List RawIssue :=
  okD (s.stratTopSearch c)

/-- The `strat` events the STRAT-first flow emits, in store order. -/
def stratEventsS (s : Store) (c : String) : List Event :=
  (stratRawsS s c).filterMap stratTopEmit

/-- The final `strat_keys_list` of the STRAT-first flow. -/
def stratKeysS (s : Store) (c : String) : List String :=
  builtKeys (stratRawsS s c)

/-- The raw Epic list the STRAT-first flow fetches. -/
def epicRawsS (s : Store) (c : String) : List RawIssue :=
  if (stratKeysS s c).isEmpty then []
  else okD (s.epicSearch (stratKeysS s c))

/-- The `epic` events the STRAT-first flow emits, in store order. -/
def epicEventsS (s : Store) (c : String) : List Event :=
  (epicRawsS s c).filterMap (epicEmitS (stratKeysS s c))

/-- The final `epics_by_strat` dict of the STRAT-first flow. -/
def epicsByStratS (s : Store) (c : String) : List (String × List IssueData) :=
  (epicRawsS s c).foldl (epicStep (stratKeysS s c)) []

/-- The final `epic_keys_list` of the STRAT-first flow. -/
def epicKeysS (s : Store) (c : String) : List String :=
  builtKeys (epicRawsS s c)

/-- The raw Task list the STRAT-first flow fetches. -/
def taskRawsS (s : Store) (c : String) : List RawIssue :=
  if (epicKeysS s c).isEmpty then []
  else okD (s.taskSearch (epicKeysS s c))

/-- The `task` events the STRAT-first flow emits, in store order. -/
def taskEventsS (s : Store) (c : String) : List Event :=
  (taskRawsS s c).filterMap (taskEmitS (epicKeysS s c) (epicsByStratS s c))

/-- The full event sequence of a completing STRAT-first flow. -/
def eventsS (s : Store) (c : String) : List Event :=
  if (stratRawsS s c).isEmpty then
    [.progress "Loading STRATs...", .complete 0 0 0 0]
  else
    [.progress "Loading STRATs..."] ++ stratEventsS s c ++
    (if (stratKeysS s c).isEmpty then
      [.complete 0 (stratEventsS s c).length 0 0]
     else
      [.progress "Loading Epics..."] ++ epicEventsS s c ++
      (if (epicKeysS s c).isEmpty then
        [.complete 0 (stratEventsS s c).length (epicEventsS s c).length 0]
       else
        [.progress "Loading Tasks..."] ++ taskEventsS s c ++
        [.complete 0 (stratEventsS s c).length (epicEventsS s c).length
          (taskEventsS s c).length]))

/-- The query sequence of a completing STRAT-first flow. -/
def queriesS (s : Store) (c : String) : List Query :=
  [.stratTopSearch c] ++
  (if (stratKeysS s c).isEmpty then []
   else [.epicSearch (stratKeysS s c)]) ++
  (if (epicKeysS s c).isEmpty then []
   else [.taskSearch (epicKeysS s c)])

/-- The orphan counts of a completing STRAT-first flow. -/
def orphansS (s : Store) (c : String) : Option OrphanCounts :=
  if (stratRawsS s c).isEmpty then none
  else
    some ⟨none,
      (if (epicKeysS s c).isEmpty then (0 : Int)
       else (epicRawsS s c).length) - (epicEventsS s c).length,
      (if (epicKeysS s c).isEmpty then (0 : Int)
       else (taskRawsS s c).length) - (taskEventsS s c).length⟩

/-- Master characterization of the STRAT-first flow, on a store whose
fetches along the executed path succeed and whose records normalize without
raising. -/
theorem stream_hierarchy_strat_first_spec (s : Store) (c : String)
    (h1 : okB (s.stratTopSearch c) = true)
    (h2 : ∀ r ∈ stratRawsS s c, okB (build_issue_data r) = true)
    (h5 : (stratKeysS s c).isEmpty = false →
      okB (s.epicSearch (stratKeysS s c)) = true)
    (h6 : ∀ r ∈ epicRawsS s c, okB (build_issue_data r) = true)
    (h7 : (epicKeysS s c).isEmpty = false →
      okB (s.taskSearch (epicKeysS s c)) = true)
    (h8 : ∀ r ∈ taskRawsS s c, okB (buildTask r) = true) :
    stream_hierarchy_strat_first s c =
      ⟨eventsS s c, queriesS s c, none, orphansS s c⟩ := by
  obtain ⟨stratRaws, hsw⟩ := (okB_iff _).mp h1
  have hsraws : stratRawsS s c = stratRaws := by simp [stratRawsS, okD, hsw]
  have hskeys : stratKeysS s c = builtKeys stratRaws := by
    rw [stratKeysS, hsraws]
  cases hemp : (stratRawsS s c).isEmpty with
  | true =>
    have hempF : stratRaws.isEmpty = true := hsraws ▸ hemp
    have hske : (stratKeysS s c).isEmpty = true := by
      rw [hskeys]
      cases stratRaws with
      | nil => rfl
      | cons a t => simp at hempF
    have hek : epicRawsS s c = [] := by simp [epicRawsS, hske]
    have heke : (epicKeysS s c).isEmpty = true := by
      simp [epicKeysS, hek, builtKeys]
    simp only [stream_hierarchy_strat_first, hsw, hempF, if_true, eventsS,
      queriesS, orphansS, hemp, hske, heke]
    rfl
  | false =>
    have hempF : stratRaws.isEmpty = false := hsraws ▸ hemp
    have h2' : ∀ r ∈ stratRaws, okB (build_issue_data r) = true :=
      hsraws ▸ h2
    have hps := processStratsTop_eq stratRaws ⟨[], [], 0⟩ h2'
    simp only [stream_hierarchy_strat_first, hsw, hempF, Bool.false_eq_true,
      if_false, hps]
    have hsev : stratEventsS s c = stratRaws.filterMap stratTopEmit := by
      rw [stratEventsS, hsraws]
    cases hske : (stratKeysS s c).isEmpty with
    | true =>
      have hskeF : (builtKeys stratRaws).isEmpty = true := hskeys ▸ hske
      have heraws : epicRawsS s c = [] := by simp [epicRawsS, hske]
      have hekeys : epicKeysS s c = [] := by
        simp [epicKeysS, heraws, builtKeys]
      have htraws : taskRawsS s c = [] := by simp [taskRawsS, hekeys]
      simp only [List.nil_append, hskeF, if_true, eventsS, queriesS,
        orphansS, hemp, hempF, Bool.false_eq_true, if_false, hske, hsev,
        hsraws, hekeys, heraws, htraws, epicEventsS, taskEventsS]
      simp [Nat.zero_add]
    | false =>
      have hskeF : (builtKeys stratRaws).isEmpty = false := hskeys ▸ hske
      obtain ⟨epicRaws, hew⟩ := (okB_iff _).mp (h5 hske)
      have hew2 : s.epicSearch (builtKeys stratRaws) = .ok epicRaws :=
        hskeys ▸ hew
      have heraws : epicRawsS s c = epicRaws := by
        simp [epicRawsS, hske, okD, hew]
      have hekeys : epicKeysS s c = builtKeys epicRaws := by
        rw [epicKeysS, heraws]
      have h6' : ∀ r ∈ epicRaws, okB (build_issue_data r) = true :=
        heraws ▸ h6
      have hpe := processEpicsStrat_eq (builtKeys stratRaws) epicRaws
        ⟨[], [], [], 0⟩ h6'
      simp only [List.nil_append, hskeF, Bool.false_eq_true, if_false,
        hew2, hpe]
      have heev : epicEventsS s c =
          epicRaws.filterMap (epicEmitS (builtKeys stratRaws)) := by
        rw [epicEventsS, heraws, hskeys]
      have hemap : epicsByStratS s c =
          epicRaws.foldl (epicStep (builtKeys stratRaws)) [] := by
        rw [epicsByStratS, heraws, hskeys]
      cases heke : (epicKeysS s c).isEmpty with
      | true =>
        have hekeF : (builtKeys epicRaws).isEmpty = true := hekeys ▸ heke
        have htraws : taskRawsS s c = [] := by simp [taskRawsS, heke]
        simp only [List.nil_append, hekeF, if_true, eventsS, queriesS,
          orphansS, hemp, hempF, Bool.false_eq_true, if_false, hske, hskeF,
          heke, hsev, hsraws, heev, hskeys, heraws, htraws, taskEventsS]
        simp [Nat.zero_add]
      | false =>
        have hekeF : (builtKeys epicRaws).isEmpty = false := hekeys ▸ heke
        obtain ⟨taskRaws, htw⟩ := (okB_iff _).mp (h7 heke)
        have htw2 : s.taskSearch (builtKeys epicRaws) = .ok taskRaws :=
          hekeys ▸ htw
        have htraws : taskRawsS s c = taskRaws := by
          simp [taskRawsS, heke, okD, htw]
        have h8' : ∀ r ∈ taskRaws, okB (buildTask r) = true := htraws ▸ h8
        have hpt := processTasksStrat_eq (builtKeys epicRaws)
          (epicRaws.foldl (epicStep (builtKeys stratRaws)) [])
          taskRaws ⟨[], [], 0⟩ h8'
        simp only [List.nil_append, hekeF, Bool.false_eq_true, if_false,
          htw2, hpt]
        have htev : taskEventsS s c =
            taskRaws.filterMap (taskEmitS (builtKeys epicRaws)
              (epicRaws.foldl (epicStep (builtKeys stratRaws)) [])) := by
          rw [taskEventsS, htraws, hekeys, hemap]
        simp only [eventsS, queriesS, orphansS, hemp, hempF,
          Bool.false_eq_true, if_false, hske, hskeF, heke, hekeF, hsev,
          hsraws, heev, hskeys, heraws, htev, hekeys, htraws]
        simp [Nat.zero_add]

/-! ## Event classification and ordering helpers -/

/-- `true` on `rfe` events. -/
def isRfeEv : Event → Bool
  | .rfe _ => true
  | _ => false

/-- `true` on `strat` events. -/
def isStratEv : Event → Bool
  | .strat _ _ => true
  | _ => false

/-- `true` on `epic` events. -/
def isEpicEv : Event → Bool
  | .epic _ _ _ => true
  | _ => false

/-- `true` on `task` events. -/
def isTaskEv : Event → Bool
  | .task _ _ _ _ _ => true
  | _ => false

/-- `true` on the `complete` event. -/
def isCompleteEv : Event → Bool
  | .complete _ _ _ _ => true
  | _ => false

/-- `true` on the `error` event. -/
def isErrorEv : Event → Bool
  | .errorEvent _ => true
  | _ => false

/-- Every index of a `p`-event is strictly before every index of a
`q`-event: level `p` is fully emitted before level `q` starts. -/
def beforeAll (p q : Event → Bool) (evs : List Event) : Prop :=
  ∀ i j, (hi : i < evs.length) → (hj : j < evs.length) →
    p (evs.get ⟨i, hi⟩) = true → q (evs.get ⟨j, hj⟩) = true → i < j

/-- If no event of the first block satisfies `q` and no event of the second
block satisfies `p`, every `p`-event precedes every `q`-event in the
concatenation. -/
theorem beforeAll_append (p q : Event → Bool) (A B : List Event)
    (hqA : ∀ e ∈ A, q e = false) (hpB : ∀ e ∈ B, p e = false) :
    beforeAll p q (A ++ B) := by
  intro i j hi hj hp hq
  rw [List.get_eq_getElem] at hp hq
  by_cases hiA : i < A.length
  · by_cases hjA : j < A.length
    · rw [List.getElem_append_left hjA] at hq
      rw [hqA _ (List.getElem_mem hjA)] at hq
      exact absurd hq (by simp)
    · omega
  · rw [List.getElem_append_right (le_of_not_lt hiA)] at hp
    rw [hpB _ (List.getElem_mem _)] at hp
    exact absurd hp (by simp)

/-- Events produced by `stratEmit` are `strat` events. -/
theorem stratEmit_type (k : List String) (r : RawIssue) (e : Event)
    (h : stratEmit k r = some e) : isStratEv e = true := by
  unfold stratEmit at h
  repeat' split at h
  all_goals (cases h; try rfl)

/-- Events produced by `stratTopEmit` are `strat` events. -/
theorem stratTopEmit_type (r : RawIssue) (e : Event)
    (h : stratTopEmit r = some e) : isStratEv e = true := by
  unfold stratTopEmit at h
  cases hb : buildOk r with
  | none => rw [hb] at h; exact absurd h (by simp)
  | some d => rw [hb] at h; simp at h; rw [← h]; rfl

/-- Events produced by `epicEmit` are `epic` events. -/
theorem epicEmit_type (ks : List String)
    (m : List (String × List IssueData)) (r : RawIssue) (e : Event)
    (h : epicEmit ks m r = some e) : isEpicEv e = true := by
  unfold epicEmit at h
  repeat' split at h
  all_goals (cases h; try rfl)

/-- Events produced by `epicEmitS` are `epic` events. -/
theorem epicEmitS_type (ks : List String) (r : RawIssue) (e : Event)
    (h : epicEmitS ks r = some e) : isEpicEv e = true := by
  unfold epicEmitS at h
  repeat' split at h
  all_goals (cases h; try rfl)

/-- Events produced by `taskEmit` are `task` events. -/
theorem taskEmit_type (ks : List String)
    (m1 m2 : List (String × List IssueData)) (r : RawIssue) (e : Event)
    (h : taskEmit ks m1 m2 r = some e) : isTaskEv e = true := by
  unfold taskEmit at h
  dsimp only at h
  repeat' split at h
  all_goals (cases h; try rfl)

/-- Events produced by `taskEmitS` are `task` events. -/
theorem taskEmitS_type (ks : List String)
    (m : List (String × List IssueData)) (r : RawIssue) (e : Event)
    (h : taskEmitS ks m r = some e) : isTaskEv e = true := by
  unfold taskEmitS at h
  dsimp only at h
  repeat' split at h
  all_goals (cases h; try rfl)

/-- Every member of a `filterMap` over an emit function satisfies the
function's event class. -/
theorem mem_filterMap_pred {f : RawIssue → Option Event} {p : Event → Bool}
    (hf : ∀ r e, f r = some e → p e = true) (l : List RawIssue) :
    ∀ e ∈ l.filterMap f, p e = true := by
  intro e he
  obtain ⟨r, _, hr⟩ := List.mem_filterMap.mp he
  exact hf r e hr

/-! ## Concrete stores used by the witnesses and counterexamples -/

/-- A raw `fields` object with every key absent. -/
def emptyRawFields : RawFields :=
  ⟨none, none, none, none, none, none, none, none, none, none, none, none,
    none, none, none⟩

/-- A raw issue with only a key. -/
def mkRaw (k : String) : RawIssue := ⟨k, emptyRawFields⟩

/-- A raw issue with an `issuelinks` list. -/
def mkRawLinks (k : String) (links : List Link) : RawIssue :=
  ⟨k, { emptyRawFields with issuelinks := some links }⟩

/-- A raw Epic with a Parent Link value. -/
def mkRawParentLink (k pl : String) : RawIssue :=
  ⟨k, { emptyRawFields with customfield_12313140 := some pl }⟩

/-- A raw Task with an Epic Link value. -/
def mkRawEpicLink (k el : String) : RawIssue :=
  ⟨k, { emptyRawFields with customfield_12311140 := some el }⟩

/-- The canonical issue produced by normalizing a bare raw record. -/
def defaultIssueData (k : String) : IssueData :=
  ⟨k, "No summary", "Unknown", "Undefined", "Unassigned", none, "Unknown",
    "", [], [], [], "", ""⟩

/-- Store for the C1/C6 counterexamples: one RFE, one STRAT with no links
(orphaned), one Epic whose Parent Link names that orphaned STRAT. -/
def cexStore1 : Store :=
  { rfeSearch := fun _ => .ok [mkRaw "RFE-1"]
  , stratTopSearch := fun _ => .ok []
  , stratSearch := fun ks =>
      if ks = ["RFE-1"] then .ok [mkRaw "STRAT-1"] else .ok []
  , epicSearch := fun ks =>
      if ks = ["STRAT-1"] then .ok [mkRawParentLink "EPIC-1" "STRAT-1"]
      else .ok []
  , taskSearch := fun _ => .ok []
  , keySearch := fun _ => .ok [] }

/-- Store for the C2 counterexample: a STRAT reload that finds two Epics,
forcing one Task query per Epic. -/
def cexStore2 : Store :=
  { rfeSearch := fun _ => .ok []
  , stratTopSearch := fun _ => .ok []
  , stratSearch := fun _ => .ok []
  , epicSearch := fun ks =>
      if ks = ["STRAT-9"] then
        .ok [mkRawParentLink "EPIC-A" "STRAT-9",
          mkRawParentLink "EPIC-B" "STRAT-9"]
      else .ok []
  , taskSearch := fun _ => .ok []
  , keySearch := fun k => if k = "STRAT-9" then .ok [mkRaw "STRAT-9"]
      else .ok [] }

/-- Store for the C4 counterexample: an Epic reload whose Task query fails
with a remote-store error. -/
def cexStore4 : Store :=
  { rfeSearch := fun _ => .ok []
  , stratTopSearch := fun _ => .ok []
  , stratSearch := fun _ => .ok []
  , epicSearch := fun _ => .ok []
  , taskSearch := fun ks =>
      if ks = ["EPIC-9"] then .error (.jiraApiError 500 "boom") else .ok []
  , keySearch := fun k => if k = "EPIC-9" then .ok [mkRaw "EPIC-9"]
      else .ok [] }

/-- Store with one fully linked chain RFE-1 → STRAT-1 → EPIC-1 → TASK-1 (in
both modes), used by the witnesses of the flow-level theorems. -/
def happyStore : Store :=
  { rfeSearch := fun _ => .ok [mkRaw "RFE-1"]
  , stratTopSearch := fun _ =>
      .ok [mkRawLinks "STRAT-1" [⟨some "RFE-1", none⟩]]
  , stratSearch := fun ks =>
      if ks = ["RFE-1"] then
        .ok [mkRawLinks "STRAT-1" [⟨some "RFE-1", none⟩]]
      else .ok []
  , epicSearch := fun ks =>
      if ks = ["STRAT-1"] then .ok [mkRawParentLink "EPIC-1" "STRAT-1"]
      else .ok []
  , taskSearch := fun ks =>
      if ks = ["EPIC-1"] then .ok [mkRawEpicLink "TASK-1" "EPIC-1"]
      else .ok []
  , keySearch := fun _ => .ok [] }

/-! ## Filtering the flow's event list by level -/

/-- A filter keeps a list all of whose members satisfy the predicate. -/
theorem filter_all_true {p : Event → Bool} {l : List Event}
    (h : ∀ e ∈ l, p e = true) : l.filter p = l :=
  List.filter_eq_self.mpr h

/-- A filter drops a list none of whose members satisfy the predicate. -/
theorem filter_all_false {p : Event → Bool} {l : List Event}
    (h : ∀ e ∈ l, p e = false) : l.filter p = [] := by
  refine List.filter_eq_nil_iff.mpr ?_
  intro e he
  rw [h e he]
  simp

/-- Each event is of exactly one class. -/
theorem ev_class_unique (e : Event) :
    (isRfeEv e = true → isStratEv e = false ∧ isEpicEv e = false ∧
      isTaskEv e = false ∧ isCompleteEv e = false ∧ isErrorEv e = false) ∧
    (isStratEv e = true → isRfeEv e = false ∧ isEpicEv e = false ∧
      isTaskEv e = false ∧ isCompleteEv e = false ∧ isErrorEv e = false) ∧
    (isEpicEv e = true → isRfeEv e = false ∧ isStratEv e = false ∧
      isTaskEv e = false ∧ isCompleteEv e = false ∧ isErrorEv e = false) ∧
    (isTaskEv e = true → isRfeEv e = false ∧ isStratEv e = false ∧
      isEpicEv e = false ∧ isCompleteEv e = false ∧ isErrorEv e = false) := by
  cases e <;>
    simp [isRfeEv, isStratEv, isEpicEv, isTaskEv, isCompleteEv, isErrorEv]

/-- `rfe` events mapped from a data list are `rfe` events. -/
theorem rfeMap_class (l : List IssueData) :
    ∀ e ∈ l.map Event.rfe, isRfeEv e = true := by
  intro e he
  obtain ⟨d, _, rfl⟩ := List.mem_map.mp he
  rfl

/-- Filtering an emitted-event list by a different class drops it. -/
theorem emitFM_not {f : RawIssue → Option Event} {good p : Event → Bool}
    (hf : ∀ r e, f r = some e → good e = true)
    (hexcl : ∀ e, good e = true → p e = false) (l : List RawIssue) :
    (l.filterMap f).filter p = [] :=
  filter_all_false (fun e he => hexcl e (mem_filterMap_pred hf l e he))

/-- Filtering an emitted-event list by its own class keeps it. -/
theorem emitFM_self {f : RawIssue → Option Event} {good : Event → Bool}
    (hf : ∀ r e, f r = some e → good e = true) (l : List RawIssue) :
    (l.filterMap f).filter good = l.filterMap f :=
  filter_all_true (mem_filterMap_pred hf l)

/-- Filtering the mapped `rfe` block by a different class drops it. -/
theorem rfeMap_not (l : List IssueData) (p : Event → Bool)
    (hp : ∀ d, p (Event.rfe d) = false) :
    (l.map Event.rfe).filter p = [] :=
  filter_all_false (fun e he => by
    obtain ⟨d, _, rfl⟩ := List.mem_map.mp he
    exact hp d)

/-- The event list of a completing RFE-first flow, split as the prefix of
per-record events plus the single terminal `complete` event whose totals are
the per-level emitted counts. -/
def prefixR (s : Store) (c : String) : List Event :=
  [.progress "Loading RFEs..."] ++
  (if (rfeDatasR s c).isEmpty then []
   else
    (rfeDatasR s c).map Event.rfe ++
    ([.progress "Loading STRATs..."] ++ (stratEventsR s c ++
      (if (stratKeysR s c).isEmpty then []
       else [.progress "Loading Epics..."] ++ (epicEventsR s c ++
        (if (epicKeysR s c).isEmpty then []
         else [.progress "Loading Tasks..."] ++ taskEventsR s c))))))

/-- `eventsR` ends with exactly one `complete` event carrying the emitted
counts, after the prefix of record events. -/
theorem eventsR_decomp (s : Store) (c : String) :
    eventsR s c = prefixR s c ++
      [.complete (rfeDatasR s c).length (stratEventsR s c).length
        (epicEventsR s c).length (taskEventsR s c).length] := by
  unfold eventsR prefixR
  by_cases h1 : (rfeDatasR s c).isEmpty = true
  · have hd : rfeDatasR s c = [] := by
      cases hx : rfeDatasR s c with
      | nil => rfl
      | cons a t => rw [hx] at h1; simp at h1
    have hs : stratRawsR s c = [] := by simp [stratRawsR, h1]
    have hse : stratEventsR s c = [] := by simp [stratEventsR, hs]
    have hsk : stratKeysR s c = [] := by simp [stratKeysR, hs, builtKeys]
    have he : epicRawsR s c = [] := by simp [epicRawsR, hsk, builtKeys]
    have hee : epicEventsR s c = [] := by simp [epicEventsR, he]
    have hek : epicKeysR s c = [] := by simp [epicKeysR, he, builtKeys]
    have ht : taskRawsR s c = [] := by simp [taskRawsR, hek, builtKeys]
    have hte : taskEventsR s c = [] := by simp [taskEventsR, ht]
    simp [h1, hd, hse, hee, hte]
  · simp only [h1, Bool.false_eq_true, if_false]
    rw [Bool.not_eq_true] at h1
    by_cases h2 : (stratKeysR s c).isEmpty = true
    · have he : epicRawsR s c = [] := by simp [epicRawsR, h2]
      have hee : epicEventsR s c = [] := by simp [epicEventsR, he]
      have hek : epicKeysR s c = [] := by simp [epicKeysR, he, builtKeys]
      have ht : taskRawsR s c = [] := by simp [taskRawsR, hek, builtKeys]
      have hte : taskEventsR s c = [] := by simp [taskEventsR, ht]
      simp [h1, h2, hee, hte]
    · simp only [h2, Bool.false_eq_true, if_false]
      rw [Bool.not_eq_true] at h2
      by_cases h3 : (epicKeysR s c).isEmpty = true
      · have ht : taskRawsR s c = [] := by simp [taskRawsR, h3]
        have hte : taskEventsR s c = [] := by simp [taskEventsR, ht]
        simp [h1, h2, h3, hte]
      · simp only [h3, Bool.false_eq_true, if_false]
        rw [Bool.not_eq_true] at h3
        simp [h1, h2, h3]

/-- The event list of a completing STRAT-first flow, split as the prefix of
per-record events plus the terminal `complete` event. -/
def prefixS (s : Store) (c : String) : List Event :=
  [.progress "Loading STRATs..."] ++
  (if (stratRawsS s c).isEmpty then []
   else stratEventsS s c ++
     (if (stratKeysS s c).isEmpty then []
      else [.progress "Loading Epics..."] ++ (epicEventsS s c ++
        (if (epicKeysS s c).isEmpty then []
         else [.progress "Loading Tasks..."] ++ taskEventsS s c))))

/-- `eventsS` ends with exactly one `complete` event carrying a zero RFE
total and the emitted counts. -/
theorem eventsS_decomp (s : Store) (c : String) :
    eventsS s c = prefixS s c ++
      [.complete 0 (stratEventsS s c).length (epicEventsS s c).length
        (taskEventsS s c).length] := by
  unfold eventsS prefixS
  by_cases h1 : (stratRawsS s c).isEmpty = true
  · have hr : stratRawsS s c = [] := by
      cases hx : stratRawsS s c with
      | nil => rfl
      | cons a t => rw [hx] at h1; simp at h1
    have hse : stratEventsS s c = [] := by simp [stratEventsS, hr]
    have hsk : stratKeysS s c = [] := by simp [stratKeysS, hr, builtKeys]
    have he : epicRawsS s c = [] := by simp [epicRawsS, hsk, builtKeys]
    have hee : epicEventsS s c = [] := by simp [epicEventsS, he]
    have hek : epicKeysS s c = [] := by simp [epicKeysS, he, builtKeys]
    have ht : taskRawsS s c = [] := by simp [taskRawsS, hek, builtKeys]
    have hte : taskEventsS s c = [] := by simp [taskEventsS, ht]
    simp [h1, hse, hee, hte]
  · simp only [h1, Bool.false_eq_true, if_false]
    rw [Bool.not_eq_true] at h1
    by_cases h2 : (stratKeysS s c).isEmpty = true
    · have he : epicRawsS s c = [] := by simp [epicRawsS, h2]
      have hee : epicEventsS s c = [] := by simp [epicEventsS, he]
      have hek : epicKeysS s c = [] := by simp [epicKeysS, he, builtKeys]
      have ht : taskRawsS s c = [] := by simp [taskRawsS, hek, builtKeys]
      have hte : taskEventsS s c = [] := by simp [taskEventsS, ht]
      simp [h1, h2, hee, hte]
    · simp only [h2, Bool.false_eq_true, if_false]
      rw [Bool.not_eq_true] at h2
      by_cases h3 : (epicKeysS s c).isEmpty = true
      · have ht : taskRawsS s c = [] := by simp [taskRawsS, h3]
        have hte : taskEventsS s c = [] := by simp [taskEventsS, ht]
        simp [h1, h2, h3, hte]
      · simp only [h3, Bool.false_eq_true, if_false]
        rw [Bool.not_eq_true] at h3
        simp [h1, h2, h3]

/-- Every `stratEventsR` member is a `strat` event. -/
theorem stratEventsR_class (s : Store) (c : String) :
    ∀ e ∈ stratEventsR s c, isStratEv e = true :=
  mem_filterMap_pred (fun r e h => stratEmit_type _ r e h) _

/-- Every `epicEventsR` member is an `epic` event. -/
theorem epicEventsR_class (s : Store) (c : String) :
    ∀ e ∈ epicEventsR s c, isEpicEv e = true :=
  mem_filterMap_pred (fun r e h => epicEmit_type _ _ r e h) _

/-- Every `taskEventsR` member is a `task` event. -/
theorem taskEventsR_class (s : Store) (c : String) :
    ∀ e ∈ taskEventsR s c, isTaskEv e = true :=
  mem_filterMap_pred (fun r e h => taskEmit_type _ _ _ r e h) _

/-- Every `stratEventsS` member is a `strat` event. -/
theorem stratEventsS_class (s : Store) (c : String) :
    ∀ e ∈ stratEventsS s c, isStratEv e = true :=
  mem_filterMap_pred (fun r e h => stratTopEmit_type r e h) _

/-- Every `epicEventsS` member is an `epic` event. -/
theorem epicEventsS_class (s : Store) (c : String) :
    ∀ e ∈ epicEventsS s c, isEpicEv e = true :=
  mem_filterMap_pred (fun r e h => epicEmitS_type _ r e h) _

/-- Every `taskEventsS` member is a `task` event. -/
theorem taskEventsS_class (s : Store) (c : String) :
    ∀ e ∈ taskEventsS s c, isTaskEv e = true :=
  mem_filterMap_pred (fun r e h => taskEmitS_type _ _ r e h) _

/-- Filtering `eventsR` by a predicate false on `progress` and `complete`
reduces to the level segments. -/
theorem eventsR_filter_level (s : Store) (c : String) (p : Event → Bool)
    (hp1 : ∀ m, p (.progress m) = false)
    (hp2 : ∀ a b c' d, p (.complete a b c' d) = false) :
    (eventsR s c).filter p =
      ((rfeDatasR s c).map Event.rfe).filter p ++
      (stratEventsR s c).filter p ++ (epicEventsR s c).filter p ++
      (taskEventsR s c).filter p := by
  unfold eventsR
  by_cases h1 : (rfeDatasR s c).isEmpty = true
  · have hd : rfeDatasR s c = [] := by
      cases hx : rfeDatasR s c with
      | nil => rfl
      | cons a t => rw [hx] at h1; simp at h1
    have hs : stratRawsR s c = [] := by simp [stratRawsR, h1]
    have hse : stratEventsR s c = [] := by simp [stratEventsR, hs]
    have hsk : stratKeysR s c = [] := by simp [stratKeysR, hs, builtKeys]
    have he : epicRawsR s c = [] := by simp [epicRawsR, hsk, builtKeys]
    have hee : epicEventsR s c = [] := by simp [epicEventsR, he]
    have hek : epicKeysR s c = [] := by simp [epicKeysR, he, builtKeys]
    have ht : taskRawsR s c = [] := by simp [taskRawsR, hek, builtKeys]
    have hte : taskEventsR s c = [] := by simp [taskEventsR, ht]
    simp [h1, hd, hse, hee, hte, List.filter_cons, hp1, hp2]
  · simp only [h1, Bool.false_eq_true, if_false]
    rw [Bool.not_eq_true] at h1
    by_cases h2 : (stratKeysR s c).isEmpty = true
    · have he : epicRawsR s c = [] := by simp [epicRawsR, h2]
      have hee : epicEventsR s c = [] := by simp [epicEventsR, he]
      have hek : epicKeysR s c = [] := by simp [epicKeysR, he, builtKeys]
      have ht : taskRawsR s c = [] := by simp [taskRawsR, hek, builtKeys]
      have hte : taskEventsR s c = [] := by simp [taskEventsR, ht]
      simp [h2, hee, hte, List.filter_append, List.filter_cons, hp1, hp2]
    · simp only [h2, Bool.false_eq_true, if_false]
      by_cases h3 : (epicKeysR s c).isEmpty = true
      · have ht : taskRawsR s c = [] := by simp [taskRawsR, h3]
        have hte : taskEventsR s c = [] := by simp [taskEventsR, ht]
        simp [h3, hte, List.filter_append, List.filter_cons, hp1, hp2]
      · simp only [h3, Bool.false_eq_true, if_false]
        simp [List.filter_append, List.filter_cons, hp1, hp2]

/-- Filtering `eventsS` by a predicate false on `progress` and `complete`
reduces to the level segments. -/
theorem eventsS_filter_level (s : Store) (c : String) (p : Event → Bool)
    (hp1 : ∀ m, p (.progress m) = false)
    (hp2 : ∀ a b c' d, p (.complete a b c' d) = false) :
    (eventsS s c).filter p =
      (stratEventsS s c).filter p ++ (epicEventsS s c).filter p ++
      (taskEventsS s c).filter p := by
  unfold eventsS
  by_cases h1 : (stratRawsS s c).isEmpty = true
  · have hr : stratRawsS s c = [] := by
      cases hx : stratRawsS s c with
      | nil => rfl
      | cons a t => rw [hx] at h1; simp at h1
    have hse : stratEventsS s c = [] := by simp [stratEventsS, hr]
    have hsk : stratKeysS s c = [] := by simp [stratKeysS, hr, builtKeys]
    have he : epicRawsS s c = [] := by simp [epicRawsS, hsk, builtKeys]
    have hee : epicEventsS s c = [] := by simp [epicEventsS, he]
    have hek : epicKeysS s c = [] := by simp [epicKeysS, he, builtKeys]
    have ht : taskRawsS s c = [] := by simp [taskRawsS, hek, builtKeys]
    have hte : taskEventsS s c = [] := by simp [taskEventsS, ht]
    simp [h1, hse, hee, hte, List.filter_cons, hp1, hp2]
  · simp only [h1, Bool.false_eq_true, if_false]
    by_cases h2 : (stratKeysS s c).isEmpty = true
    · have he : epicRawsS s c = [] := by simp [epicRawsS, h2]
      have hee : epicEventsS s c = [] := by simp [epicEventsS, he]
      have hek : epicKeysS s c = [] := by simp [epicKeysS, he, builtKeys]
      have ht : taskRawsS s c = [] := by simp [taskRawsS, hek, builtKeys]
      have hte : taskEventsS s c = [] := by simp [taskEventsS, ht]
      simp [h2, hee, hte, List.filter_append, List.filter_cons, hp1, hp2]
    · simp only [h2, Bool.false_eq_true, if_false]
      by_cases h3 : (epicKeysS s c).isEmpty = true
      · have ht : taskRawsS s c = [] := by simp [taskRawsS, h3]
        have hte : taskEventsS s c = [] := by simp [taskEventsS, ht]
        simp [h3, hte, List.filter_append, List.filter_cons, hp1, hp2]
      · simp only [h3, Bool.false_eq_true, if_false]
        simp [List.filter_append, List.filter_cons, hp1, hp2]

/-- The `rfe` events of a completing RFE-first flow are exactly the fetched
RFEs in store order. -/
theorem eventsR_filter_rfe (s : Store) (c : String) :
    (eventsR s c).filter isRfeEv = (rfeDatasR s c).map Event.rfe := by
  rw [eventsR_filter_level s c isRfeEv (fun _ => rfl) (fun _ _ _ _ => rfl),
    filter_all_true (rfeMap_class _),
    filter_all_false
      (fun e he => ((ev_class_unique e).2.1 (stratEventsR_class s c e he)).1),
    filter_all_false
      (fun e he =>
        ((ev_class_unique e).2.2.1 (epicEventsR_class s c e he)).1),
    filter_all_false
      (fun e he =>
        ((ev_class_unique e).2.2.2 (taskEventsR_class s c e he)).1)]
  simp

/-- The `strat` events of a completing RFE-first flow are exactly the linked
STRATs in store order. -/
theorem eventsR_filter_strat (s : Store) (c : String) :
    (eventsR s c).filter isStratEv = stratEventsR s c := by
  rw [eventsR_filter_level s c isStratEv (fun _ => rfl) (fun _ _ _ _ => rfl),
    rfeMap_not _ _ (fun _ => rfl),
    filter_all_true (stratEventsR_class s c),
    filter_all_false
      (fun e he =>
        ((ev_class_unique e).2.2.1 (epicEventsR_class s c e he)).2.1),
    filter_all_false
      (fun e he =>
        ((ev_class_unique e).2.2.2 (taskEventsR_class s c e he)).2.1)]
  simp

/-- The `epic` events of a completing RFE-first flow are exactly the fully
resolved Epics in store order. -/
theorem eventsR_filter_epic (s : Store) (c : String) :
    (eventsR s c).filter isEpicEv = epicEventsR s c := by
  rw [eventsR_filter_level s c isEpicEv (fun _ => rfl) (fun _ _ _ _ => rfl),
    rfeMap_not _ _ (fun _ => rfl),
    filter_all_false
      (fun e he =>
        ((ev_class_unique e).2.1 (stratEventsR_class s c e he)).2.1),
    filter_all_true (epicEventsR_class s c),
    filter_all_false
      (fun e he =>
        ((ev_class_unique e).2.2.2 (taskEventsR_class s c e he)).2.2.1)]
  simp

/-- The `task` events of a completing RFE-first flow are exactly the fully
resolved Tasks in store order. -/
theorem eventsR_filter_task (s : Store) (c : String) :
    (eventsR s c).filter isTaskEv = taskEventsR s c := by
  rw [eventsR_filter_level s c isTaskEv (fun _ => rfl) (fun _ _ _ _ => rfl),
    rfeMap_not _ _ (fun _ => rfl),
    filter_all_false
      (fun e he =>
        ((ev_class_unique e).2.1 (stratEventsR_class s c e he)).2.2.1),
    filter_all_false
      (fun e he =>
        ((ev_class_unique e).2.2.1 (epicEventsR_class s c e he)).2.2.1),
    filter_all_true (taskEventsR_class s c)]
  simp

/-- The `strat` events of a completing STRAT-first flow are exactly the
fetched STRATs in store order. -/
theorem eventsS_filter_strat (s : Store) (c : String) :
    (eventsS s c).filter isStratEv = stratEventsS s c := by
  rw [eventsS_filter_level s c isStratEv (fun _ => rfl) (fun _ _ _ _ => rfl),
    filter_all_true (stratEventsS_class s c),
    filter_all_false
      (fun e he =>
        ((ev_class_unique e).2.2.1 (epicEventsS_class s c e he)).2.1),
    filter_all_false
      (fun e he =>
        ((ev_class_unique e).2.2.2 (taskEventsS_class s c e he)).2.1)]
  simp

/-- The `epic` events of a completing STRAT-first flow are exactly the
linked Epics in store order. -/
theorem eventsS_filter_epic (s : Store) (c : String) :
    (eventsS s c).filter isEpicEv = epicEventsS s c := by
  rw [eventsS_filter_level s c isEpicEv (fun _ => rfl) (fun _ _ _ _ => rfl),
    filter_all_false
      (fun e he =>
        ((ev_class_unique e).2.1 (stratEventsS_class s c e he)).2.1),
    filter_all_true (epicEventsS_class s c),
    filter_all_false
      (fun e he =>
        ((ev_class_unique e).2.2.2 (taskEventsS_class s c e he)).2.2.1)]
  simp

/-- The `task` events of a completing STRAT-first flow are exactly the
linked Tasks in store order. -/
theorem eventsS_filter_task (s : Store) (c : String) :
    (eventsS s c).filter isTaskEv = taskEventsS s c := by
  rw [eventsS_filter_level s c isTaskEv (fun _ => rfl) (fun _ _ _ _ => rfl),
    filter_all_false
      (fun e he =>
        ((ev_class_unique e).2.1 (stratEventsS_class s c e he)).2.2.1),
    filter_all_false
      (fun e he =>
        ((ev_class_unique e).2.2.1 (epicEventsS_class s c e he)).2.2.1),
    filter_all_true (taskEventsS_class s c)]
  simp

/-- There are no `rfe` events in a STRAT-first flow. -/
theorem eventsS_filter_rfe (s : Store) (c : String) :
    (eventsS s c).filter isRfeEv = [] := by
  rw [eventsS_filter_level s c isRfeEv (fun _ => rfl) (fun _ _ _ _ => rfl),
    filter_all_false
      (fun e he => ((ev_class_unique e).2.1 (stratEventsS_class s c e he)).1),
    filter_all_false
      (fun e he =>
        ((ev_class_unique e).2.2.1 (epicEventsS_class s c e he)).1),
    filter_all_false
      (fun e he =>
        ((ev_class_unique e).2.2.2 (taskEventsS_class s c e he)).1)]
  simp

/-! ## Soundness of the children-by-parent dicts

Every entry of a `strats_by_rfe` / `epics_by_strat` dict corresponds to an
emitted (or conditionally emittable) event; these lemmas justify the
parent-before-child property of the emission order. -/

/-- A per-entry invariant survives a `dictAppend` when it holds of the new
pair. -/
theorem dictAppend_invariant {P : String → IssueData → Prop}
    (m : List (String × List IssueData)) (k : String) (v : IssueData)
    (hm : ∀ p ∈ m, ∀ x ∈ p.2, P p.1 x) (hv : P k v) :
    ∀ p ∈ dictAppend m k v, ∀ x ∈ p.2, P p.1 x := by
  intro p hp x hx
  unfold dictAppend at hp
  split at hp
  · obtain ⟨p0, hp0, hpe⟩ := List.mem_map.mp hp
    by_cases hk : p0.1 == k
    · rw [if_pos hk] at hpe
      subst hpe
      rcases List.mem_append.mp hx with hx0 | hx1
      · exact hm p0 hp0 x hx0
      · have hxv : x = v := by simpa using hx1
        have hkk : p0.1 = k := by simpa using hk
        subst hxv
        simpa [hkk] using hv
    · rw [if_neg hk] at hpe
      subst hpe
      exact hm p0 hp0 x hx
  · rcases List.mem_append.mp hp with hp0 | hp1
    · exact hm p hp0 x hx
    · have hpv : p = (k, [v]) := by simpa using hp1
      subst hpv
      have hxv : x = v := by simpa using hx
      subst hxv
      exact hv

/-- `stratStep` either leaves the dict unchanged or appends exactly the pair
whose `strat` event `stratEmit` produces. -/
theorem stratStep_cases (rfeKeys : List String)
    (m : List (String × List IssueData)) (r : RawIssue) :
    stratStep rfeKeys m r = m ∨
    ∃ sd fr, stratStep rfeKeys m r = dictAppend m fr sd ∧
      stratEmit rfeKeys r = some (.strat sd (some fr)) := by
  unfold stratStep stratEmit
  repeat' split
  · exact .inl rfl
  · exact .inr ⟨_, _, rfl, rfl⟩
  · exact .inl rfl
  · exact .inl rfl

/-- `epicStep` either leaves the dict unchanged or appends a pair whose
Parent Link is a truthy member of the known STRAT key set. -/
theorem epicStep_cases (stratKeys : List String)
    (m : List (String × List IssueData)) (r : RawIssue) :
    epicStep stratKeys m r = m ∨
    ∃ ed pl, epicStep stratKeys m r = dictAppend m pl ed ∧
      build_issue_data r = .ok ed ∧
      r.fields.customfield_12313140 = some pl ∧
      pl.isEmpty = false ∧ pl ∈ stratKeys := by
  unfold epicStep
  split
  case h_2 => exact .inl rfl
  case h_1 ed hed =>
    split
    case h_2 => exact .inl rfl
    case h_1 pl hpl =>
      split
      · exact .inl rfl
      · split
        · next hple hmem =>
          exact .inr ⟨ed, pl, rfl, hed, hpl, by simpa using hple, hmem⟩
        · exact .inl rfl

/-- Invariant transport along the `strats_by_rfe` fold: if every already
recorded pair's event is in `E` and every event `stratEmit` produces on the
remaining records is in `E`, the final dict's pairs all have their events in
`E`. -/
theorem foldl_stratStep_sound (rfeKeys : List String) (E : List Event) :
    ∀ (l : List RawIssue) (m0 : List (String × List IssueData)),
    (∀ p ∈ m0, ∀ x ∈ p.2, Event.strat x (some p.1) ∈ E) →
    (∀ r ∈ l, ∀ e, stratEmit rfeKeys r = some e → e ∈ E) →
    ∀ p ∈ l.foldl (stratStep rfeKeys) m0, ∀ x ∈ p.2,
      Event.strat x (some p.1) ∈ E := by
  intro l
  induction l with
  | nil => intro m0 hm _; exact hm
  | cons r rest ih =>
    intro m0 hm hemit
    rw [List.foldl_cons]
    refine ih _ ?_ (fun t ht e he => hemit t (List.mem_cons_of_mem _ ht) e he)
    rcases stratStep_cases rfeKeys m0 r with hsame | ⟨sd, fr, heq, hev⟩
    · rw [hsame]; exact hm
    · rw [heq]
      exact dictAppend_invariant
        (P := fun k x => Event.strat x (some k) ∈ E) m0 fr sd hm
        (hemit r (List.mem_cons_self _ _) _ hev)

/-- Invariant transport along the `epics_by_strat` fold, RFE-first variant:
a recorded pair's `epic` event is in `E` whenever the pair's STRAT resolves
to a truthy RFE key. -/
theorem foldl_epicStep_sound_rfe (stratKeys : List String)
    (stratsByRfe : List (String × List IssueData)) (E : List Event) :
    ∀ (l : List RawIssue) (m0 : List (String × List IssueData)),
    (∀ p ∈ m0, ∀ x ∈ p.2, ∀ rk, mapLookupByKey stratsByRfe p.1 = some rk →
      rk.isEmpty = false → Event.epic x (some rk) p.1 ∈ E) →
    (∀ r ∈ l, ∀ e, epicEmit stratKeys stratsByRfe r = some e → e ∈ E) →
    ∀ p ∈ l.foldl (epicStep stratKeys) m0, ∀ x ∈ p.2,
      ∀ rk, mapLookupByKey stratsByRfe p.1 = some rk → rk.isEmpty = false →
        Event.epic x (some rk) p.1 ∈ E := by
  intro l
  induction l with
  | nil => intro m0 hm _; exact hm
  | cons r rest ih =>
    intro m0 hm hemit
    rw [List.foldl_cons]
    refine ih _ ?_ (fun t ht e he => hemit t (List.mem_cons_of_mem _ ht) e he)
    rcases epicStep_cases stratKeys m0 r with hsame |
      ⟨ed, pl, heq, hed, hpl, hple, hmem⟩
    · rw [hsame]; exact hm
    · rw [heq]
      refine dictAppend_invariant
        (P := fun k x => ∀ rk, mapLookupByKey stratsByRfe k = some rk →
          rk.isEmpty = false → Event.epic x (some rk) k ∈ E) m0 pl ed hm ?_
      intro rk hrk hrke
      refine hemit r (List.mem_cons_self _ _) _ ?_
      unfold epicEmit
      simp [hed, hpl, hple, hmem, hrk, hrke]

/-- Invariant transport along the `epics_by_strat` fold, STRAT-first
variant: every recorded pair's `epic` event is in `E`. -/
theorem foldl_epicStep_sound_strat (stratKeys : List String)
    (E : List Event) :
    ∀ (l : List RawIssue) (m0 : List (String × List IssueData)),
    (∀ p ∈ m0, ∀ x ∈ p.2, Event.epic x none p.1 ∈ E) →
    (∀ r ∈ l, ∀ e, epicEmitS stratKeys r = some e → e ∈ E) →
    ∀ p ∈ l.foldl (epicStep stratKeys) m0, ∀ x ∈ p.2,
      Event.epic x none p.1 ∈ E := by
  intro l
  induction l with
  | nil => intro m0 hm _; exact hm
  | cons r rest ih =>
    intro m0 hm hemit
    rw [List.foldl_cons]
    refine ih _ ?_ (fun t ht e he => hemit t (List.mem_cons_of_mem _ ht) e he)
    rcases epicStep_cases stratKeys m0 r with hsame |
      ⟨ed, pl, heq, hed, hpl, hple, hmem⟩
    · rw [hsame]; exact hm
    · rw [heq]
      refine dictAppend_invariant
        (P := fun k x => Event.epic x none k ∈ E) m0 pl ed hm ?_
      refine hemit r (List.mem_cons_self _ _) _ ?_
      unfold epicEmitS
      simp [hed, hpl, hple, hmem]

/-- A successful reverse lookup names an entry whose child list contains the
key. -/
theorem mapLookupByKey_some (m : List (String × List IssueData))
    (ck k0 : String) (h : mapLookupByKey m ck = some k0) :
    ∃ eds, (k0, eds) ∈ m ∧ ∃ d ∈ eds, d.key = ck := by
  unfold mapLookupByKey at h
  cases hf : m.find? (fun p => p.2.any (fun d => d.key == ck)) with
  | none => rw [hf] at h; cases h
  | some pr =>
    rw [hf] at h
    simp at h
    have hm := List.mem_of_find?_eq_some hf
    have hp := List.find?_some hf
    simp [List.any_eq_true] at hp
    obtain ⟨d, hd, hdk⟩ := hp
    refine ⟨pr.2, ?_, d, hd, hdk⟩
    rw [← h]
    exact hm

/-- `linkMatch` only returns members of the key set. -/
theorem linkMatch_mem (keys : List String) (l : Link) (k : String)
    (h : linkMatch keys l = some k) : k ∈ keys := by
  unfold linkMatch at h
  repeat' split at h
  all_goals (cases h; try assumption)

/-- `findRfeLink` only returns members of the key set. -/
theorem findRfeLink_mem (keys : List String) (links : List Link) (k : String)
    (h : findRfeLink keys links = some k) : k ∈ keys := by
  unfold findRfeLink at h
  induction links with
  | nil => cases h
  | cons l rest ih =>
    rw [List.findSome?_cons] at h
    cases hm : linkMatch keys l with
    | some k2 =>
      rw [hm] at h
      cases h
      exact linkMatch_mem keys l k hm
    | none =>
      rw [hm] at h
      exact ih h

/-- Every `strat` event of the RFE-first flow names the key of a fetched
RFE as its parent. -/
theorem stratEventsR_parent (s : Store) (c : String) :
    ∀ sd fr, Event.strat sd fr ∈ stratEventsR s c →
      ∃ rd ∈ rfeDatasR s c, fr = some rd.key := by
  intro sd fr hmem
  obtain ⟨r, _, hemit⟩ := List.mem_filterMap.mp hmem
  unfold stratEmit at hemit
  split at hemit
  case h_2 => cases hemit
  case h_1 sd0 hsd =>
    split at hemit
    case h_2 => cases hemit
    case h_1 fr0 hfr =>
      split at hemit
      · cases hemit
      · have hinj := hemit
        simp only [Option.some.injEq, Event.strat.injEq] at hinj
        obtain ⟨-, hfr1⟩ := hinj
        have hmemk : fr0 ∈ rfeKeysR s c := findRfeLink_mem _ _ _ hfr
        unfold rfeKeysR at hmemk
        obtain ⟨rd, hrd, hk⟩ := List.mem_map.mp hmemk
        exact ⟨rd, hrd, by rw [← hfr1, hk]⟩

/-- Every `epic` event of the RFE-first flow has an emitted `strat` parent
event with the matching key. -/
theorem epicEventsR_parent (s : Store) (c : String) :
    ∀ ed rk sk, Event.epic ed rk sk ∈ epicEventsR s c →
      ∃ sd fr, Event.strat sd fr ∈ stratEventsR s c ∧ sd.key = sk := by
  intro ed rk sk hmem
  obtain ⟨r, _, hemit⟩ := List.mem_filterMap.mp hmem
  unfold epicEmit at hemit
  split at hemit
  case h_2 => cases hemit
  case h_1 ed0 hed =>
    split at hemit
    case h_2 => cases hemit
    case h_1 pl hpl =>
      split at hemit
      · cases hemit
      · split at hemit
        case isFalse => cases hemit
        case isTrue hmemk =>
          split at hemit
          case h_2 => cases hemit
          case h_1 rk0 hrk =>
            split at hemit
            · cases hemit
            · have hinj := hemit
              simp only [Option.some.injEq, Event.epic.injEq] at hinj
              obtain ⟨-, -, hsk⟩ := hinj
              obtain ⟨sds, hsds, d, hd, hdk⟩ :=
                mapLookupByKey_some _ _ _ hrk
              have hev := foldl_stratStep_sound (rfeKeysR s c)
                (stratEventsR s c) (stratRawsR s c) []
                (by intro p hp; cases hp)
                (by intro t ht e he
                    exact List.mem_filterMap.mpr ⟨t, ht, he⟩)
                (rk0, sds) hsds d hd
              exact ⟨d, some rk0, hev, by rw [hdk, hsk]⟩

/-- Every `task` event of the RFE-first flow has an emitted `epic` parent
event with the matching key. -/
theorem taskEventsR_parent (s : Store) (c : String) :
    ∀ td it rk sk ek, Event.task td it rk sk ek ∈ taskEventsR s c →
      ∃ ed rk2 sk2, Event.epic ed rk2 sk2 ∈ epicEventsR s c ∧
        ed.key = ek := by
  intro td it rk sk ek hmem
  obtain ⟨r, _, hemit⟩ := List.mem_filterMap.mp hmem
  unfold taskEmit at hemit
  dsimp only at hemit
  split at hemit
  case h_2 => cases hemit
  case h_1 t ht =>
    split at hemit
    case h_2 => cases hemit
    case h_1 el hel =>
      split at hemit
      · cases hemit
      · split at hemit
        case isFalse => cases hemit
        case isTrue hmemk =>
          cases hskv : mapLookupByKey (epicsByStratR s c) el with
          | none =>
            rw [hskv] at hemit
            simp [strTruthy] at hemit
          | some sk0 =>
            rw [hskv] at hemit
            dsimp only at hemit
            cases hrkv : mapLookupByKey (stratsByRfeR s c) sk0 with
            | none =>
              rw [hrkv] at hemit
              simp [strTruthy] at hemit
            | some rk0 =>
              rw [hrkv] at hemit
              by_cases hcond :
                (strTruthy (some rk0) && strTruthy (some sk0)) = true
              · rw [if_pos hcond] at hemit
                have hinj := hemit
                simp only [Option.some.injEq, Event.task.injEq] at hinj
                obtain ⟨-, -, -, -, hek⟩ := hinj
                obtain ⟨eds, heds, ed, hed, hedk⟩ :=
                  mapLookupByKey_some _ _ _ hskv
                simp [strTruthy, Bool.and_eq_true] at hcond
                have hev := foldl_epicStep_sound_rfe (stratKeysR s c)
                  (stratsByRfeR s c) (epicEventsR s c) (epicRawsR s c) []
                  (by intro p hp; cases hp)
                  (by intro u hu e he
                      exact List.mem_filterMap.mpr ⟨u, hu, he⟩)
                  (sk0, eds) heds ed hed rk0 hrkv
                  (by simp [hcond.1])
                exact ⟨ed, some rk0, sk0, hev, by rw [hedk, hek]⟩
              · rw [if_neg hcond] at hemit
                cases hemit

/-- Every `epic` event of the STRAT-first flow has an emitted `strat`
parent event with the matching key. -/
theorem epicEventsS_parent (s : Store) (c : String) :
    ∀ ed rk sk, Event.epic ed rk sk ∈ epicEventsS s c →
      ∃ sd fr, Event.strat sd fr ∈ stratEventsS s c ∧ sd.key = sk := by
  intro ed rk sk hmem
  obtain ⟨r, _, hemit⟩ := List.mem_filterMap.mp hmem
  unfold epicEmitS at hemit
  split at hemit
  case h_2 => cases hemit
  case h_1 ed0 hed =>
    split at hemit
    case h_2 => cases hemit
    case h_1 pl hpl =>
      split at hemit
      · cases hemit
      · split at hemit
        case isFalse => cases hemit
        case isTrue hmemk =>
          have hinj := hemit
          simp only [Option.some.injEq, Event.epic.injEq] at hinj
          obtain ⟨-, -, hsk⟩ := hinj
          unfold stratKeysS builtKeys at hmemk
          obtain ⟨sd, hsd, hk⟩ := List.mem_map.mp hmemk
          refine ⟨sd, none, ?_, by rw [hk, hsk]⟩
          obtain ⟨u, hu, hub⟩ := List.mem_filterMap.mp hsd
          refine List.mem_filterMap.mpr ⟨u, hu, ?_⟩
          unfold stratTopEmit
          rw [hub]
          rfl

/-- Every `task` event of the STRAT-first flow has an emitted `epic` parent
event with the matching key. -/
theorem taskEventsS_parent (s : Store) (c : String) :
    ∀ td it rk sk ek, Event.task td it rk sk ek ∈ taskEventsS s c →
      ∃ ed rk2 sk2, Event.epic ed rk2 sk2 ∈ epicEventsS s c ∧
        ed.key = ek := by
  intro td it rk sk ek hmem
  obtain ⟨r, _, hemit⟩ := List.mem_filterMap.mp hmem
  unfold taskEmitS at hemit
  dsimp only at hemit
  split at hemit
  case h_2 => cases hemit
  case h_1 t ht =>
    split at hemit
    case h_2 => cases hemit
    case h_1 el hel =>
      split at hemit
      · cases hemit
      · split at hemit
        case isFalse => cases hemit
        case isTrue hmemk =>
          cases hskv : mapLookupByKey (epicsByStratS s c) el with
          | none =>
            rw [hskv] at hemit
            simp [strTruthy] at hemit
          | some sk0 =>
            rw [hskv] at hemit
            by_cases hcond : strTruthy (some sk0) = true
            · rw [if_pos hcond] at hemit
              have hinj := hemit
              simp only [Option.some.injEq, Event.task.injEq] at hinj
              obtain ⟨-, -, -, -, hek⟩ := hinj
              obtain ⟨eds, heds, ed, hed, hedk⟩ :=
                mapLookupByKey_some _ _ _ hskv
              have hev := foldl_epicStep_sound_strat (stratKeysS s c)
                (epicEventsS s c) (epicRawsS s c) []
                (by intro p hp; cases hp)
                (by intro u hu e he
                    exact List.mem_filterMap.mpr ⟨u, hu, he⟩)
                (sk0, eds) heds ed hed
              exact ⟨ed, none, sk0, hev, by rw [hedk, hek]⟩
            · rw [if_neg hcond] at hemit
              cases hemit

/-! ## The flows never emit an `error` event themselves

Only the transport boundary (`serve_hierarchy_stream`) writes the `error`
event; these lemmas hold for every store, including failing ones. -/

/-- Events added by the RFE-first STRAT loop are `strat` events. -/
theorem processStrats_events_mono (k : List String) :
    ∀ (l : List RawIssue) (acc : StratAcc),
    ∀ e ∈ (processStrats k acc l).1.events,
      e ∈ acc.events ∨ isStratEv e = true := by
  intro l
  induction l with
  | nil => intro acc e he; exact .inl (by simpa [processStrats] using he)
  | cons r rest ih =>
    intro acc e he
    rw [processStrats] at he
    cases hb : build_issue_data r with
    | error e0 => rw [hb] at he; exact .inl he
    | ok sd =>
      rw [hb] at he
      dsimp only at he
      cases hf : findRfeLink k (r.fields.issuelinks.getD []) with
      | none =>
        rw [hf] at he
        rcases ih _ e he with h | h
        · exact .inl h
        · exact .inr h
      | some fr =>
        rw [hf] at he
        dsimp only at he
        by_cases hfr : fr.isEmpty = true
        · rw [if_pos hfr] at he
          rcases ih _ e he with h | h
          · exact .inl h
          · exact .inr h
        · rw [if_neg hfr] at he
          rcases ih _ e he with h | h
          · rcases List.mem_append.mp h with h0 | h1
            · exact .inl h0
            · exact .inr (by
                have : e = Event.strat sd (some fr) := by simpa using h1
                rw [this]; rfl)
          · exact .inr h

/-- Events added by the Epic loops are `epic` events (both modes share the
proof shape). -/
theorem processEpicsRfe_events_mono (ks : List String)
    (m : List (String × List IssueData)) :
    ∀ (l : List RawIssue) (acc : EpicAcc),
    ∀ e ∈ (processEpicsRfe ks m acc l).1.events,
      e ∈ acc.events ∨ isEpicEv e = true := by
  intro l
  induction l with
  | nil => intro acc e he; exact .inl (by simpa [processEpicsRfe] using he)
  | cons r rest ih =>
    intro acc e he
    rw [processEpicsRfe] at he
    cases hb : build_issue_data r with
    | error e0 => rw [hb] at he; exact .inl he
    | ok ed =>
      rw [hb] at he
      dsimp only at he
      cases hpl : r.fields.customfield_12313140 with
      | none =>
        rw [hpl] at he
        rcases ih _ e he with h | h
        · exact .inl h
        · exact .inr h
      | some pl =>
        rw [hpl] at he
        dsimp only at he
        by_cases hple : pl.isEmpty = true
        · rw [if_pos hple] at he
          rcases ih _ e he with h | h
          · exact .inl h
          · exact .inr h
        · rw [if_neg hple] at he
          by_cases hmem : pl ∈ ks
          · rw [if_pos hmem] at he
            cases hrk : mapLookupByKey m pl with
            | none =>
              rw [hrk] at he
              rcases ih _ e he with h | h
              · exact .inl h
              · exact .inr h
            | some rk =>
              rw [hrk] at he
              dsimp only at he
              by_cases hrke : rk.isEmpty = true
              · rw [if_pos hrke] at he
                rcases ih _ e he with h | h
                · exact .inl h
                · exact .inr h
              · rw [if_neg hrke] at he
                rcases ih _ e he with h | h
                · rcases List.mem_append.mp h with h0 | h1
                  · exact .inl h0
                  · exact .inr (by
                      have : e = Event.epic ed (some rk) pl := by
                        simpa using h1
                      rw [this]; rfl)
                · exact .inr h
          · rw [if_neg hmem] at he
            rcases ih _ e he with h | h
            · exact .inl h
            · exact .inr h

/-- Events added by the RFE-first Task loop are `task` events. -/
theorem processTasksRfe_events_mono (ks : List String)
    (m1 m2 : List (String × List IssueData)) :
    ∀ (l : List RawIssue) (acc : TaskAcc),
    ∀ e ∈ (processTasksRfe ks m1 m2 acc l).1.events,
      e ∈ acc.events ∨ isTaskEv e = true := by
  intro l
  induction l with
  | nil => intro acc e he; exact .inl (by simpa [processTasksRfe] using he)
  | cons r rest ih =>
    intro acc e he
    rw [processTasksRfe] at he
    cases hb : buildTask r with
    | error e0 => rw [hb] at he; exact .inl he
    | ok t =>
      rw [hb] at he
      dsimp only at he
      cases hel : r.fields.customfield_12311140 with
      | none =>
        rw [hel] at he
        rcases ih _ e he with h | h
        · exact .inl h
        · exact .inr h
      | some el =>
        rw [hel] at he
        dsimp only at he
        by_cases hele : el.isEmpty = true
        · rw [if_pos hele] at he
          rcases ih _ e he with h | h
          · exact .inl h
          · exact .inr h
        · rw [if_neg hele] at he
          by_cases hmem : el ∈ ks
          · rw [if_pos hmem] at he
            by_cases hcond :
              (strTruthy (match mapLookupByKey m1 el with
                | some sk0 => mapLookupByKey m2 sk0
                | none => none) && strTruthy (mapLookupByKey m1 el)) = true
            · rw [if_pos hcond] at he
              rcases ih _ e he with h | h
              · rcases List.mem_append.mp h with h0 | h1
                · exact .inl h0
                · exact .inr (by
                    have : e = Event.task t.1 t.2
                        (match mapLookupByKey m1 el with
                         | some sk0 => mapLookupByKey m2 sk0
                         | none => none)
                        ((mapLookupByKey m1 el).getD "") el := by
                      simpa using h1
                    rw [this]; rfl)
              · exact .inr h
            · rw [if_neg hcond] at he
              rcases ih _ e he with h | h
              · exact .inl h
              · exact .inr h
          · rw [if_neg hmem] at he
            rcases ih _ e he with h | h
            · exact .inl h
            · exact .inr h

/-- Events added by the STRAT-first top-level loop are `strat` events. -/
theorem processStratsTop_events_mono :
    ∀ (l : List RawIssue) (acc : StratTopAcc),
    ∀ e ∈ (processStratsTop acc l).1.events,
      e ∈ acc.events ∨ isStratEv e = true := by
  intro l
  induction l with
  | nil => intro acc e he; exact .inl (by simpa [processStratsTop] using he)
  | cons r rest ih =>
    intro acc e he
    rw [processStratsTop] at he
    cases hb : build_issue_data r with
    | error e0 => rw [hb] at he; exact .inl he
    | ok sd =>
      rw [hb] at he
      rcases ih _ e he with h | h
      · rcases List.mem_append.mp h with h0 | h1
        · exact .inl h0
        · exact .inr (by
            have : e = Event.strat sd none := by simpa using h1
            rw [this]; rfl)
      · exact .inr h

/-- Events added by the STRAT-first Epic loop are `epic` events. -/
theorem processEpicsStrat_events_mono (ks : List String) :
    ∀ (l : List RawIssue) (acc : EpicAcc),
    ∀ e ∈ (processEpicsStrat ks acc l).1.events,
      e ∈ acc.events ∨ isEpicEv e = true := by
  intro l
  induction l with
  | nil => intro acc e he; exact .inl (by simpa [processEpicsStrat] using he)
  | cons r rest ih =>
    intro acc e he
    rw [processEpicsStrat] at he
    cases hb : build_issue_data r with
    | error e0 => rw [hb] at he; exact .inl he
    | ok ed =>
      rw [hb] at he
      dsimp only at he
      cases hpl : r.fields.customfield_12313140 with
      | none =>
        rw [hpl] at he
        rcases ih _ e he with h | h
        · exact .inl h
        · exact .inr h
      | some pl =>
        rw [hpl] at he
        dsimp only at he
        by_cases hple : pl.isEmpty = true
        · rw [if_pos hple] at he
          rcases ih _ e he with h | h
          · exact .inl h
          · exact .inr h
        · rw [if_neg hple] at he
          by_cases hmem : pl ∈ ks
          · rw [if_pos hmem] at he
            rcases ih _ e he with h | h
            · rcases List.mem_append.mp h with h0 | h1
              · exact .inl h0
              · exact .inr (by
                  have : e = Event.epic ed none pl := by simpa using h1
                  rw [this]; rfl)
            · exact .inr h
          · rw [if_neg hmem] at he
            rcases ih _ e he with h | h
            · exact .inl h
            · exact .inr h

/-- Events added by the STRAT-first Task loop are `task` events. -/
theorem processTasksStrat_events_mono (ks : List String)
    (m : List (String × List IssueData)) :
    ∀ (l : List RawIssue) (acc : TaskAcc),
    ∀ e ∈ (processTasksStrat ks m acc l).1.events,
      e ∈ acc.events ∨ isTaskEv e = true := by
  intro l
  induction l with
  | nil => intro acc e he; exact .inl (by simpa [processTasksStrat] using he)
  | cons r rest ih =>
    intro acc e he
    rw [processTasksStrat] at he
    cases hb : buildTask r with
    | error e0 => rw [hb] at he; exact .inl he
    | ok t =>
      rw [hb] at he
      dsimp only at he
      cases hel : r.fields.customfield_12311140 with
      | none =>
        rw [hel] at he
        rcases ih _ e he with h | h
        · exact .inl h
        · exact .inr h
      | some el =>
        rw [hel] at he
        dsimp only at he
        by_cases hele : el.isEmpty = true
        · rw [if_pos hele] at he
          rcases ih _ e he with h | h
          · exact .inl h
          · exact .inr h
        · rw [if_neg hele] at he
          by_cases hmem : el ∈ ks
          · rw [if_pos hmem] at he
            by_cases hcond : strTruthy (mapLookupByKey m el) = true
            · rw [if_pos hcond] at he
              rcases ih _ e he with h | h
              · rcases List.mem_append.mp h with h0 | h1
                · exact .inl h0
                · exact .inr (by
                    have : e = Event.task t.1 t.2 none
                        ((mapLookupByKey m el).getD "") el := by
                      simpa using h1
                    rw [this]; rfl)
              · exact .inr h
            · rw [if_neg hcond] at he
              rcases ih _ e he with h | h
              · exact .inl h
              · exact .inr h
          · rw [if_neg hmem] at he
            rcases ih _ e he with h | h
            · exact .inl h
            · exact .inr h

/-- A strat/epic/task/rfe/progress/complete event is not an `error`
event. -/
theorem not_error_of_level (e : Event)
    (h : isRfeEv e = true ∨ isStratEv e = true ∨ isEpicEv e = true ∨
      isTaskEv e = true) : isErrorEv e = false := by
  cases e <;> simp_all [isRfeEv, isStratEv, isEpicEv, isTaskEv, isErrorEv]

/-- The RFE-first flow never writes an `error` event itself, on any store:
only the transport boundary does. -/
theorem stream_rfe_no_error (s : Store) (c : String) :
    ∀ e ∈ (stream_hierarchy_rfe_first s c).events, isErrorEv e = false := by
  intro e he
  unfold stream_hierarchy_rfe_first at he
  dsimp only at he
  cases hf : (fetch_rfes s c).2 with
  | error e0 =>
    rw [hf] at he
    simp at he
    rw [he]; rfl
  | ok rfes =>
    rw [hf] at he
    dsimp only at he
    by_cases hemp : rfes.isEmpty = true
    · rw [if_pos hemp] at he
      simp at he
      rcases he with h | h <;> (rw [h]; rfl)
    · rw [if_neg hemp] at he
      cases hs : s.stratSearch (rfes.map fun x => x.key) with
      | error e0 =>
        rw [hs] at he
        simp at he
        rcases he with h | h | h
        · rw [h]; rfl
        · obtain ⟨d, _, h⟩ := h; rw [← h]; rfl
        · rw [h]; rfl
      | ok stratIssues =>
        rw [hs] at he
        dsimp only at he
        cases hps : processStrats (rfes.map fun x => x.key)
            ⟨[], [], [], 0⟩ stratIssues with
        | mk sacc serr =>
          rw [hps] at he
          have hsev : ∀ e ∈ sacc.events, isStratEv e = true := by
            intro x hx
            have := processStrats_events_mono (rfes.map fun x => x.key)
              stratIssues ⟨[], [], [], 0⟩ x (by rw [hps]; exact hx)
            rcases this with h | h
            · cases h
            · exact h
          cases serr with
          | some e0 =>
            dsimp only at he
            rcases List.mem_append.mp he with h | h
            · simp at h
              rcases h with h | h | h
              · rw [h]; rfl
              · obtain ⟨d, _, h⟩ := h; rw [← h]; rfl
              · rw [h]; rfl
            · exact not_error_of_level e (.inr (.inl (hsev e h)))
          | none =>
            dsimp only at he
            by_cases hske : sacc.stratKeys.isEmpty = true
            · rw [if_pos hske] at he
              rcases List.mem_append.mp he with h | h
              · rcases List.mem_append.mp h with h0 | h0
                · simp at h0
                  rcases h0 with h1 | h1 | h1
                  · rw [h1]; rfl
                  · obtain ⟨d, _, h1⟩ := h1; rw [← h1]; rfl
                  · rw [h1]; rfl
                · exact not_error_of_level e (.inr (.inl (hsev e h0)))
              · simp at h
                rw [h]; rfl
            · rw [if_neg hske] at he
              cases hes : s.epicSearch sacc.stratKeys with
              | error e0 =>
                rw [hes] at he
                rcases List.mem_append.mp he with h | h
                · rcases List.mem_append.mp h with h0 | h0
                  · simp at h0
                    rcases h0 with h1 | h1 | h1
                    · rw [h1]; rfl
                    · obtain ⟨d, _, h1⟩ := h1; rw [← h1]; rfl
                    · rw [h1]; rfl
                  · exact not_error_of_level e (.inr (.inl (hsev e h0)))
                · simp at h
                  rw [h]; rfl
              | ok epicIssues =>
                rw [hes] at he
                dsimp only at he
                cases hpe : processEpicsRfe sacc.stratKeys sacc.stratsByRfe
                    ⟨[], [], [], 0⟩ epicIssues with
                | mk eacc eerr =>
                  rw [hpe] at he
                  have heev : ∀ e ∈ eacc.events, isEpicEv e = true := by
                    intro x hx
                    have := processEpicsRfe_events_mono sacc.stratKeys
                      sacc.stratsByRfe epicIssues ⟨[], [], [], 0⟩ x
                      (by rw [hpe]; exact hx)
                    rcases this with h | h
                    · cases h
                    · exact h
                  have hpre : ∀ x,
                      x ∈ ([Event.progress "Loading RFEs..."] ++
                        rfes.map Event.rfe ++
                        [Event.progress "Loading STRATs..."] ++
                        sacc.events ++
                        [Event.progress "Loading Epics..."]) →
                      isErrorEv x = false := by
                    intro x hx
                    rcases List.mem_append.mp hx with hx0 | hx0
                    · rcases List.mem_append.mp hx0 with hx1 | hx1
                      · rcases List.mem_append.mp hx1 with hx2 | hx2
                        · rcases List.mem_append.mp hx2 with hx3 | hx3
                          · simp at hx3; rw [hx3]; rfl
                          · obtain ⟨d, _, hx4⟩ := List.mem_map.mp hx3
                            rw [← hx4]; rfl
                        · simp at hx2; rw [hx2]; rfl
                      · exact not_error_of_level x (.inr (.inl (hsev x hx1)))
                    · simp at hx0; rw [hx0]; rfl
                  cases eerr with
                  | some e0 =>
                    dsimp only at he
                    rcases List.mem_append.mp he with h | h
                    · exact hpre e h
                    · exact not_error_of_level e
                        (.inr (.inr (.inl (heev e h))))
                  | none =>
                    dsimp only at he
                    by_cases heke : eacc.epicKeys.isEmpty = true
                    · rw [if_pos heke] at he
                      rcases List.mem_append.mp he with h | h
                      · rcases List.mem_append.mp h with h0 | h0
                        · exact hpre e h0
                        · exact not_error_of_level e
                            (.inr (.inr (.inl (heev e h0))))
                      · simp at h; rw [h]; rfl
                    · rw [if_neg heke] at he
                      cases hts : s.taskSearch eacc.epicKeys with
                      | error e0 =>
                        rw [hts] at he
                        rcases List.mem_append.mp he with h | h
                        · rcases List.mem_append.mp h with h0 | h0
                          · exact hpre e h0
                          · exact not_error_of_level e
                              (.inr (.inr (.inl (heev e h0))))
                        · simp at h; rw [h]; rfl
                      | ok taskIssues =>
                        rw [hts] at he
                        dsimp only at he
                        cases hpt : processTasksRfe eacc.epicKeys
                            eacc.epicsByStrat sacc.stratsByRfe ⟨[], [], 0⟩
                            taskIssues with
                        | mk tacc terr =>
                          rw [hpt] at he
                          have htev : ∀ e ∈ tacc.events,
                              isTaskEv e = true := by
                            intro x hx
                            have := processTasksRfe_events_mono eacc.epicKeys
                              eacc.epicsByStrat sacc.stratsByRfe taskIssues
                              ⟨[], [], 0⟩ x (by rw [hpt]; exact hx)
                            rcases this with h | h
                            · cases h
                            · exact h
                          have hpre2 : ∀ x,
                              x ∈ ([Event.progress "Loading RFEs..."] ++
                                rfes.map Event.rfe ++
                                [Event.progress "Loading STRATs..."] ++
                                sacc.events ++
                                [Event.progress "Loading Epics..."] ++
                                eacc.events ++
                                [Event.progress "Loading Tasks..."]) →
                              isErrorEv x = false := by
                            intro x hx
                            rcases List.mem_append.mp hx with hx0 | hx0
                            · rcases List.mem_append.mp hx0 with hx1 | hx1
                              · exact hpre x hx1
                              · exact not_error_of_level x
                                  (.inr (.inr (.inl (heev x hx1))))
                            · simp at hx0; rw [hx0]; rfl
                          cases terr with
                          | some e0 =>
                            dsimp only at he
                            rcases List.mem_append.mp he with h | h
                            · exact hpre2 e h
                            · exact not_error_of_level e
                                (.inr (.inr (.inr (htev e h))))
                          | none =>
                            dsimp only at he
                            rcases List.mem_append.mp he with h | h
                            · rcases List.mem_append.mp h with h0 | h0
                              · exact hpre2 e h0
                              · exact not_error_of_level e
                                  (.inr (.inr (.inr (htev e h0))))
                            · simp at h; rw [h]; rfl

/-- The STRAT-first flow never writes an `error` event itself, on any
store. -/
theorem stream_strat_no_error (s : Store) (c : String) :
    ∀ e ∈ (stream_hierarchy_strat_first s c).events, isErrorEv e = false := by
  intro e he
  unfold stream_hierarchy_strat_first at he
  dsimp only at he
  cases hf : s.stratTopSearch c with
  | error e0 =>
    rw [hf] at he
    simp at he
    rw [he]; rfl
  | ok stratIssues =>
    rw [hf] at he
    dsimp only at he
    by_cases hemp : stratIssues.isEmpty = true
    · rw [if_pos hemp] at he
      simp at he
      rcases he with h | h <;> (rw [h]; rfl)
    · rw [if_neg hemp] at he
      cases hps : processStratsTop ⟨[], [], 0⟩ stratIssues with
      | mk sacc serr =>
        rw [hps] at he
        have hsev : ∀ e ∈ sacc.events, isStratEv e = true := by
          intro x hx
          have := processStratsTop_events_mono stratIssues ⟨[], [], 0⟩ x
            (by rw [hps]; exact hx)
          rcases this with h | h
          · cases h
          · exact h
        cases serr with
        | some e0 =>
          dsimp only at he
          rcases List.mem_append.mp he with h | h
          · simp at h; rw [h]; rfl
          · exact not_error_of_level e (.inr (.inl (hsev e h)))
        | none =>
          dsimp only at he
          by_cases hske : sacc.stratKeys.isEmpty = true
          · rw [if_pos hske] at he
            rcases List.mem_append.mp he with h | h
            · rcases List.mem_append.mp h with h0 | h0
              · simp at h0; rw [h0]; rfl
              · exact not_error_of_level e (.inr (.inl (hsev e h0)))
            · simp at h; rw [h]; rfl
          · rw [if_neg hske] at he
            cases hes : s.epicSearch sacc.stratKeys with
            | error e0 =>
              rw [hes] at he
              rcases List.mem_append.mp he with h | h
              · rcases List.mem_append.mp h with h0 | h0
                · simp at h0; rw [h0]; rfl
                · exact not_error_of_level e (.inr (.inl (hsev e h0)))
              · simp at h; rw [h]; rfl
            | ok epicIssues =>
              rw [hes] at he
              dsimp only at he
              cases hpe : processEpicsStrat sacc.stratKeys ⟨[], [], [], 0⟩
                  epicIssues with
              | mk eacc eerr =>
                rw [hpe] at he
                have heev : ∀ e ∈ eacc.events, isEpicEv e = true := by
                  intro x hx
                  have := processEpicsStrat_events_mono sacc.stratKeys
                    epicIssues ⟨[], [], [], 0⟩ x (by rw [hpe]; exact hx)
                  rcases this with h | h
                  · cases h
                  · exact h
                have hpre : ∀ x,
                    x ∈ ([Event.progress "Loading STRATs..."] ++
                      sacc.events ++ [Event.progress "Loading Epics..."]) →
                    isErrorEv x = false := by
                  intro x hx
                  rcases List.mem_append.mp hx with hx0 | hx0
                  · rcases List.mem_append.mp hx0 with hx1 | hx1
                    · simp at hx1; rw [hx1]; rfl
                    · exact not_error_of_level x (.inr (.inl (hsev x hx1)))
                  · simp at hx0; rw [hx0]; rfl
                cases eerr with
                | some e0 =>
                  dsimp only at he
                  rcases List.mem_append.mp he with h | h
                  · exact hpre e h
                  · exact not_error_of_level e
                      (.inr (.inr (.inl (heev e h))))
                | none =>
                  dsimp only at he
                  by_cases heke : eacc.epicKeys.isEmpty = true
                  · rw [if_pos heke] at he
                    rcases List.mem_append.mp he with h | h
                    · rcases List.mem_append.mp h with h0 | h0
                      · exact hpre e h0
                      · exact not_error_of_level e
                          (.inr (.inr (.inl (heev e h0))))
                    · simp at h; rw [h]; rfl
                  · rw [if_neg heke] at he
                    cases hts : s.taskSearch eacc.epicKeys with
                    | error e0 =>
                      rw [hts] at he
                      rcases List.mem_append.mp he with h | h
                      · rcases List.mem_append.mp h with h0 | h0
                        · exact hpre e h0
                        · exact not_error_of_level e
                            (.inr (.inr (.inl (heev e h0))))
                      · simp at h; rw [h]; rfl
                    | ok taskIssues =>
                      rw [hts] at he
                      dsimp only at he
                      cases hpt : processTasksStrat eacc.epicKeys
                          eacc.epicsByStrat ⟨[], [], 0⟩ taskIssues with
                      | mk tacc terr =>
                        rw [hpt] at he
                        have htev : ∀ e ∈ tacc.events, isTaskEv e = true := by
                          intro x hx
                          have := processTasksStrat_events_mono eacc.epicKeys
                            eacc.epicsByStrat taskIssues ⟨[], [], 0⟩ x
                            (by rw [hpt]; exact hx)
                          rcases this with h | h
                          · cases h
                          · exact h
                        have hpre2 : ∀ x,
                            x ∈ ([Event.progress "Loading STRATs..."] ++
                              sacc.events ++
                              [Event.progress "Loading Epics..."] ++
                              eacc.events ++
                              [Event.progress "Loading Tasks..."]) →
                            isErrorEv x = false := by
                          intro x hx
                          rcases List.mem_append.mp hx with hx0 | hx0
                          · rcases List.mem_append.mp hx0 with hx1 | hx1
                            · exact hpre x hx1
                            · exact not_error_of_level x
                                (.inr (.inr (.inl (heev x hx1))))
                          · simp at hx0; rw [hx0]; rfl
                        cases terr with
                        | some e0 =>
                          dsimp only at he
                          rcases List.mem_append.mp he with h | h
                          · exact hpre2 e h
                          · exact not_error_of_level e
                              (.inr (.inr (.inr (htev e h))))
                        | none =>
                          dsimp only at he
                          rcases List.mem_append.mp he with h | h
                          · rcases List.mem_append.mp h with h0 | h0
                            · exact hpre2 e h0
                            · exact not_error_of_level e
                                (.inr (.inr (.inr (htev e h0))))
                          · simp at h; rw [h]; rfl

/-- The mode dispatcher never writes an `error` event itself. -/
theorem stream_no_error (s : Store) (c tl : String) :
    ∀ e ∈ (stream_hierarchy s c tl).events, isErrorEv e = false := by
  unfold stream_hierarchy
  by_cases h : tl = "strat"
  · rw [if_pos h]; exact stream_strat_no_error s c
  · rw [if_neg h]; exact stream_rfe_no_error s c

/-! ## Level grouping of the event stream -/

/-- Transport of `beforeAll_append` along an equality. -/
theorem beforeAll_of_eq {p q : Event → Bool} {evs A B : List Event}
    (h : evs = A ++ B) (hqA : ∀ e ∈ A, q e = false)
    (hpB : ∀ e ∈ B, p e = false) : beforeAll p q evs :=
  h ▸ beforeAll_append p q A B hqA hpB

/-- The uniform shape of a completing RFE-first flow's event list: the four
level segments in hierarchy order, interleaved with progress markers and
ended by the single `complete` event. -/
theorem eventsR_uniform (s : Store) (c : String) :
    eventsR s c =
      [Event.progress "Loading RFEs..."] ++ (rfeDatasR s c).map Event.rfe ++
      (if (rfeDatasR s c).isEmpty then []
       else [Event.progress "Loading STRATs..."]) ++
      stratEventsR s c ++
      (if (stratKeysR s c).isEmpty then []
       else [Event.progress "Loading Epics..."]) ++
      epicEventsR s c ++
      (if (epicKeysR s c).isEmpty then []
       else [Event.progress "Loading Tasks..."]) ++
      taskEventsR s c ++
      [Event.complete (rfeDatasR s c).length (stratEventsR s c).length
        (epicEventsR s c).length (taskEventsR s c).length] := by
  unfold eventsR
  by_cases h1 : (rfeDatasR s c).isEmpty = true
  · have hd : rfeDatasR s c = [] := by
      cases hx : rfeDatasR s c with
      | nil => rfl
      | cons a t => rw [hx] at h1; simp at h1
    have hs : stratRawsR s c = [] := by simp [stratRawsR, h1]
    have hse : stratEventsR s c = [] := by simp [stratEventsR, hs]
    have hsk : stratKeysR s c = [] := by simp [stratKeysR, hs, builtKeys]
    have he : epicRawsR s c = [] := by simp [epicRawsR, hsk, builtKeys]
    have hee : epicEventsR s c = [] := by simp [epicEventsR, he]
    have hek : epicKeysR s c = [] := by simp [epicKeysR, he, builtKeys]
    have ht : taskRawsR s c = [] := by simp [taskRawsR, hek, builtKeys]
    have hte : taskEventsR s c = [] := by simp [taskEventsR, ht]
    simp [h1, hd, hse, hee, hte, hsk, hek]
  · simp only [h1, Bool.false_eq_true, if_false]
    rw [Bool.not_eq_true] at h1
    by_cases h2 : (stratKeysR s c).isEmpty = true
    · have he : epicRawsR s c = [] := by simp [epicRawsR, h2]
      have hee : epicEventsR s c = [] := by simp [epicEventsR, he]
      have hek : epicKeysR s c = [] := by simp [epicKeysR, he, builtKeys]
      have ht : taskRawsR s c = [] := by simp [taskRawsR, hek, builtKeys]
      have hte : taskEventsR s c = [] := by simp [taskEventsR, ht]
      simp [h1, h2, hee, hte, hek]
    · simp only [h2, Bool.false_eq_true, if_false]
      by_cases h3 : (epicKeysR s c).isEmpty = true
      · have ht : taskRawsR s c = [] := by simp [taskRawsR, h3]
        have hte : taskEventsR s c = [] := by simp [taskEventsR, ht]
        simp [h1, h2, h3, hte]
      · simp only [h3, Bool.false_eq_true, if_false]
        simp [h1, h2, h3]

/-- The uniform shape of a completing STRAT-first flow's event list. -/
theorem eventsS_uniform (s : Store) (c : String) :
    eventsS s c =
      [Event.progress "Loading STRATs..."] ++
      stratEventsS s c ++
      (if (stratKeysS s c).isEmpty then []
       else [Event.progress "Loading Epics..."]) ++
      epicEventsS s c ++
      (if (epicKeysS s c).isEmpty then []
       else [Event.progress "Loading Tasks..."]) ++
      taskEventsS s c ++
      [Event.complete 0 (stratEventsS s c).length (epicEventsS s c).length
        (taskEventsS s c).length] := by
  unfold eventsS
  by_cases h1 : (stratRawsS s c).isEmpty = true
  · have hr : stratRawsS s c = [] := by
      cases hx : stratRawsS s c with
      | nil => rfl
      | cons a t => rw [hx] at h1; simp at h1
    have hse : stratEventsS s c = [] := by simp [stratEventsS, hr]
    have hsk : stratKeysS s c = [] := by simp [stratKeysS, hr, builtKeys]
    have he : epicRawsS s c = [] := by simp [epicRawsS, hsk, builtKeys]
    have hee : epicEventsS s c = [] := by simp [epicEventsS, he]
    have hek : epicKeysS s c = [] := by simp [epicKeysS, he, builtKeys]
    have ht : taskRawsS s c = [] := by simp [taskRawsS, hek, builtKeys]
    have hte : taskEventsS s c = [] := by simp [taskEventsS, ht]
    simp [h1, hse, hee, hte, hsk, hek]
  · simp only [h1, Bool.false_eq_true, if_false]
    by_cases h2 : (stratKeysS s c).isEmpty = true
    · have he : epicRawsS s c = [] := by simp [epicRawsS, h2]
      have hee : epicEventsS s c = [] := by simp [epicEventsS, he]
      have hek : epicKeysS s c = [] := by simp [epicKeysS, he, builtKeys]
      have ht : taskRawsS s c = [] := by simp [taskRawsS, hek, builtKeys]
      have hte : taskEventsS s c = [] := by simp [taskEventsS, ht]
      simp [h2, hee, hte, hek]
    · simp only [h2, Bool.false_eq_true, if_false]
      by_cases h3 : (epicKeysS s c).isEmpty = true
      · have ht : taskRawsS s c = [] := by simp [taskRawsS, h3]
        have hte : taskEventsS s c = [] := by simp [taskEventsS, ht]
        simp [h3, hte]
      · simp only [h3, Bool.false_eq_true, if_false]
        simp

/-- Level grouping for any event list of the uniform shape: each level's
segment is fully emitted before the next level's segment starts. -/
theorem beforeAll_segments (R S E T P0 P1 P2 P3 : List Event) (comp : Event)
    (hR : ∀ e ∈ R, isRfeEv e = true) (hS : ∀ e ∈ S, isStratEv e = true)
    (hE : ∀ e ∈ E, isEpicEv e = true) (hT : ∀ e ∈ T, isTaskEv e = true)
    (hP0 : ∀ e ∈ P0, isRfeEv e = false ∧ isStratEv e = false ∧
      isEpicEv e = false ∧ isTaskEv e = false)
    (hP1 : ∀ e ∈ P1, isRfeEv e = false ∧ isStratEv e = false ∧
      isEpicEv e = false ∧ isTaskEv e = false)
    (hP2 : ∀ e ∈ P2, isRfeEv e = false ∧ isStratEv e = false ∧
      isEpicEv e = false ∧ isTaskEv e = false)
    (hP3 : ∀ e ∈ P3, isRfeEv e = false ∧ isStratEv e = false ∧
      isEpicEv e = false ∧ isTaskEv e = false)
    (hC : isRfeEv comp = false ∧ isStratEv comp = false ∧
      isEpicEv comp = false ∧ isTaskEv comp = false)
    (evs : List Event)
    (heq : evs = P0 ++ R ++ P1 ++ S ++ P2 ++ E ++ P3 ++ T ++ [comp]) :
    beforeAll isRfeEv isStratEv evs ∧ beforeAll isStratEv isEpicEv evs ∧
    beforeAll isEpicEv isTaskEv evs := by
  refine ⟨?_, ?_, ?_⟩
  · refine beforeAll_of_eq (A := P0 ++ R)
      (B := P1 ++ S ++ P2 ++ E ++ P3 ++ T ++ [comp])
      (by rw [heq]; simp [List.append_assoc]) ?_ ?_
    · intro e he
      rcases List.mem_append.mp he with h | h
      · exact (hP0 e h).2.1
      · exact ((ev_class_unique e).1 (hR e h)).1
    · intro e he
      rcases List.mem_append.mp he with h | h
      · rcases List.mem_append.mp h with h | h
        · rcases List.mem_append.mp h with h | h
          · rcases List.mem_append.mp h with h | h
            · rcases List.mem_append.mp h with h | h
              · rcases List.mem_append.mp h with h | h
                · exact (hP1 e h).1
                · exact ((ev_class_unique e).2.1 (hS e h)).1
              · exact (hP2 e h).1
            · exact ((ev_class_unique e).2.2.1 (hE e h)).1
          · exact (hP3 e h).1
        · exact ((ev_class_unique e).2.2.2 (hT e h)).1
      · have : e = comp := by simpa using h
        rw [this]; exact hC.1
  · refine beforeAll_of_eq (A := P0 ++ (R ++ (P1 ++ S)))
      (B := P2 ++ E ++ P3 ++ T ++ [comp])
      (by rw [heq]; simp [List.append_assoc]) ?_ ?_
    · intro e he
      rcases List.mem_append.mp he with h | h
      · exact (hP0 e h).2.2.1
      · rcases List.mem_append.mp h with h | h
        · exact ((ev_class_unique e).1 (hR e h)).2.1
        · rcases List.mem_append.mp h with h | h
          · exact (hP1 e h).2.2.1
          · exact ((ev_class_unique e).2.1 (hS e h)).2.1
    · intro e he
      rcases List.mem_append.mp he with h | h
      · rcases List.mem_append.mp h with h | h
        · rcases List.mem_append.mp h with h | h
          · rcases List.mem_append.mp h with h | h
            · exact (hP2 e h).2.1
            · exact ((ev_class_unique e).2.2.1 (hE e h)).2.1
          · exact (hP3 e h).2.1
        · exact ((ev_class_unique e).2.2.2 (hT e h)).2.1
      · have : e = comp := by simpa using h
        rw [this]; exact hC.2.1
  · refine beforeAll_of_eq (A := P0 ++ (R ++ (P1 ++ (S ++ (P2 ++ E)))))
      (B := P3 ++ T ++ [comp])
      (by rw [heq]; simp [List.append_assoc]) ?_ ?_
    · intro e he
      rcases List.mem_append.mp he with h | h
      · exact (hP0 e h).2.2.2
      · rcases List.mem_append.mp h with h | h
        · exact ((ev_class_unique e).1 (hR e h)).2.2.1
        · rcases List.mem_append.mp h with h | h
          · exact (hP1 e h).2.2.2
          · rcases List.mem_append.mp h with h | h
            · exact ((ev_class_unique e).2.1 (hS e h)).2.2.1
            · rcases List.mem_append.mp h with h | h
              · exact (hP2 e h).2.2.2
              · exact ((ev_class_unique e).2.2.1 (hE e h)).2.2.1
    · intro e he
      rcases List.mem_append.mp he with h | h
      · rcases List.mem_append.mp h with h | h
        · exact (hP3 e h).2.2.1
        · exact ((ev_class_unique e).2.2.2 (hT e h)).2.2.1
      · have : e = comp := by simpa using h
        rw [this]; exact hC.2.2.1
/-! ## Flow-level claim theorems -/

deriving instance DecidableEq for Except

/-- The RFE-first flow's executed fetches succeed and all fetched records
normalize without raising: the hypothesis bundle of the flow-level
theorems.  (This is exactly "the flow ends with a `complete` event".) -/
abbrev OkR (s : Store) (c : String) : Prop :=
  okB (s.rfeSearch c) = true ∧
  (∀ r ∈ rfeRawsR s c, okB (build_issue_data r) = true) ∧
  ((rfeDatasR s c).isEmpty = false →
    okB (s.stratSearch (rfeKeysR s c)) = true) ∧
  (∀ r ∈ stratRawsR s c, okB (build_issue_data r) = true) ∧
  ((stratKeysR s c).isEmpty = false →
    okB (s.epicSearch (stratKeysR s c)) = true) ∧
  (∀ r ∈ epicRawsR s c, okB (build_issue_data r) = true) ∧
  ((epicKeysR s c).isEmpty = false →
    okB (s.taskSearch (epicKeysR s c)) = true) ∧
  (∀ r ∈ taskRawsR s c, okB (buildTask r) = true)

/-- The STRAT-first flow's hypothesis bundle. -/
abbrev OkS (s : Store) (c : String) : Prop :=
  okB (s.stratTopSearch c) = true ∧
  (∀ r ∈ stratRawsS s c, okB (build_issue_data r) = true) ∧
  ((stratKeysS s c).isEmpty = false →
    okB (s.epicSearch (stratKeysS s c)) = true) ∧
  (∀ r ∈ epicRawsS s c, okB (build_issue_data r) = true) ∧
  ((epicKeysS s c).isEmpty = false →
    okB (s.taskSearch (epicKeysS s c)) = true) ∧
  (∀ r ∈ taskRawsS s c, okB (buildTask r) = true)

/-- Master characterization, bundled form (RFE-first). -/
theorem streamR_spec_of (s : Store) (c : String) (hR : OkR s c) :
    stream_hierarchy_rfe_first s c =
      ⟨eventsR s c, queriesR s c, none, orphansR s c⟩ :=
  stream_hierarchy_rfe_first_spec s c hR.1 hR.2.1 hR.2.2.1 hR.2.2.2.1
    hR.2.2.2.2.1 hR.2.2.2.2.2.1 hR.2.2.2.2.2.2.1 hR.2.2.2.2.2.2.2

/-- Master characterization, bundled form (STRAT-first). -/
theorem streamS_spec_of (s : Store) (c : String) (hS : OkS s c) :
    stream_hierarchy_strat_first s c =
      ⟨eventsS s c, queriesS s c, none, orphansS s c⟩ :=
  stream_hierarchy_strat_first_spec s c hS.1 hS.2.1 hS.2.2.1 hS.2.2.2.1
    hS.2.2.2.2.1 hS.2.2.2.2.2

/-- C1 counterexample: in the RFE-first flow, the fetched Epic's
denormalized parent-reference field (`customfield_12313140`) holds
`"STRAT-1"`, which is a member of the known parent-key set the Epic query
covered (the flow issued `epicSearch ["STRAT-1"]`), and the Epic is
classified as linked (recorded under `"STRAT-1"` in `epics_by_strat`) — yet
zero `epic` events are emitted, because the parent STRAT is itself orphaned
(no RFE link), contradicting the claim's "exactly one event is emitted". -/
theorem c1_counterexample :
    (mkRawParentLink "EPIC-1" "STRAT-1").fields.customfield_12313140 =
      some "STRAT-1" ∧
    Query.epicSearch ["STRAT-1"] ∈
      (stream_hierarchy_rfe_first cexStore1 "AI Safety").queries ∧
    (stream_hierarchy_rfe_first cexStore1 "AI Safety").err = none ∧
    epicsByStratR cexStore1 "AI Safety" =
      [("STRAT-1", [defaultIssueData "EPIC-1"])] ∧
    (stream_hierarchy_rfe_first cexStore1 "AI Safety").events.countP
      isEpicEv = 0 := by
  refine ⟨rfl, ?_, ?_, ?_, ?_⟩ <;> decide

/-- C1 (amended): for every fetched Epic- or Task-level child whose
denormalized parent-reference field holds a key in the known parent-key set
of the level above, the child is classified as linked, and exactly one
`epic`/`task` event carrying its full ancestor-key chain is emitted
precisely when the remaining ancestor chain also resolves (in RFE-first
mode the parent STRAT must map to a truthy RFE key; a Task's parent Epic
must itself be linked); the per-level event lists are exactly the emit-rule
`filterMap` over the fetched lists. -/
theorem c1_linked_child_events (s : Store) (c : String)
    (hR : OkR s c) (hS : OkS s c) :
    (stream_hierarchy_rfe_first s c).events.filter isEpicEv =
      epicEventsR s c ∧
    (stream_hierarchy_rfe_first s c).events.filter isTaskEv =
      taskEventsR s c ∧
    (stream_hierarchy_strat_first s c).events.filter isEpicEv =
      epicEventsS s c ∧
    (stream_hierarchy_strat_first s c).events.filter isTaskEv =
      taskEventsS s c ∧
    (∀ r ∈ epicRawsR s c, ∀ ed pl rk,
      build_issue_data r = .ok ed →
      r.fields.customfield_12313140 = some pl → pl.isEmpty = false →
      pl ∈ stratKeysR s c →
      mapLookupByKey (stratsByRfeR s c) pl = some rk → rk.isEmpty = false →
      Event.epic ed (some rk) pl ∈
        (stream_hierarchy_rfe_first s c).events) ∧
    (∀ r ∈ epicRawsS s c, ∀ ed pl,
      build_issue_data r = .ok ed →
      r.fields.customfield_12313140 = some pl → pl.isEmpty = false →
      pl ∈ stratKeysS s c →
      Event.epic ed none pl ∈
        (stream_hierarchy_strat_first s c).events) := by
  rw [streamR_spec_of s c hR, streamS_spec_of s c hS]
  refine ⟨eventsR_filter_epic s c, eventsR_filter_task s c,
    eventsS_filter_epic s c, eventsS_filter_task s c, ?_, ?_⟩
  · intro r hr ed pl rk hed hpl hple hmem hrk hrke
    have hemit : epicEmit (stratKeysR s c) (stratsByRfeR s c) r =
        some (.epic ed (some rk) pl) := by
      unfold epicEmit
      simp [hed, hpl, hple, hmem, hrk, hrke]
    have hin : Event.epic ed (some rk) pl ∈ epicEventsR s c :=
      List.mem_filterMap.mpr ⟨r, hr, hemit⟩
    rw [← eventsR_filter_epic s c] at hin
    exact List.mem_of_mem_filter hin
  · intro r hr ed pl hed hpl hple hmem
    have hemit : epicEmitS (stratKeysS s c) r =
        some (.epic ed none pl) := by
      unfold epicEmitS
      simp [hed, hpl, hple, hmem]
    have hin : Event.epic ed none pl ∈ epicEventsS s c :=
      List.mem_filterMap.mpr ⟨r, hr, hemit⟩
    rw [← eventsS_filter_epic s c] at hin
    exact List.mem_of_mem_filter hin

/-- Closed witness for C1 (amended) at the fully linked store. -/
theorem c1_linked_child_events_witness :
    (stream_hierarchy_rfe_first happyStore "AI Safety").events.filter
      isEpicEv = epicEventsR happyStore "AI Safety" ∧
    (stream_hierarchy_rfe_first happyStore "AI Safety").events.filter
      isTaskEv = taskEventsR happyStore "AI Safety" ∧
    Event.epic (defaultIssueData "EPIC-1") (some "RFE-1") "STRAT-1" ∈
      (stream_hierarchy_rfe_first happyStore "AI Safety").events ∧
    Event.epic (defaultIssueData "EPIC-1") none "STRAT-1" ∈
      (stream_hierarchy_strat_first happyStore "AI Safety").events := by
  have h := c1_linked_child_events happyStore "AI Safety" (by decide)
    (by decide)
  refine ⟨h.1, h.2.1, ?_, ?_⟩
  · exact h.2.2.2.2.1 (mkRawParentLink "EPIC-1" "STRAT-1") (by decide)
      (defaultIssueData "EPIC-1") "STRAT-1" "RFE-1" (by decide) rfl
      (by decide) (by decide) (by decide) (by decide)
  · exact h.2.2.2.2.2 (mkRawParentLink "EPIC-1" "STRAT-1") (by decide)
      (defaultIssueData "EPIC-1") "STRAT-1" (by decide) rfl (by decide)
      (by decide)

/-- `true` on STRAT-level searches. -/
def isStratSearchQ : Query → Bool
  | .stratSearch _ => true
  | _ => false

/-- `true` on Epic-level searches. -/
def isEpicSearchQ : Query → Bool
  | .epicSearch _ => true
  | _ => false

/-- `true` on Task-level searches. -/
def isTaskSearchQ : Query → Bool
  | .taskSearch _ => true
  | _ => false

/-- The reload flow's per-epic loop issues exactly one Task query per epic
parent. -/
theorem reloadEpicsFor_queries (s : Store) (rk : Option String)
    (sk : String) :
    ∀ epics : List IssueData, (reloadEpicsFor s rk sk epics).1 =
      epics.map (fun ed => Query.taskSearch [ed.key]) := by
  intro epics
  induction epics with
  | nil => rfl
  | cons ed rest ih =>
    rw [reloadEpicsFor]
    dsimp only [fetch_tasks_for_epic]
    rw [List.map_cons, ← ih]
    rfl

/-- C2 counterexample: reloading STRAT-9 with two child Epics issues two
Task-level searches, one per Epic parent (`taskSearch ["EPIC-A"]` and
`taskSearch ["EPIC-B"]`) and no single batched search covering the parent
set `["EPIC-A", "EPIC-B"]` — contradicting the claim that the reload flow
also issues exactly one batched query per level transition. -/
theorem c2_counterexample :
    (reload_item cexStore2 "strat" "STRAT-9" "AI Safety").queries =
      [Query.keySearch "STRAT-9", Query.epicSearch ["STRAT-9"],
        Query.taskSearch ["EPIC-A"], Query.taskSearch ["EPIC-B"]] ∧
    (reload_item cexStore2 "strat" "STRAT-9" "AI Safety").queries.countP
      isTaskSearchQ = 2 ∧
    Query.taskSearch ["EPIC-A", "EPIC-B"] ∉
      (reload_item cexStore2 "strat" "STRAT-9" "AI Safety").queries := by
  refine ⟨?_, ?_, ?_⟩ <;> decide

/-- C2 (amended): the two streaming flows issue exactly one batched search
per executed level transition, covering the entire known parent-key set
(no search at a skipped level, never one query per parent); the single-item
reload flow instead issues one query per parent at the Epic and Task
levels (`fetch_epics_for_strat` / `fetch_tasks_for_epic` per record). -/
theorem c2_batched_queries (s : Store) (c : String)
    (hR : OkR s c) (hS : OkS s c) :
    ((stream_hierarchy_rfe_first s c).queries.countP isStratSearchQ =
      if (rfeDatasR s c).isEmpty then 0 else 1) ∧
    (∀ ks, Query.stratSearch ks ∈
      (stream_hierarchy_rfe_first s c).queries → ks = rfeKeysR s c) ∧
    ((stream_hierarchy_rfe_first s c).queries.countP isEpicSearchQ =
      if (stratKeysR s c).isEmpty then 0 else 1) ∧
    (∀ ks, Query.epicSearch ks ∈
      (stream_hierarchy_rfe_first s c).queries → ks = stratKeysR s c) ∧
    ((stream_hierarchy_rfe_first s c).queries.countP isTaskSearchQ =
      if (epicKeysR s c).isEmpty then 0 else 1) ∧
    (∀ ks, Query.taskSearch ks ∈
      (stream_hierarchy_rfe_first s c).queries → ks = epicKeysR s c) ∧
    ((stream_hierarchy_strat_first s c).queries.countP isEpicSearchQ =
      if (stratKeysS s c).isEmpty then 0 else 1) ∧
    (∀ ks, Query.epicSearch ks ∈
      (stream_hierarchy_strat_first s c).queries → ks = stratKeysS s c) ∧
    ((stream_hierarchy_strat_first s c).queries.countP isTaskSearchQ =
      if (epicKeysS s c).isEmpty then 0 else 1) ∧
    (∀ ks, Query.taskSearch ks ∈
      (stream_hierarchy_strat_first s c).queries → ks = epicKeysS s c) ∧
    (∀ (k : String) (raw : RawIssue) (rest : List RawIssue)
        (sd : IssueData) (epics : List IssueData),
      s.keySearch k = .ok (raw :: rest) →
      build_issue_data raw = .ok sd →
      (fetch_epics_for_strat s k).2 = .ok epics →
      (reload_item s "strat" k c).queries =
        [Query.keySearch k, Query.epicSearch [k]] ++
          epics.map (fun ed => Query.taskSearch [ed.key])) := by
  rw [streamR_spec_of s c hR, streamS_spec_of s c hS]
  dsimp only
  unfold queriesR queriesS
  refine ⟨?_, ?_, ?_, ?_, ?_, ?_, ?_, ?_, ?_, ?_, ?_⟩
  · by_cases h1 : (rfeDatasR s c).isEmpty = true
    · simp [h1, isStratSearchQ]
    · by_cases h2 : (stratKeysR s c).isEmpty = true <;>
        by_cases h3 : (epicKeysR s c).isEmpty = true <;>
        simp [h1, h2, h3, List.countP_cons, List.countP_append,
          isStratSearchQ]
  · intro ks hks
    by_cases h1 : (rfeDatasR s c).isEmpty = true
    · simp [h1] at hks
    · by_cases h2 : (stratKeysR s c).isEmpty = true <;>
        by_cases h3 : (epicKeysR s c).isEmpty = true <;>
        simp [h1, h2, h3] at hks <;> exact hks
  · by_cases h1 : (rfeDatasR s c).isEmpty = true
    · have hsk : stratKeysR s c = [] := by
        have hd : rfeDatasR s c = [] := by
          cases hx : rfeDatasR s c with
          | nil => rfl
          | cons a t => rw [hx] at h1; simp at h1
        have hs : stratRawsR s c = [] := by simp [stratRawsR, h1]
        simp [stratKeysR, hs, builtKeys]
      simp [h1, hsk, isEpicSearchQ]
    · by_cases h2 : (stratKeysR s c).isEmpty = true <;>
        by_cases h3 : (epicKeysR s c).isEmpty = true <;>
        simp [h1, h2, h3, List.countP_cons, List.countP_append,
          isEpicSearchQ]
  · intro ks hks
    by_cases h1 : (rfeDatasR s c).isEmpty = true
    · simp [h1] at hks
    · by_cases h2 : (stratKeysR s c).isEmpty = true <;>
        by_cases h3 : (epicKeysR s c).isEmpty = true <;>
        simp [h1, h2, h3] at hks <;> exact hks
  · by_cases h1 : (rfeDatasR s c).isEmpty = true
    · have hek : epicKeysR s c = [] := by
        have hd : rfeDatasR s c = [] := by
          cases hx : rfeDatasR s c with
          | nil => rfl
          | cons a t => rw [hx] at h1; simp at h1
        have hs : stratRawsR s c = [] := by simp [stratRawsR, h1]
        have hsk : stratKeysR s c = [] := by simp [stratKeysR, hs, builtKeys]
        have he : epicRawsR s c = [] := by simp [epicRawsR, hsk, builtKeys]
        simp [epicKeysR, he, builtKeys]
      simp [h1, hek, isTaskSearchQ]
    · by_cases h2 : (stratKeysR s c).isEmpty = true
      · have hek : epicKeysR s c = [] := by
          have he : epicRawsR s c = [] := by simp [epicRawsR, h2]
          simp [epicKeysR, he, builtKeys]
        simp [h1, h2, hek, List.countP_cons, List.countP_append,
          isTaskSearchQ]
      · by_cases h3 : (epicKeysR s c).isEmpty = true <;>
          simp [h1, h2, h3, List.countP_cons, List.countP_append,
            isTaskSearchQ]
  · intro ks hks
    by_cases h1 : (rfeDatasR s c).isEmpty = true
    · simp [h1] at hks
    · by_cases h2 : (stratKeysR s c).isEmpty = true <;>
        by_cases h3 : (epicKeysR s c).isEmpty = true <;>
        simp [h1, h2, h3] at hks <;> exact hks
  · by_cases h2 : (stratKeysS s c).isEmpty = true <;>
      by_cases h3 : (epicKeysS s c).isEmpty = true <;>
      simp [h2, h3, List.countP_cons, List.countP_append, isEpicSearchQ]
  · intro ks hks
    by_cases h2 : (stratKeysS s c).isEmpty = true <;>
      by_cases h3 : (epicKeysS s c).isEmpty = true <;>
      simp [h2, h3] at hks <;> exact hks
  · by_cases h2 : (stratKeysS s c).isEmpty = true
    · have hek : epicKeysS s c = [] := by
        have he : epicRawsS s c = [] := by simp [epicRawsS, h2]
        simp [epicKeysS, he, builtKeys]
      simp [h2, hek, List.countP_cons, List.countP_append, isTaskSearchQ]
    · by_cases h3 : (epicKeysS s c).isEmpty = true <;>
        simp [h2, h3, List.countP_cons, List.countP_append, isTaskSearchQ]
  · intro ks hks
    by_cases h2 : (stratKeysS s c).isEmpty = true <;>
      by_cases h3 : (epicKeysS s c).isEmpty = true <;>
      simp [h2, h3] at hks <;> exact hks
  · intro k raw rest sd epics hk hsd hep
    unfold reload_item
    rw [if_neg (by decide), if_pos rfl, hk]
    dsimp only
    rw [hsd]
    dsimp only
    cases hfe : fetch_epics_for_strat s k with
    | mk qs res =>
      have hq : qs = [Query.epicSearch [k]] := by
        have : (fetch_epics_for_strat s k).1 = [Query.epicSearch [k]] := rfl
        rw [hfe] at this
        exact this
      have hr : res = .ok epics := by
        rw [hfe] at hep
        exact hep
      rw [hq, hr]
      dsimp only
      rw [reloadEpicsFor_queries s none k epics]
      simp

/-- Closed witness for C2 (amended). -/
theorem c2_batched_queries_witness :
    ((stream_hierarchy_rfe_first cexStore2 "AI Safety").queries.countP
      isStratSearchQ =
      if (rfeDatasR cexStore2 "AI Safety").isEmpty then 0 else 1) ∧
    (reload_item cexStore2 "strat" "STRAT-9" "AI Safety").queries =
      [Query.keySearch "STRAT-9", Query.epicSearch ["STRAT-9"]] ++
        [defaultIssueData "EPIC-A", defaultIssueData "EPIC-B"].map
          (fun ed => Query.taskSearch [ed.key]) := by
  have h := c2_batched_queries cexStore2 "AI Safety" (by decide) (by decide)
  exact ⟨h.1,
    h.2.2.2.2.2.2.2.2.2.2 "STRAT-9" (mkRaw "STRAT-9") []
      (defaultIssueData "STRAT-9")
      [defaultIssueData "EPIC-A", defaultIssueData "EPIC-B"]
      (by decide) (by decide) (by decide)⟩

/-- A singleton `progress` block has no level events. -/
theorem progress_single_class (m : String) :
    ∀ e ∈ [Event.progress m], isRfeEv e = false ∧ isStratEv e = false ∧
      isEpicEv e = false ∧ isTaskEv e = false := by
  intro e he
  simp at he
  subst he
  exact ⟨rfl, rfl, rfl, rfl⟩

/-- A conditional `progress` block has no level events. -/
theorem progress_opt_class (b : Bool) (m : String) :
    ∀ e ∈ (if b then ([] : List Event) else [Event.progress m]),
      isRfeEv e = false ∧ isStratEv e = false ∧ isEpicEv e = false ∧
        isTaskEv e = false := by
  cases b with
  | true => intro e he; simp at he
  | false =>
    intro e he
    simp at he
    subst he
    exact ⟨rfl, rfl, rfl, rfl⟩

/-- Level grouping of a completing RFE-first flow's events. -/
theorem eventsR_grouping (s : Store) (c : String) :
    beforeAll isRfeEv isStratEv (eventsR s c) ∧
    beforeAll isStratEv isEpicEv (eventsR s c) ∧
    beforeAll isEpicEv isTaskEv (eventsR s c) :=
  beforeAll_segments ((rfeDatasR s c).map Event.rfe) (stratEventsR s c)
    (epicEventsR s c) (taskEventsR s c)
    [Event.progress "Loading RFEs..."]
    (if (rfeDatasR s c).isEmpty then []
     else [Event.progress "Loading STRATs..."])
    (if (stratKeysR s c).isEmpty then []
     else [Event.progress "Loading Epics..."])
    (if (epicKeysR s c).isEmpty then []
     else [Event.progress "Loading Tasks..."])
    (Event.complete (rfeDatasR s c).length (stratEventsR s c).length
      (epicEventsR s c).length (taskEventsR s c).length)
    (rfeMap_class _) (stratEventsR_class s c) (epicEventsR_class s c)
    (taskEventsR_class s c)
    (progress_single_class _)
    (progress_opt_class _ _) (progress_opt_class _ _)
    (progress_opt_class _ _)
    ⟨rfl, rfl, rfl, rfl⟩
    (eventsR s c) (eventsR_uniform s c)

/-- Level grouping of a completing STRAT-first flow's events. -/
theorem eventsS_grouping (s : Store) (c : String) :
    beforeAll isRfeEv isStratEv (eventsS s c) ∧
    beforeAll isStratEv isEpicEv (eventsS s c) ∧
    beforeAll isEpicEv isTaskEv (eventsS s c) :=
  beforeAll_segments [] (stratEventsS s c) (epicEventsS s c)
    (taskEventsS s c)
    [Event.progress "Loading STRATs..."] []
    (if (stratKeysS s c).isEmpty then []
     else [Event.progress "Loading Epics..."])
    (if (epicKeysS s c).isEmpty then []
     else [Event.progress "Loading Tasks..."])
    (Event.complete 0 (stratEventsS s c).length (epicEventsS s c).length
      (taskEventsS s c).length)
    (by intro e he; cases he) (stratEventsS_class s c)
    (epicEventsS_class s c) (taskEventsS_class s c)
    (progress_single_class _)
    (by intro e he; cases he)
    (progress_opt_class _ _) (progress_opt_class _ _)
    ⟨rfl, rfl, rfl, rfl⟩
    (eventsS s c) (by rw [eventsS_uniform]; simp)

/-- C3: in both streamed flows the linked-record events of each level are
exactly the store-order `filterMap` of the fetched list (no additional
sorting), every level is fully emitted before the level below starts, and
each emitted record's parent event is itself emitted (with the matching
key), giving strict parent-before-child order per branch. -/
theorem c3_emission_order (s : Store) (c : String)
    (hR : OkR s c) (hS : OkS s c) :
    (stream_hierarchy_rfe_first s c).events.filter isRfeEv =
      (rfeDatasR s c).map Event.rfe ∧
    (stream_hierarchy_rfe_first s c).events.filter isStratEv =
      stratEventsR s c ∧
    (stream_hierarchy_rfe_first s c).events.filter isEpicEv =
      epicEventsR s c ∧
    (stream_hierarchy_rfe_first s c).events.filter isTaskEv =
      taskEventsR s c ∧
    beforeAll isRfeEv isStratEv (stream_hierarchy_rfe_first s c).events ∧
    beforeAll isStratEv isEpicEv (stream_hierarchy_rfe_first s c).events ∧
    beforeAll isEpicEv isTaskEv (stream_hierarchy_rfe_first s c).events ∧
    (∀ sd fr, Event.strat sd fr ∈ (stream_hierarchy_rfe_first s c).events →
      ∃ rd, Event.rfe rd ∈ (stream_hierarchy_rfe_first s c).events ∧
        fr = some rd.key) ∧
    (∀ ed rk sk,
      Event.epic ed rk sk ∈ (stream_hierarchy_rfe_first s c).events →
      ∃ sd fr, Event.strat sd fr ∈ (stream_hierarchy_rfe_first s c).events ∧
        sd.key = sk) ∧
    (∀ td it rk sk ek,
      Event.task td it rk sk ek ∈ (stream_hierarchy_rfe_first s c).events →
      ∃ ed rk2 sk2,
        Event.epic ed rk2 sk2 ∈ (stream_hierarchy_rfe_first s c).events ∧
        ed.key = ek) ∧
    (stream_hierarchy_strat_first s c).events.filter isStratEv =
      stratEventsS s c ∧
    (stream_hierarchy_strat_first s c).events.filter isEpicEv =
      epicEventsS s c ∧
    (stream_hierarchy_strat_first s c).events.filter isTaskEv =
      taskEventsS s c ∧
    beforeAll isStratEv isEpicEv (stream_hierarchy_strat_first s c).events ∧
    beforeAll isEpicEv isTaskEv (stream_hierarchy_strat_first s c).events ∧
    (∀ ed rk sk,
      Event.epic ed rk sk ∈ (stream_hierarchy_strat_first s c).events →
      ∃ sd fr,
        Event.strat sd fr ∈ (stream_hierarchy_strat_first s c).events ∧
        sd.key = sk) ∧
    (∀ td it rk sk ek,
      Event.task td it rk sk ek ∈
        (stream_hierarchy_strat_first s c).events →
      ∃ ed rk2 sk2,
        Event.epic ed rk2 sk2 ∈
          (stream_hierarchy_strat_first s c).events ∧
        ed.key = ek) := by
  rw [streamR_spec_of s c hR, streamS_spec_of s c hS]
  dsimp only
  refine ⟨eventsR_filter_rfe s c, eventsR_filter_strat s c,
    eventsR_filter_epic s c, eventsR_filter_task s c,
    (eventsR_grouping s c).1, (eventsR_grouping s c).2.1,
    (eventsR_grouping s c).2.2, ?_, ?_, ?_,
    eventsS_filter_strat s c, eventsS_filter_epic s c,
    eventsS_filter_task s c,
    (eventsS_grouping s c).2.1, (eventsS_grouping s c).2.2,
    ?_, ?_⟩
  · intro sd fr hmem
    have hf : Event.strat sd fr ∈ (eventsR s c).filter isStratEv :=
      List.mem_filter.mpr ⟨hmem, rfl⟩
    rw [eventsR_filter_strat] at hf
    obtain ⟨rd, hrd, hfr⟩ := stratEventsR_parent s c sd fr hf
    refine ⟨rd, ?_, hfr⟩
    have hin : Event.rfe rd ∈ (rfeDatasR s c).map Event.rfe :=
      List.mem_map_of_mem Event.rfe hrd
    rw [← eventsR_filter_rfe s c] at hin
    exact List.mem_of_mem_filter hin
  · intro ed rk sk hmem
    have hf : Event.epic ed rk sk ∈ (eventsR s c).filter isEpicEv :=
      List.mem_filter.mpr ⟨hmem, rfl⟩
    rw [eventsR_filter_epic] at hf
    obtain ⟨sd, fr, hsd, hk⟩ := epicEventsR_parent s c ed rk sk hf
    refine ⟨sd, fr, ?_, hk⟩
    rw [← eventsR_filter_strat s c] at hsd
    exact List.mem_of_mem_filter hsd
  · intro td it rk sk ek hmem
    have hf : Event.task td it rk sk ek ∈ (eventsR s c).filter isTaskEv :=
      List.mem_filter.mpr ⟨hmem, rfl⟩
    rw [eventsR_filter_task] at hf
    obtain ⟨ed, rk2, sk2, hed, hk⟩ := taskEventsR_parent s c td it rk sk ek hf
    refine ⟨ed, rk2, sk2, ?_, hk⟩
    rw [← eventsR_filter_epic s c] at hed
    exact List.mem_of_mem_filter hed
  · intro ed rk sk hmem
    have hf : Event.epic ed rk sk ∈ (eventsS s c).filter isEpicEv :=
      List.mem_filter.mpr ⟨hmem, rfl⟩
    rw [eventsS_filter_epic] at hf
    obtain ⟨sd, fr, hsd, hk⟩ := epicEventsS_parent s c ed rk sk hf
    refine ⟨sd, fr, ?_, hk⟩
    rw [← eventsS_filter_strat s c] at hsd
    exact List.mem_of_mem_filter hsd
  · intro td it rk sk ek hmem
    have hf : Event.task td it rk sk ek ∈ (eventsS s c).filter isTaskEv :=
      List.mem_filter.mpr ⟨hmem, rfl⟩
    rw [eventsS_filter_task] at hf
    obtain ⟨ed, rk2, sk2, hed, hk⟩ :=
      taskEventsS_parent s c td it rk sk ek hf
    refine ⟨ed, rk2, sk2, ?_, hk⟩
    rw [← eventsS_filter_epic s c] at hed
    exact List.mem_of_mem_filter hed

/-- Closed witness for C3 at the fully linked store. -/
theorem c3_emission_order_witness :
    (stream_hierarchy_rfe_first happyStore "AI Safety").events.filter
      isStratEv = stratEventsR happyStore "AI Safety" ∧
    beforeAll isStratEv isEpicEv
      (stream_hierarchy_rfe_first happyStore "AI Safety").events ∧
    (∃ ed rk2 sk2, Event.epic ed rk2 sk2 ∈
      (stream_hierarchy_rfe_first happyStore "AI Safety").events ∧
      ed.key = "EPIC-1") := by
  have h := c3_emission_order happyStore "AI Safety" (by decide) (by decide)
  exact ⟨h.2.1, h.2.2.2.2.2.1,
    h.2.2.2.2.2.2.2.2.2.1 (defaultIssueData "TASK-1") "Task"
      (some "RFE-1") "STRAT-1" "EPIC-1" (by decide)⟩

/-- `countP` of a class-uniform event list under its own class is its
length. -/
theorem countP_class_self {p : Event → Bool} {l : List Event}
    (h : ∀ e ∈ l, p e = true) : l.countP p = l.length := by
  rw [List.countP_eq_length_filter, filter_all_true h]

/-- `countP` under a class none of the members satisfy is zero. -/
theorem countP_class_none {p : Event → Bool} {l : List Event}
    (h : ∀ e ∈ l, p e = false) : l.countP p = 0 := by
  rw [List.countP_eq_length_filter, filter_all_false h]
  rfl

/-- A conditional `progress` block contributes nothing to a level count. -/
theorem countP_progOpt (b : Bool) (m : String) (p : Event → Bool)
    (hp : p (Event.progress m) = false) :
    (if b then ([] : List Event) else [Event.progress m]).countP p = 0 := by
  cases b <;> simp [List.countP_cons, hp]

/-- The events a completing RFE-first flow emits before its `complete`
event. -/
def preEventsR (s : Store) (c : String) : List Event :=
  [Event.progress "Loading RFEs..."] ++ (rfeDatasR s c).map Event.rfe ++
    (if (rfeDatasR s c).isEmpty then []
     else [Event.progress "Loading STRATs..."]) ++
    stratEventsR s c ++
    (if (stratKeysR s c).isEmpty then []
     else [Event.progress "Loading Epics..."]) ++
    epicEventsR s c ++
    (if (epicKeysR s c).isEmpty then []
     else [Event.progress "Loading Tasks..."]) ++
    taskEventsR s c

/-- The events a completing STRAT-first flow emits before its `complete`
event. -/
def preEventsS (s : Store) (c : String) : List Event :=
  [Event.progress "Loading STRATs..."] ++ stratEventsS s c ++
    (if (stratKeysS s c).isEmpty then []
     else [Event.progress "Loading Epics..."]) ++
    epicEventsS s c ++
    (if (epicKeysS s c).isEmpty then []
     else [Event.progress "Loading Tasks..."]) ++
    taskEventsS s c

/-- A completing RFE-first flow is its prefix plus one `complete` event. -/
theorem eventsR_pre (s : Store) (c : String) :
    eventsR s c = preEventsR s c ++
      [Event.complete (rfeDatasR s c).length (stratEventsR s c).length
        (epicEventsR s c).length (taskEventsR s c).length] := by
  rw [eventsR_uniform]
  rfl

/-- A completing STRAT-first flow is its prefix plus one `complete`
event. -/
theorem eventsS_pre (s : Store) (c : String) :
    eventsS s c = preEventsS s c ++
      [Event.complete 0 (stratEventsS s c).length (epicEventsS s c).length
        (taskEventsS s c).length] := by
  rw [eventsS_uniform]
  rfl

/-- Per-class counts of the RFE-first prefix. -/
theorem preEventsR_counts (s : Store) (c : String) :
    (preEventsR s c).countP isRfeEv = (rfeDatasR s c).length ∧
    (preEventsR s c).countP isStratEv = (stratEventsR s c).length ∧
    (preEventsR s c).countP isEpicEv = (epicEventsR s c).length ∧
    (preEventsR s c).countP isTaskEv = (taskEventsR s c).length ∧
    (preEventsR s c).countP isCompleteEv = 0 := by
  refine ⟨?_, ?_, ?_, ?_, ?_⟩ <;>
    (unfold preEventsR; simp only [List.countP_append])
  · rw [countP_class_none (fun e he => (progress_single_class _ e he).1),
      countP_class_self (rfeMap_class _),
      countP_class_none
        (fun e he => ((ev_class_unique e).2.1 (stratEventsR_class s c e he)).1),
      countP_class_none
        (fun e he =>
          ((ev_class_unique e).2.2.1 (epicEventsR_class s c e he)).1),
      countP_class_none
        (fun e he =>
          ((ev_class_unique e).2.2.2 (taskEventsR_class s c e he)).1),
      countP_progOpt _ _ _ rfl, countP_progOpt _ _ _ rfl,
      countP_progOpt _ _ _ rfl]
    simp
  · rw [countP_class_none (fun e he => (progress_single_class _ e he).2.1),
      countP_class_none
        (fun e he => ((ev_class_unique e).1 (rfeMap_class _ e he)).1),
      countP_class_self (stratEventsR_class s c),
      countP_class_none
        (fun e he =>
          ((ev_class_unique e).2.2.1 (epicEventsR_class s c e he)).2.1),
      countP_class_none
        (fun e he =>
          ((ev_class_unique e).2.2.2 (taskEventsR_class s c e he)).2.1),
      countP_progOpt _ _ _ rfl, countP_progOpt _ _ _ rfl,
      countP_progOpt _ _ _ rfl]
    simp
  · rw [countP_class_none (fun e he => (progress_single_class _ e he).2.2.1),
      countP_class_none
        (fun e he => ((ev_class_unique e).1 (rfeMap_class _ e he)).2.1),
      countP_class_none
        (fun e he =>
          ((ev_class_unique e).2.1 (stratEventsR_class s c e he)).2.1),
      countP_class_self (epicEventsR_class s c),
      countP_class_none
        (fun e he =>
          ((ev_class_unique e).2.2.2 (taskEventsR_class s c e he)).2.2.1),
      countP_progOpt _ _ _ rfl, countP_progOpt _ _ _ rfl,
      countP_progOpt _ _ _ rfl]
    simp
  · rw [countP_class_none
        (fun e he => (progress_single_class _ e he).2.2.2),
      countP_class_none
        (fun e he => ((ev_class_unique e).1 (rfeMap_class _ e he)).2.2.1),
      countP_class_none
        (fun e he =>
          ((ev_class_unique e).2.1 (stratEventsR_class s c e he)).2.2.1),
      countP_class_none
        (fun e he =>
          ((ev_class_unique e).2.2.1 (epicEventsR_class s c e he)).2.2.1),
      countP_class_self (taskEventsR_class s c),
      countP_progOpt _ _ _ rfl, countP_progOpt _ _ _ rfl,
      countP_progOpt _ _ _ rfl]
    simp
  · have h0 : ([Event.progress "Loading RFEs..."]).countP isCompleteEv = 0 :=
      rfl
    rw [h0,
      countP_class_none
        (fun e he => ((ev_class_unique e).1 (rfeMap_class _ e he)).2.2.2.1),
      countP_class_none
        (fun e he =>
          ((ev_class_unique e).2.1 (stratEventsR_class s c e he)).2.2.2.1),
      countP_class_none
        (fun e he =>
          ((ev_class_unique e).2.2.1 (epicEventsR_class s c e he)).2.2.2.1),
      countP_class_none
        (fun e he =>
          ((ev_class_unique e).2.2.2 (taskEventsR_class s c e he)).2.2.2.1),
      countP_progOpt _ _ _ rfl, countP_progOpt _ _ _ rfl,
      countP_progOpt _ _ _ rfl]

/-- Per-class counts of the STRAT-first prefix. -/
theorem preEventsS_counts (s : Store) (c : String) :
    (preEventsS s c).countP isRfeEv = 0 ∧
    (preEventsS s c).countP isStratEv = (stratEventsS s c).length ∧
    (preEventsS s c).countP isEpicEv = (epicEventsS s c).length ∧
    (preEventsS s c).countP isTaskEv = (taskEventsS s c).length ∧
    (preEventsS s c).countP isCompleteEv = 0 := by
  refine ⟨?_, ?_, ?_, ?_, ?_⟩ <;>
    (unfold preEventsS; simp only [List.countP_append])
  · rw [countP_class_none (fun e he => (progress_single_class _ e he).1),
      countP_class_none
        (fun e he => ((ev_class_unique e).2.1 (stratEventsS_class s c e he)).1),
      countP_class_none
        (fun e he =>
          ((ev_class_unique e).2.2.1 (epicEventsS_class s c e he)).1),
      countP_class_none
        (fun e he =>
          ((ev_class_unique e).2.2.2 (taskEventsS_class s c e he)).1),
      countP_progOpt _ _ _ rfl, countP_progOpt _ _ _ rfl]
  · rw [countP_class_none (fun e he => (progress_single_class _ e he).2.1),
      countP_class_self (stratEventsS_class s c),
      countP_class_none
        (fun e he =>
          ((ev_class_unique e).2.2.1 (epicEventsS_class s c e he)).2.1),
      countP_class_none
        (fun e he =>
          ((ev_class_unique e).2.2.2 (taskEventsS_class s c e he)).2.1),
      countP_progOpt _ _ _ rfl, countP_progOpt _ _ _ rfl]
    simp
  · rw [countP_class_none (fun e he => (progress_single_class _ e he).2.2.1),
      countP_class_none
        (fun e he =>
          ((ev_class_unique e).2.1 (stratEventsS_class s c e he)).2.1),
      countP_class_self (epicEventsS_class s c),
      countP_class_none
        (fun e he =>
          ((ev_class_unique e).2.2.2 (taskEventsS_class s c e he)).2.2.1),
      countP_progOpt _ _ _ rfl, countP_progOpt _ _ _ rfl]
    simp
  · rw [countP_class_none
        (fun e he => (progress_single_class _ e he).2.2.2),
      countP_class_none
        (fun e he =>
          ((ev_class_unique e).2.1 (stratEventsS_class s c e he)).2.2.1),
      countP_class_none
        (fun e he =>
          ((ev_class_unique e).2.2.1 (epicEventsS_class s c e he)).2.2.1),
      countP_class_self (taskEventsS_class s c),
      countP_progOpt _ _ _ rfl, countP_progOpt _ _ _ rfl]
    simp
  · have h0 :
        ([Event.progress "Loading STRATs..."]).countP isCompleteEv = 0 :=
      rfl
    rw [h0,
      countP_class_none
        (fun e he =>
          ((ev_class_unique e).2.1 (stratEventsS_class s c e he)).2.2.2.1),
      countP_class_none
        (fun e he =>
          ((ev_class_unique e).2.2.1 (epicEventsS_class s c e he)).2.2.2.1),
      countP_class_none
        (fun e he =>
          ((ev_class_unique e).2.2.2 (taskEventsS_class s c e he)).2.2.2.1),
      countP_progOpt _ _ _ rfl, countP_progOpt _ _ _ rfl]

/-- C5: in both completing streamed flows the events split as a prefix plus
a single final `complete` event whose per-level totals equal the number of
events of that level in the prefix; the prefix holds no `complete` event,
the whole flow holds exactly one, and in STRAT-first mode the RFE total
carried (and the number of RFE events emitted) is zero. -/
theorem c5_complete_totals (s : Store) (c : String)
    (hR : OkR s c) (hS : OkS s c) :
    (∃ pre, (stream_hierarchy_rfe_first s c).events =
        pre ++ [Event.complete (pre.countP isRfeEv) (pre.countP isStratEv)
          (pre.countP isEpicEv) (pre.countP isTaskEv)] ∧
      pre.countP isCompleteEv = 0) ∧
    (stream_hierarchy_rfe_first s c).events.countP isCompleteEv = 1 ∧
    (∃ pre, (stream_hierarchy_strat_first s c).events =
        pre ++ [Event.complete 0 (pre.countP isStratEv)
          (pre.countP isEpicEv) (pre.countP isTaskEv)] ∧
      pre.countP isCompleteEv = 0 ∧ pre.countP isRfeEv = 0) ∧
    (stream_hierarchy_strat_first s c).events.countP isCompleteEv = 1 := by
  rw [streamR_spec_of s c hR, streamS_spec_of s c hS]
  dsimp only
  obtain ⟨hr1, hr2, hr3, hr4, hr5⟩ := preEventsR_counts s c
  obtain ⟨hs1, hs2, hs3, hs4, hs5⟩ := preEventsS_counts s c
  refine ⟨⟨preEventsR s c, ?_, hr5⟩, ?_, ⟨preEventsS s c, ?_, hs5, hs1⟩, ?_⟩
  · rw [eventsR_pre, hr1, hr2, hr3, hr4]
  · rw [eventsR_pre, List.countP_append, hr5]
    rfl
  · rw [eventsS_pre, hs2, hs3, hs4]
  · rw [eventsS_pre, List.countP_append, hs5]
    rfl

/-- Closed witness for C5 at the fully linked store. -/
theorem c5_complete_totals_witness :
    (stream_hierarchy_rfe_first happyStore "AI Safety").events.countP
      isCompleteEv = 1 ∧
    (stream_hierarchy_strat_first happyStore "AI Safety").events.countP
      isCompleteEv = 1 := by
  have h := c5_complete_totals happyStore "AI Safety" (by decide) (by decide)
  exact ⟨h.2.1, h.2.2.2⟩

/-- Under successful builds, an empty `*_keys_list` means the fetch
returned no records. -/
theorem builtKeys_nil {l : List RawIssue}
    (h : ∀ r ∈ l, okB (build_issue_data r) = true)
    (hn : builtKeys l = []) : l = [] := by
  cases l with
  | nil => rfl
  | cons a t =>
    exfalso
    obtain ⟨d, hd⟩ := (okB_iff _).mp (h a (List.mem_cons_self a t))
    simp [builtKeys, buildOk, hd, Except.toOption, List.filterMap_cons]
      at hn

/-- A fetched STRAT record carries resolvable parent evidence: some
issuelink resolves to a truthy RFE key (the guard of the STRAT loop,
`sse.py` lines 98-126). -/
def stratLinkEvidenceB (rfeKeys : List String) (r : RawIssue) : Bool :=
  match build_issue_data r with
  | .ok _ =>
    (match findRfeLink rfeKeys (r.fields.issuelinks.getD []) with
     | some fr => !fr.isEmpty
     | none => false)
  | .error _ => false

/-- A fetched Epic record carries resolvable parent evidence: its
denormalized `customfield_12313140` is truthy and a member of the known
STRAT-key set (the guard of the Epic loops, `sse.py` lines 151-166,
345-352). -/
def epicLinkEvidenceB (stratKeys : List String) (r : RawIssue) : Bool :=
  match build_issue_data r with
  | .ok _ =>
    (match r.fields.customfield_12313140 with
     | some pl =>
       if pl.isEmpty then false
       else if pl ∈ stratKeys then true else false
     | none => false)
  | .error _ => false

/-- A fetched Task record carries resolvable parent evidence: its
denormalized `customfield_12311140` is truthy and a member of the known
Epic-key set (the guard of the Task loops, `sse.py` lines 203-216,
359-374). -/
def taskLinkEvidenceB (epicKeys : List String) (r : RawIssue) : Bool :=
  match buildTask r with
  | .ok _ =>
    (match r.fields.customfield_12311140 with
     | some el =>
       if el.isEmpty then false
       else if el ∈ epicKeys then true else false
     | none => false)
  | .error _ => false

/-- A STRAT record without link evidence emits no event. -/
theorem stratEmit_none (rfeKeys : List String) (r : RawIssue)
    (h : stratLinkEvidenceB rfeKeys r = false) :
    stratEmit rfeKeys r = none := by
  unfold stratLinkEvidenceB at h
  unfold stratEmit
  cases hb : build_issue_data r with
  | error e => rfl
  | ok sd =>
    rw [hb] at h
    dsimp only at h ⊢
    cases hf : findRfeLink rfeKeys (r.fields.issuelinks.getD []) with
    | none => rfl
    | some fr =>
      (try rw [hf] at h)
      dsimp only at h ⊢
      cases hfe : fr.isEmpty with
      | true => simp [hfe]
      | false => rw [hfe] at h; simp at h

/-- An Epic record without link evidence emits no event (RFE-first). -/
theorem epicEmit_noneR (stratKeys : List String)
    (m : List (String × List IssueData)) (r : RawIssue)
    (h : epicLinkEvidenceB stratKeys r = false) :
    epicEmit stratKeys m r = none := by
  unfold epicLinkEvidenceB at h
  unfold epicEmit
  cases hb : build_issue_data r with
  | error e => rfl
  | ok ed =>
    rw [hb] at h
    dsimp only at h ⊢
    cases hf : r.fields.customfield_12313140 with
    | none => rfl
    | some pl =>
      (try rw [hf] at h)
      dsimp only at h ⊢
      by_cases hpe : pl.isEmpty = true
      · simp [hpe]
      · rw [if_neg hpe] at h
        by_cases hm : pl ∈ stratKeys
        · rw [if_pos hm] at h; simp at h
        · simp [hpe, hm]

/-- A Task record without link evidence emits no event (RFE-first). -/
theorem taskEmit_noneR (epicKeys : List String)
    (ebs sbr : List (String × List IssueData)) (r : RawIssue)
    (h : taskLinkEvidenceB epicKeys r = false) :
    taskEmit epicKeys ebs sbr r = none := by
  unfold taskLinkEvidenceB at h
  unfold taskEmit
  cases hb : buildTask r with
  | error e => rfl
  | ok t =>
    rw [hb] at h
    dsimp only at h ⊢
    cases hf : r.fields.customfield_12311140 with
    | none => rfl
    | some el =>
      (try rw [hf] at h)
      dsimp only at h ⊢
      by_cases hpe : el.isEmpty = true
      · simp [hpe]
      · rw [if_neg hpe] at h
        by_cases hm : el ∈ epicKeys
        · rw [if_pos hm] at h; simp at h
        · simp [hpe, hm]

/-- An Epic record without link evidence emits no event (STRAT-first). -/
theorem epicEmitS_none (stratKeys : List String) (r : RawIssue)
    (h : epicLinkEvidenceB stratKeys r = false) :
    epicEmitS stratKeys r = none := by
  unfold epicLinkEvidenceB at h
  unfold epicEmitS
  cases hb : build_issue_data r with
  | error e => rfl
  | ok ed =>
    rw [hb] at h
    dsimp only at h ⊢
    cases hf : r.fields.customfield_12313140 with
    | none => rfl
    | some pl =>
      (try rw [hf] at h)
      dsimp only at h ⊢
      by_cases hpe : pl.isEmpty = true
      · simp [hpe]
      · rw [if_neg hpe] at h
        by_cases hm : pl ∈ stratKeys
        · rw [if_pos hm] at h; simp at h
        · simp [hpe, hm]

/-- A Task record without link evidence emits no event (STRAT-first). -/
theorem taskEmitS_none (epicKeys : List String)
    (ebs : List (String × List IssueData)) (r : RawIssue)
    (h : taskLinkEvidenceB epicKeys r = false) :
    taskEmitS epicKeys ebs r = none := by
  unfold taskLinkEvidenceB at h
  unfold taskEmitS
  cases hb : buildTask r with
  | error e => rfl
  | ok t =>
    rw [hb] at h
    dsimp only at h ⊢
    cases hf : r.fields.customfield_12311140 with
    | none => rfl
    | some el =>
      (try rw [hf] at h)
      dsimp only at h ⊢
      by_cases hpe : el.isEmpty = true
      · simp [hpe]
      · rw [if_neg hpe] at h
        by_cases hm : el ∈ epicKeys
        · rw [if_pos hm] at h; simp at h
        · simp [hpe, hm]

/-- C6 counterexample: at `cexStore1` the RFE-first flow fetches one Epic
record that carries resolvable link evidence (its parent field `"STRAT-1"`
is in the known STRAT-key set), so records-fetched − records-linked is
1 − 1 = 0, yet the flow reports an Epic orphan count of 1 (the count
actually subtracts the number of *emitted* Epic events, 0, because the
linked parent STRAT is itself orphaned). -/
theorem c6_counterexample :
    (stream_hierarchy_rfe_first cexStore1 "AI Safety").orphans =
      some ⟨some 1, 1, 0⟩ ∧
    (epicRawsR cexStore1 "AI Safety").length = 1 ∧
    (epicRawsR cexStore1 "AI Safety").countP
      (epicLinkEvidenceB (stratKeysR cexStore1 "AI Safety")) = 1 ∧
    ¬ (stream_hierarchy_rfe_first cexStore1 "AI Safety").orphans =
      some ⟨some ((1 : Int) - 0), ((1 : Int) - 1), ((0 : Int) - 0)⟩ := by
  decide

/-- C6 (amended): in both completing flows each orphan count equals the
number of records *fetched* at that level minus the number of level events
actually *emitted* (which can exceed fetched − linked when a linked child's
ancestor is orphaned), the difference is never negative, and a record
without resolvable link evidence is never emitted as an event. -/
theorem c6_orphan_counts (s : Store) (c : String)
    (hR : OkR s c) (hS : OkS s c) :
    ((rfeDatasR s c).isEmpty = false →
      (stream_hierarchy_rfe_first s c).orphans =
        some ⟨some ((stratRawsR s c).length -
            (stratEventsR s c).length : Int),
          ((epicRawsR s c).length - (epicEventsR s c).length : Int),
          ((taskRawsR s c).length - (taskEventsR s c).length : Int)⟩) ∧
    (stratEventsR s c).length ≤ (stratRawsR s c).length ∧
    (epicEventsR s c).length ≤ (epicRawsR s c).length ∧
    (taskEventsR s c).length ≤ (taskRawsR s c).length ∧
    (∀ o, (stream_hierarchy_rfe_first s c).orphans = some o →
      (∀ x, o.strats = some x → 0 ≤ x) ∧ 0 ≤ o.epics ∧ 0 ≤ o.tasks) ∧
    (∀ r, stratLinkEvidenceB (rfeKeysR s c) r = false →
      stratEmit (rfeKeysR s c) r = none) ∧
    (∀ r, epicLinkEvidenceB (stratKeysR s c) r = false →
      epicEmit (stratKeysR s c) (stratsByRfeR s c) r = none) ∧
    (∀ r, taskLinkEvidenceB (epicKeysR s c) r = false →
      taskEmit (epicKeysR s c) (epicsByStratR s c) (stratsByRfeR s c) r =
        none) ∧
    ((stratRawsS s c).isEmpty = false →
      (stream_hierarchy_strat_first s c).orphans =
        some ⟨none,
          ((epicRawsS s c).length - (epicEventsS s c).length : Int),
          ((taskRawsS s c).length - (taskEventsS s c).length : Int)⟩) ∧
    (epicEventsS s c).length ≤ (epicRawsS s c).length ∧
    (taskEventsS s c).length ≤ (taskRawsS s c).length ∧
    (∀ o, (stream_hierarchy_strat_first s c).orphans = some o →
      0 ≤ o.epics ∧ 0 ≤ o.tasks) ∧
    (∀ r, epicLinkEvidenceB (stratKeysS s c) r = false →
      epicEmitS (stratKeysS s c) r = none) ∧
    (∀ r, taskLinkEvidenceB (epicKeysS s c) r = false →
      taskEmitS (epicKeysS s c) (epicsByStratS s c) r = none) := by
  obtain ⟨h1, h2, h3, h4, h5, h6, h7, h8⟩ := hR
  obtain ⟨g1, g2, g3, g4, g5, g6⟩ := hS
  rw [streamR_spec_of s c ⟨h1, h2, h3, h4, h5, h6, h7, h8⟩,
    streamS_spec_of s c ⟨g1, g2, g3, g4, g5, g6⟩]
  dsimp only
  have hE : (if (epicKeysR s c).isEmpty then (0 : Int)
      else ((epicRawsR s c).length : Int)) =
      ((epicRawsR s c).length : Int) := by
    by_cases h : (epicKeysR s c).isEmpty = true
    · have hek : builtKeys (epicRawsR s c) = [] := by
        cases hx : epicKeysR s c with
        | nil => exact hx
        | cons a t => rw [hx] at h; simp at h
      have hra : epicRawsR s c = [] := builtKeys_nil h6 hek
      rw [if_pos h, hra]
      rfl
    · rw [if_neg h]
  have hT : (if (epicKeysR s c).isEmpty then (0 : Int)
      else ((taskRawsR s c).length : Int)) =
      ((taskRawsR s c).length : Int) := by
    by_cases h : (epicKeysR s c).isEmpty = true
    · have ht : taskRawsR s c = [] := by unfold taskRawsR; rw [if_pos h]
      rw [if_pos h, ht]
      rfl
    · rw [if_neg h]
  have hES : (if (epicKeysS s c).isEmpty then (0 : Int)
      else ((epicRawsS s c).length : Int)) =
      ((epicRawsS s c).length : Int) := by
    by_cases h : (epicKeysS s c).isEmpty = true
    · have hek : builtKeys (epicRawsS s c) = [] := by
        cases hx : epicKeysS s c with
        | nil => exact hx
        | cons a t => rw [hx] at h; simp at h
      have hra : epicRawsS s c = [] := builtKeys_nil g4 hek
      rw [if_pos h, hra]
      rfl
    · rw [if_neg h]
  have hTS : (if (epicKeysS s c).isEmpty then (0 : Int)
      else ((taskRawsS s c).length : Int)) =
      ((taskRawsS s c).length : Int) := by
    by_cases h : (epicKeysS s c).isEmpty = true
    · have ht : taskRawsS s c = [] := by unfold taskRawsS; rw [if_pos h]
      rw [if_pos h, ht]
      rfl
    · rw [if_neg h]
  have hle1 : (stratEventsR s c).length ≤ (stratRawsR s c).length :=
    List.length_filterMap_le _ _
  have hle2 : (epicEventsR s c).length ≤ (epicRawsR s c).length :=
    List.length_filterMap_le _ _
  have hle3 : (taskEventsR s c).length ≤ (taskRawsR s c).length :=
    List.length_filterMap_le _ _
  have hle4 : (epicEventsS s c).length ≤ (epicRawsS s c).length :=
    List.length_filterMap_le _ _
  have hle5 : (taskEventsS s c).length ≤ (taskRawsS s c).length :=
    List.length_filterMap_le _ _
  refine ⟨?_, hle1, hle2, hle3, ?_,
    fun r h => stratEmit_none _ r h,
    fun r h => epicEmit_noneR _ _ r h,
    fun r h => taskEmit_noneR _ _ _ r h,
    ?_, hle4, hle5, ?_,
    fun r h => epicEmitS_none _ r h,
    fun r h => taskEmitS_none _ _ r h⟩
  · intro hne
    unfold orphansR
    simp only [hne, Bool.false_eq_true, if_false]
    rw [hE, hT]
  · intro o ho
    unfold orphansR at ho
    by_cases hne : (rfeDatasR s c).isEmpty = true
    · rw [if_pos hne] at ho
      cases ho
    · rw [if_neg hne, hE, hT] at ho
      have ho2 : o = ⟨some ((stratRawsR s c).length -
          (stratEventsR s c).length : Int),
          ((epicRawsR s c).length - (epicEventsR s c).length : Int),
          ((taskRawsR s c).length - (taskEventsR s c).length : Int)⟩ :=
        (Option.some.inj ho).symm
      subst ho2
      refine ⟨?_, ?_, ?_⟩
      · intro x hx
        dsimp only at hx
        rw [← Option.some.inj hx]
        omega
      · dsimp only
        omega
      · dsimp only
        omega
  · intro hne
    unfold orphansS
    simp only [hne, Bool.false_eq_true, if_false]
    rw [hES, hTS]
  · intro o ho
    unfold orphansS at ho
    by_cases hne : (stratRawsS s c).isEmpty = true
    · rw [if_pos hne] at ho
      cases ho
    · rw [if_neg hne, hES, hTS] at ho
      have ho2 : o = ⟨none,
          ((epicRawsS s c).length - (epicEventsS s c).length : Int),
          ((taskRawsS s c).length - (taskEventsS s c).length : Int)⟩ :=
        (Option.some.inj ho).symm
      subst ho2
      exact ⟨by dsimp only; omega, by dsimp only; omega⟩

/-- Closed witness for C6 (amended) at the fully linked store. -/
theorem c6_orphan_counts_witness :
    (stream_hierarchy_rfe_first happyStore "AI Safety").orphans =
      some ⟨some ((stratRawsR happyStore "AI Safety").length -
          (stratEventsR happyStore "AI Safety").length : Int),
        ((epicRawsR happyStore "AI Safety").length -
          (epicEventsR happyStore "AI Safety").length : Int),
        ((taskRawsR happyStore "AI Safety").length -
          (taskEventsR happyStore "AI Safety").length : Int)⟩ ∧
    (epicEventsR happyStore "AI Safety").length ≤
      (epicRawsR happyStore "AI Safety").length := by
  have h := c6_orphan_counts happyStore "AI Safety" (by decide) (by decide)
  exact ⟨h.1 (by decide), h.2.2.1⟩

/-- Store whose top-level fetches fail, exercising the stream error
boundary. -/
def errStore : Store :=
  { rfeSearch := fun _ => .error (.jiraApiError 503 "down")
  , stratTopSearch := fun _ => .error (.jiraApiError 503 "down")
  , stratSearch := fun _ => .ok []
  , epicSearch := fun _ => .ok []
  , taskSearch := fun _ => .ok []
  , keySearch := fun _ => .ok [] }

/-- C4 counterexample: at `cexStore4` the Task query of an Epic reload
fails with a remote-store error (HTTP 500), yet the reload response is a
success payload with an empty task list — `fetch_tasks_for_epic` swallows
the adapter error instead of propagating it to the Reloader boundary. -/
theorem c4_counterexample :
    cexStore4.taskSearch ["EPIC-9"] =
      .error (.jiraApiError 500 "boom") ∧
    reload_item cexStore4 "epic" "EPIC-9" "AI Safety" =
      ⟨[Query.keySearch "EPIC-9", Query.taskSearch ["EPIC-9"]],
        .ok (.epic ⟨defaultIssueData "EPIC-9", none, none, []⟩)⟩ := by
  decide

/-- C4 (amended): in the streaming flows an escaped adapter error does
surface as exactly one terminal `error` event appended after the
already-emitted events (and a flow without an escaped error emits no
`error` event), but in the reload flow `fetch_tasks_for_epic` swallows an
adapter error from the Task query, returning an empty task list, so an
Epic reload whose Task query fails still answers with a success payload
carrying no tasks. -/
theorem c4_error_propagation (s : Store) (c tl : String) :
    (∀ e0, (stream_hierarchy s c tl).err = some e0 →
      serve_hierarchy_stream s c tl =
        (stream_hierarchy s c tl).events ++ [Event.errorEvent e0] ∧
      (serve_hierarchy_stream s c tl).countP isErrorEv = 1) ∧
    ((stream_hierarchy s c tl).err = none →
      serve_hierarchy_stream s c tl = (stream_hierarchy s c tl).events ∧
      (serve_hierarchy_stream s c tl).countP isErrorEv = 0) ∧
    (∀ k e0, s.taskSearch [k] = .error e0 →
      fetch_tasks_for_epic s k = ([Query.taskSearch [k]], [])) ∧
    (∀ k raw rest ed e0, s.keySearch k = .ok (raw :: rest) →
      build_issue_data raw = .ok ed → s.taskSearch [k] = .error e0 →
      reload_item s "epic" k c =
        ⟨[Query.keySearch k, Query.taskSearch [k]],
          .ok (.epic ⟨ed, none, none, []⟩)⟩) := by
  refine ⟨?_, ?_, ?_, ?_⟩
  · intro e0 he
    have heq : serve_hierarchy_stream s c tl =
        (stream_hierarchy s c tl).events ++ [Event.errorEvent e0] := by
      unfold serve_hierarchy_stream
      dsimp only
      rw [he]
    refine ⟨heq, ?_⟩
    rw [heq, List.countP_append,
      countP_class_none (stream_no_error s c tl)]
    rfl
  · intro he
    have heq : serve_hierarchy_stream s c tl =
        (stream_hierarchy s c tl).events := by
      unfold serve_hierarchy_stream
      dsimp only
      rw [he]
    refine ⟨heq, ?_⟩
    rw [heq]
    exact countP_class_none (stream_no_error s c tl)
  · intro k e0 he
    unfold fetch_tasks_for_epic
    rw [he]
  · intro k raw rest ed e0 hk hb ht
    have htf : fetch_tasks_for_epic s k = ([Query.taskSearch [k]], []) := by
      unfold fetch_tasks_for_epic
      rw [ht]
    unfold reload_item
    rw [if_neg (by decide), if_neg (by decide), if_pos rfl]
    dsimp only
    rw [hk]
    dsimp only
    rw [hb]
    dsimp only
    rw [htf]
    rfl

/-- Closed witness for C4 (amended). -/
theorem c4_error_propagation_witness :
    serve_hierarchy_stream errStore "AI Safety" "rfe" =
      (stream_hierarchy errStore "AI Safety" "rfe").events ++
        [Event.errorEvent (.jiraApiError 503 "down")] ∧
    (serve_hierarchy_stream errStore "AI Safety" "rfe").countP isErrorEv =
      1 ∧
    fetch_tasks_for_epic cexStore4 "EPIC-9" =
      ([Query.taskSearch ["EPIC-9"]], []) ∧
    reload_item cexStore4 "epic" "EPIC-9" "AI Safety" =
      ⟨[Query.keySearch "EPIC-9", Query.taskSearch ["EPIC-9"]],
        .ok (.epic ⟨defaultIssueData "EPIC-9", none, none, []⟩)⟩ := by
  have h1 := c4_error_propagation errStore "AI Safety" "rfe"
  have h2 := c4_error_propagation cexStore4 "AI Safety" "rfe"
  obtain ⟨ha, hb⟩ := h1.1 (.jiraApiError 503 "down") (by decide)
  exact ⟨ha, hb,
    h2.2.2.1 "EPIC-9" (.jiraApiError 500 "boom") (by decide),
    h2.2.2.2 "EPIC-9" (mkRaw "EPIC-9") [] (defaultIssueData "EPIC-9")
      (.jiraApiError 500 "boom") (by decide) (by decide) (by decide)⟩

end JiraHierarchy
